import Mathlib

set_option linter.unusedVariables false
set_option linter.unnecessarySeqFocus false

/-!
Verification of the bignum kernel and the AST-to-LLIR lowering engine of
an early zig stage-1 compiler (src/bignum.cpp, src/codegen.cpp), as a
shallow embedding in Lean.

Part 1 embeds the bignum kernel: a tagged numeric value with an integer
form (64-bit magnitude plus sign) and a float form (IEEE double).
Magnitudes are natural numbers reduced mod 2^64 exactly where the C
64-bit overflow builtins wrap.  C functions that write through a dest
pointer are modelled as functions that take the previous contents of
dest explicitly, because some branches of the source leave dest fields
unassigned and the result then depends on them.
-/

namespace ZigBignum

/-- Kind tag of a bignum value (BigNumKind in bignum.hpp). -/
inductive BigNumKind where
  | int
  | float
deriving DecidableEq

/-- Classification of an IEEE-754 double as used by the bignum kernel:
NaN, an infinity, or a finite value.  Every finite double is a rational
number, and the C comparison operators on doubles depend only on this
classification and on the numeric value, so the comparison functions
below are a faithful image of the source comparisons.  The arithmetic
functions on this type are a model (exact rational arithmetic on finite
values); no claim verified in this file depends on the result of float
arithmetic, only on float comparisons. -/
inductive FVal where
  | nan
  | ninf
  | pinf
  | fin (q : ℚ)
deriving DecidableEq

/-- IEEE equality on doubles: false whenever an operand is NaN. -/
def FVal.feq : FVal → FVal → Bool
  | .nan, _ => false
  | _, .nan => false
  | .ninf, .ninf => true
  | .pinf, .pinf => true
  | .fin a, .fin b => decide (a = b)
  | _, _ => false

/-- IEEE less-or-equal on doubles: false whenever an operand is NaN. -/
def FVal.fle : FVal → FVal → Bool
  | .nan, _ => false
  | _, .nan => false
  | .ninf, _ => true
  | _, .pinf => true
  | .pinf, _ => false
  | _, .ninf => false
  | .fin a, .fin b => decide (a ≤ b)

/-- IEEE greater-or-equal on doubles: false whenever an operand is NaN. -/
def FVal.fge : FVal → FVal → Bool
  | .nan, _ => false
  | _, .nan => false
  | .pinf, _ => true
  | _, .ninf => true
  | .ninf, _ => false
  | _, .pinf => false
  | .fin a, .fin b => decide (b ≤ a)

/-- Model of IEEE addition (exact on finite values; no claim depends on it). -/
def FVal.fadd : FVal → FVal → FVal
  | .fin a, .fin b => .fin (a + b)
  | _, _ => .nan

/-- Model of IEEE negation. -/
def FVal.fneg : FVal → FVal
  | .nan => .nan
  | .ninf => .pinf
  | .pinf => .ninf
  | .fin a => .fin (-a)

/-- Model of IEEE multiplication (exact on finite values). -/
def FVal.fmul : FVal → FVal → FVal
  | .fin a, .fin b => .fin (a * b)
  | _, _ => .nan

/-- Model of IEEE division (exact on finite values). -/
def FVal.fdiv : FVal → FVal → FVal
  | .fin a, .fin b => if b = 0 then .nan else .fin (a / b)
  | _, _ => .nan

/-- Model of C fmod (exact on finite values). -/
def FVal.fmod : FVal → FVal → FVal
  | .fin a, .fin b => if b = 0 then .nan else .fin (a - b * ((a / b).floor : ℚ))
  | _, _ => .nan

/-- The BigNum record (bignum.hpp): a kind tag, a sign flag, and the two
union members.  The C type stores the payload in a union; modelling both
members as independent fields is faithful for the operations verified
here, which never reinterpret one member as the other. -/
structure BigNum where
  kind : BigNumKind
  is_negative : Bool
  x_uint : Nat
  x_float : FVal
deriving DecidableEq

/-- The normalization invariant stated for the integer form: magnitude 0
implies the sign bit is positive (false). -/
def Normalized (bn : BigNum) : Prop := bn.x_uint = 0 → bn.is_negative = false

instance (bn : BigNum) : Decidable (Normalized bn) :=
  inferInstanceAs (Decidable (bn.x_uint = 0 → bn.is_negative = false))

/-- The integer denoted by an integer-kind bignum. -/
def BigNum.toInt (bn : BigNum) : Int :=
  if bn.is_negative then -(bn.x_uint : Int) else (bn.x_uint : Int)

/-- bignum_normalize (bignum.cpp:15): clear the sign when the magnitude is 0. -/
def bignum_normalize (bn : BigNum) : BigNum :=
  if bn.x_uint = 0 then { bn with is_negative := false } else bn

/-- bignum_init_unsigned (bignum.cpp:28). -/
def bignum_init_unsigned (x : Nat) : BigNum :=
  { kind := .int, is_negative := false, x_uint := x, x_float := .fin 0 }

/-- bignum_init_signed (bignum.cpp:34).  For x < 0 the source stores
((uint64_t)(-(x + 1))) + 1, which equals the absolute value of x. -/
def bignum_init_signed (x : Int) : BigNum :=
  if x < 0 then
    { kind := .int, is_negative := true, x_uint := (-x).toNat, x_float := .fin 0 }
  else
    { kind := .int, is_negative := false, x_uint := x.toNat, x_float := .fin 0 }

/-- bignum_add (bignum.cpp:102).  Returns the written dest and the
overflow flag.  The differing-signs no-borrow branch of the source never
assigns dest->is_negative, so the prior contents dest0 leak through
there.  The C source handles the (negative, non-negative) sign pattern
by one self-call with the operands swapped, bignum_add(dest, op2, op1);
the final branch below is that call unfolded one step (the swapped call
necessarily lands in the magnitude-subtraction branch). -/
def bignum_add (dest0 op1 op2 : BigNum) : BigNum × Bool :=
  let dest := { dest0 with kind := op1.kind }
  if dest.kind = .float then
    ({ dest with x_float := op1.x_float.fadd op2.x_float }, false)
  else if op1.is_negative = op2.is_negative then
    ({ dest with is_negative := op1.is_negative,
                 x_uint := (op1.x_uint + op2.x_uint) % 2 ^ 64 },
     decide (2 ^ 64 ≤ op1.x_uint + op2.x_uint))
  else
    let p := if !op1.is_negative && op2.is_negative then op1 else op2
    let q := if !op1.is_negative && op2.is_negative then op2 else op1
    if p.x_uint < q.x_uint then
      -- __builtin_usubll_overflow reported a borrow: dest momentarily
      -- holds the wrapped difference, which the source converts to the
      -- true magnitude via (UINT64_MAX - dest) + 1
      let wrapped := (2 ^ 64 + p.x_uint - q.x_uint) % 2 ^ 64
      (bignum_normalize { dest with x_uint := (2 ^ 64 - 1) - wrapped + 1,
                                    is_negative := true }, false)
    else
      -- no borrow: the source calls bignum_normalize but never assigns
      -- dest->is_negative on this path
      (bignum_normalize { dest with x_uint := p.x_uint - q.x_uint }, false)

/-- bignum_negate (bignum.cpp:129). -/
def bignum_negate (dest0 op : BigNum) : BigNum :=
  let dest := { dest0 with kind := op.kind }
  if dest.kind = .float then
    { dest with x_float := op.x_float.fneg }
  else
    bignum_normalize { dest with x_uint := op.x_uint, is_negative := !op.is_negative }

/-- bignum_sub (bignum.cpp:177): negates op2 into a stack temporary and
adds.  The temporary starts as uninitialized stack memory, but
bignum_negate writes every field that bignum_add subsequently reads, so
the model passes a fixed dummy initial value for it. -/
def bignum_sub (dest0 op1 op2 : BigNum) : BigNum × Bool :=
  bignum_add dest0 op1 (bignum_negate { kind := .int, is_negative := false, x_uint := 0, x_float := .fin 0 } op2)

/-- bignum_mul (bignum.cpp:183).  On 64-bit magnitude overflow the source
returns true with dest holding the wrapped product and dest->is_negative
still unassigned. -/
def bignum_mul (dest0 op1 op2 : BigNum) : BigNum × Bool :=
  let dest := { dest0 with kind := op1.kind }
  if dest.kind = .float then
    ({ dest with x_float := op1.x_float.fmul op2.x_float }, false)
  else if 2 ^ 64 ≤ op1.x_uint * op2.x_uint then
    ({ dest with x_uint := op1.x_uint * op2.x_uint % 2 ^ 64 }, true)
  else
    (bignum_normalize { dest with x_uint := op1.x_uint * op2.x_uint,
                                  is_negative := op1.is_negative != op2.is_negative }, false)

/-- Result of a bignum operation whose C implementation can take a
defined error path (zig_panic) or run into C undefined behavior (an
unguarded integer division by zero). -/
inductive BnRes (α : Type) where
  | ok (val : α)
  | panic
  | undef
deriving DecidableEq

/-- bignum_div (bignum.cpp:201).  The integer branch evaluates the C
expression op1 / op2 with no zero check: a zero divisor is undefined
behavior, modelled as BnRes.undef. -/
def bignum_div (dest0 op1 op2 : BigNum) : BnRes (BigNum × Bool) :=
  let dest := { dest0 with kind := op1.kind }
  if dest.kind = .float then
    .ok ({ dest with x_float := op1.x_float.fdiv op2.x_float }, false)
  else if op2.x_uint = 0 then .undef
  else
    .ok (bignum_normalize { dest with x_uint := op1.x_uint / op2.x_uint,
                                      is_negative := op1.is_negative != op2.is_negative }, false)

/-- bignum_rem (bignum.cpp:215).  A negative operand reaches zig_panic (a
defined error path, BnRes.panic); otherwise the C expression
op1 % op2 is evaluated with no zero check (BnRes.undef when op2 is 0).
The source never assigns dest->is_negative on the integer path before
calling bignum_normalize. -/
def bignum_rem (dest0 op1 op2 : BigNum) : BnRes (BigNum × Bool) :=
  let dest := { dest0 with kind := op1.kind }
  if dest.kind = .float then
    .ok ({ dest with x_float := op1.x_float.fmod op2.x_float }, false)
  else if op1.is_negative || op2.is_negative then .panic
  else if op2.x_uint = 0 then .undef
  else
    .ok (bignum_normalize { dest with x_uint := op1.x_uint % op2.x_uint }, false)

/-- bignum_or (bignum.cpp:231).  Writes the kind and the magnitude only:
dest->is_negative is never assigned. -/
def bignum_or (dest0 op1 op2 : BigNum) : BigNum × Bool :=
  ({ dest0 with kind := .int, x_uint := op1.x_uint ||| op2.x_uint }, false)

/-- bignum_and (bignum.cpp:243).  Writes the kind and the magnitude only:
dest->is_negative is never assigned. -/
def bignum_and (dest0 op1 op2 : BigNum) : BigNum × Bool :=
  ({ dest0 with kind := .int, x_uint := op1.x_uint &&& op2.x_uint }, false)

/-- bignum_xor (bignum.cpp:255).  Writes the kind and the magnitude only. -/
def bignum_xor (dest0 op1 op2 : BigNum) : BigNum × Bool :=
  ({ dest0 with kind := .int, x_uint := op1.x_uint ^^^ op2.x_uint }, false)

/-- u64_log2 (bignum.cpp:49): the number of binary digits of x (0 for 0),
computed by shifting right until zero. -/
def u64_log2 (x : Nat) : Nat :=
  if h : x = 0 then 0 else u64_log2 (x / 2) + 1
decreasing_by exact Nat.div_lt_self (Nat.pos_of_ne_zero h) Nat.one_lt_two

/-- bignum_fits_in_bits (bignum.cpp:57).  For is_signed with bit_count 0
the source computes 1ULL << (bit_count - 1) with shift count -1, which
is C undefined behavior; the model returns none there. -/
def bignum_fits_in_bits (bn : BigNum) (bit_count : Nat) (is_signed : Bool) : Option Bool :=
  if is_signed then
    if bit_count = 0 then none
    else
      let max_neg : Nat := if bit_count < 64 then 2 ^ (bit_count - 1) else 2 ^ 63
      let max_pos : Nat := if bit_count < 64 then 2 ^ (bit_count - 1) - 1 else 2 ^ 63 - 1
      some (decide (bn.x_uint ≤ if bn.is_negative then max_neg else max_pos))
  else
    if bn.is_negative then
      some (decide (bn.x_uint = 0))
    else
      some (decide (u64_log2 bn.x_uint ≤ bit_count))

/-- bignum_truncate (bignum.cpp:82): mask the magnitude to the low
bit_count bits, i.e. reduce it mod 2^bit_count.  Per the TODO in the
source the sign is never touched. -/
def bignum_truncate (bn : BigNum) (bit_count : Nat) : BigNum :=
  if bit_count < 64 then { bn with x_uint := bn.x_uint % 2 ^ bit_count } else bn

/-- bignum_cmp_eq (bignum.cpp:301). -/
def bignum_cmp_eq (op1 op2 : BigNum) : Bool :=
  if op1.kind = .float then
    op1.x_float.feq op2.x_float
  else
    decide (op1.x_uint = op2.x_uint) &&
      (decide (op1.is_negative = op2.is_negative) || decide (op1.x_uint = 0))

/-- bignum_cmp_neq (bignum.cpp:311). -/
def bignum_cmp_neq (op1 op2 : BigNum) : Bool := !bignum_cmp_eq op1 op2

/-- bignum_cmp_lte (bignum.cpp:323). -/
def bignum_cmp_lte (op1 op2 : BigNum) : Bool :=
  if op1.kind = .float then
    op1.x_float.fle op2.x_float
  else if !op1.is_negative && !op2.is_negative then
    decide (op1.x_uint ≤ op2.x_uint)
  else if op1.is_negative && op2.is_negative then
    decide (op2.x_uint ≤ op1.x_uint)
  else if op1.is_negative && !op2.is_negative then
    true
  else
    false

/-- bignum_cmp_gte (bignum.cpp:341). -/
def bignum_cmp_gte (op1 op2 : BigNum) : Bool :=
  if op1.kind = .float then
    op1.x_float.fge op2.x_float
  else if !op1.is_negative && !op2.is_negative then
    decide (op2.x_uint ≤ op1.x_uint)
  else if op1.is_negative && op2.is_negative then
    decide (op1.x_uint ≤ op2.x_uint)
  else if op1.is_negative && !op2.is_negative then
    false
  else
    true

/-- bignum_cmp_lt (bignum.cpp:315): defined as the negation of cmp_gte. -/
def bignum_cmp_lt (op1 op2 : BigNum) : Bool := !bignum_cmp_gte op1 op2

/-- bignum_cmp_gt (bignum.cpp:319): defined as the negation of cmp_lte. -/
def bignum_cmp_gt (op1 op2 : BigNum) : Bool := !bignum_cmp_lte op1 op2

/-- The fits-in-bits bound exactly as claim C6 words it: signed means the
magnitude is at most 2^(n-1) for either sign; unsigned means the sign is
clear and the ceiling of log2 of the magnitude is at most n. -/
def fits_claim (bn : BigNum) (bit_count : Nat) (is_signed : Bool) : Prop :=
  if is_signed then bn.x_uint ≤ 2 ^ (bit_count - 1)
  else bn.is_negative = false ∧ Nat.clog 2 bn.x_uint ≤ bit_count

instance (bn : BigNum) (bit_count : Nat) (is_signed : Bool) :
    Decidable (fits_claim bn bit_count is_signed) := by
  unfold fits_claim
  infer_instance

/-- The output of bignum_normalize always satisfies the invariant. -/
theorem normalized_bignum_normalize (bn : BigNum) : Normalized (bignum_normalize bn) := by
  unfold bignum_normalize Normalized
  split <;> simp_all

/-- C1 counterexample: dividing the integer bignum 1 by the integer bignum
0 reaches the C expression op1->data.x_uint / op2->data.x_uint with a zero
divisor, which is undefined behavior, not a defined error kind. -/
theorem c1_div_by_zero_is_undefined_behavior :
    bignum_div (bignum_init_unsigned 0) (bignum_init_unsigned 1) (bignum_init_unsigned 0)
      = .undef := by decide

/-- C1 amended: for integer bignums, bignum_div and bignum_rem never
report overflow and never panic except that bignum_rem panics (a defined
error) exactly when an operand is negative; however a zero divisor is
unguarded: bignum_div is undefined behavior exactly when the divisor
magnitude is 0, and bignum_rem, on non-negative operands, is undefined
behavior exactly when the divisor magnitude is 0. -/
theorem c1_div_rem_failure_semantics (dest0 op1 op2 : BigNum)
    (h1 : op1.kind = .int) (h2 : op2.kind = .int) :
    (bignum_div dest0 op1 op2 = .undef ↔ op2.x_uint = 0) ∧
    (∀ r, bignum_div dest0 op1 op2 = .ok r → r.2 = false) ∧
    (bignum_div dest0 op1 op2 ≠ .panic) ∧
    ((bignum_rem dest0 op1 op2 = .panic) ↔
      (op1.is_negative = true ∨ op2.is_negative = true)) ∧
    ((bignum_rem dest0 op1 op2 = .undef) ↔
      (op1.is_negative = false ∧ op2.is_negative = false ∧ op2.x_uint = 0)) ∧
    (∀ r, bignum_rem dest0 op1 op2 = .ok r → r.2 = false) := by
  unfold bignum_div bignum_rem
  by_cases hz : op2.x_uint = 0 <;>
    by_cases ha : op1.is_negative <;>
      by_cases hb : op2.is_negative <;>
        simp [h1, hz, ha, hb]

/-- C1 witness: the amended theorem applied at dest = 0, op1 = 7, op2 = 0. -/
theorem c1_div_rem_failure_semantics_witness :
    bignum_div (bignum_init_unsigned 0) (bignum_init_unsigned 7) (bignum_init_unsigned 0)
      = .undef :=
  (c1_div_rem_failure_semantics (bignum_init_unsigned 0) (bignum_init_unsigned 7)
    (bignum_init_unsigned 0) rfl rfl).1.mpr rfl

/-- Auxiliary for C5: integer addition preserves the normalization
invariant whenever no overflow is reported, for normalized operands and
any prior contents of dest. -/
theorem bignum_add_int_normalized (dest0 op1 op2 : BigNum) (h1 : op1.kind = .int)
    (hn1 : Normalized op1) (hn2 : Normalized op2)
    (hov : (bignum_add dest0 op1 op2).2 = false) :
    Normalized (bignum_add dest0 op1 op2).1 := by
  unfold bignum_add at *
  simp only [h1, reduceCtorEq, reduceIte] at *
  by_cases hs : op1.is_negative = op2.is_negative
  · rw [if_pos hs] at hov ⊢
    unfold Normalized
    intro hmag
    simp only at hmag hov ⊢
    rw [decide_eq_false_iff_not, Nat.not_le] at hov
    have hsum : op1.x_uint + op2.x_uint = 0 := by omega
    exact hn1 (by omega)
  · rw [if_neg hs] at hov ⊢
    split <;> split <;> exact normalized_bignum_normalize _

/-- Auxiliary for C5: a - a is exactly 0 with positive sign and no
overflow, for every integer bignum a and any prior contents of dest. -/
theorem bignum_sub_self (dest0 a : BigNum) (h : a.kind = .int) :
    (bignum_sub dest0 a a).1.x_uint = 0 ∧
    (bignum_sub dest0 a a).1.is_negative = false ∧
    (bignum_sub dest0 a a).2 = false := by
  unfold bignum_sub bignum_negate bignum_add bignum_normalize
  by_cases hm : a.x_uint = 0 <;> by_cases hs : a.is_negative <;>
    simp_all

/-- C5 counterexample: three integer-result operations on normalized
integer operands whose result has magnitude 0 but negative sign.
First, bignum_truncate of -4 to 2 bits masks the magnitude to 0 and (per
the TODO in the source) leaves the sign negative.  Second, adding
-(2^63) to itself reports overflow with dest = (magnitude 0, negative).
Third, bignum_and of 1 and 2 never assigns dest->is_negative at all, so
a stale negative sign survives next to the zero magnitude. -/
theorem c5_normalization_counterexample :
    (Normalized { kind := .int, is_negative := true, x_uint := 4, x_float := .fin 0 } ∧
     ¬ Normalized (bignum_truncate
        { kind := .int, is_negative := true, x_uint := 4, x_float := .fin 0 } 2)) ∧
    (Normalized (bignum_init_signed (-(2 ^ 63))) ∧
     (bignum_add (bignum_init_unsigned 0) (bignum_init_signed (-(2 ^ 63)))
        (bignum_init_signed (-(2 ^ 63)))).2 = true ∧
     ¬ Normalized (bignum_add (bignum_init_unsigned 0) (bignum_init_signed (-(2 ^ 63)))
        (bignum_init_signed (-(2 ^ 63)))).1) ∧
    ¬ Normalized (bignum_and { kind := .int, is_negative := true, x_uint := 3, x_float := .fin 0 }
        (bignum_init_unsigned 1) (bignum_init_unsigned 2)).1 := by
  decide

/-- C5 amended: the arithmetic operations add, sub, mul, div, rem and
negate preserve the normalization invariant on integer operands whenever
no overflow is reported and no error path is taken, regardless of the
prior contents of dest, and a - a is exactly 0 with positive sign; the
invariant is not preserved by bignum_truncate on negative values, by the
overflow paths of add and mul, or by the bitwise operations, which never
assign the sign (see the counterexample). -/
theorem c5_int_ops_preserve_normalization (dest0 a b : BigNum)
    (ha : a.kind = .int) (hb : b.kind = .int)
    (hna : Normalized a) (hnb : Normalized b) :
    ((bignum_add dest0 a b).2 = false → Normalized (bignum_add dest0 a b).1) ∧
    ((bignum_sub dest0 a b).2 = false → Normalized (bignum_sub dest0 a b).1) ∧
    ((bignum_mul dest0 a b).2 = false → Normalized (bignum_mul dest0 a b).1) ∧
    (∀ r, bignum_div dest0 a b = .ok r → Normalized r.1) ∧
    (∀ r, bignum_rem dest0 a b = .ok r → Normalized r.1) ∧
    Normalized (bignum_negate dest0 a) ∧
    ((bignum_sub dest0 a a).1.x_uint = 0 ∧ (bignum_sub dest0 a a).1.is_negative = false ∧
     (bignum_sub dest0 a a).2 = false) := by
  refine ⟨fun hov => bignum_add_int_normalized dest0 a b ha hna hnb hov, fun hov => ?_,
    ?_, ?_, ?_, ?_, bignum_sub_self dest0 a ha⟩
  · -- sub is add of the negated second operand, which is normalized
    unfold bignum_sub at *
    refine bignum_add_int_normalized dest0 a _ ha hna ?_ hov
    unfold bignum_negate
    simp [hb]
    exact normalized_bignum_normalize _
  · -- mul: the no-overflow path ends in bignum_normalize
    unfold bignum_mul
    simp only [ha, reduceCtorEq, reduceIte]
    by_cases hc : 2 ^ 64 ≤ a.x_uint * b.x_uint
    · rw [if_pos hc]
      intro hov
      simp at hov
    · rw [if_neg hc]
      intro hov
      exact normalized_bignum_normalize _
  · -- div: any ok result passed through bignum_normalize
    unfold bignum_div
    simp only [ha, reduceCtorEq, reduceIte]
    intro r hr
    split at hr
    · exact absurd hr (by simp)
    · simp only [BnRes.ok.injEq] at hr
      subst hr
      exact normalized_bignum_normalize _
  · -- rem: any ok result passed through bignum_normalize
    unfold bignum_rem
    simp only [ha, reduceCtorEq, reduceIte]
    intro r hr
    split at hr
    · exact absurd hr (by simp)
    · split at hr
      · exact absurd hr (by simp)
      · simp only [BnRes.ok.injEq] at hr
        subst hr
        exact normalized_bignum_normalize _
  · -- negate ends in bignum_normalize on the integer path
    unfold bignum_negate
    simp only [ha, reduceCtorEq, reduceIte]
    exact normalized_bignum_normalize _

/-- C5 witness: the amended theorem applied at dest = -3 (stale negative
sign), a = 5, b = -5. -/
theorem c5_int_ops_preserve_normalization_witness :
    Normalized (bignum_add (bignum_init_signed (-3)) (bignum_init_signed 5)
      (bignum_init_signed (-5))).1 :=
  ((c5_int_ops_preserve_normalization (bignum_init_signed (-3)) (bignum_init_signed 5)
    (bignum_init_signed (-5)) (by decide) (by decide) (by decide) (by decide)).1) (by decide)

/-- u64_log2 computes the binary length: it is at most n exactly when the
argument is below 2^n. -/
theorem u64_log2_le_iff (m n : Nat) : u64_log2 m ≤ n ↔ m < 2 ^ n := by
  induction m using Nat.strong_induction_on generalizing n with
  | _ m ih =>
    rw [u64_log2]
    by_cases hm : m = 0
    · simp [hm, Nat.pos_pow_of_pos]
    · rw [dif_neg hm]
      cases n with
      | zero =>
        simp only [Nat.pow_zero, Nat.lt_one_iff]
        omega
      | succ k =>
        rw [Nat.succ_le_succ_iff, ih (m / 2) (Nat.div_lt_self (Nat.pos_of_ne_zero hm) Nat.one_lt_two) k]
        rw [Nat.pow_succ]
        omega

/-- C6 counterexample: the bignum 2 satisfies the claimed signed bound for
n = 2 (magnitude 2 ≤ 2^(n-1) = 2), yet bignum_fits_in_bits returns false,
because for a positive value the source bounds the magnitude by
2^(n-1) - 1; moreover the bignum 4 satisfies the claimed unsigned bound
for n = 2 (sign clear and ceil(log2 4) = 2 ≤ 2), yet the source compares
the binary length, u64_log2 4 = 3, against n and returns false. -/
theorem c6_fits_claim_counterexample :
    (fits_claim (bignum_init_unsigned 2) 2 true ∧
     bignum_fits_in_bits (bignum_init_unsigned 2) 2 true = some false) ∧
    (fits_claim (bignum_init_unsigned 4) 2 false ∧
     bignum_fits_in_bits (bignum_init_unsigned 4) 2 false = some false) := by
  refine ⟨⟨by decide, by decide⟩, ⟨?_, ?_⟩⟩
  · unfold fits_claim
    simp [bignum_init_unsigned, Nat.clog]
  · unfold bignum_fits_in_bits
    simp only [bignum_init_unsigned, Bool.false_eq_true, reduceIte, Option.some.injEq]
    have h4 : u64_log2 4 = 3 := by simp [u64_log2]
    rw [decide_eq_false_iff_not, h4]
    omega

/-- C6 amended: for every integer bignum and bit count n, the signed check
(defined for n ≥ 1; n = 0 shifts by -1, undefined behavior) accepts
magnitudes up to 2^(min (n-1) 63) when negative and up to
2^(min (n-1) 63) - 1 when positive, and the unsigned check accepts a
negative value only at magnitude 0 and a non-negative value exactly when
its magnitude is below 2^n. -/
theorem c6_fits_in_bits_characterization (bn : BigNum) (n : Nat) (hk : bn.kind = .int) :
    (1 ≤ n → bignum_fits_in_bits bn n true =
      some (decide (bn.x_uint ≤
        if bn.is_negative then 2 ^ (min (n - 1) 63) else 2 ^ (min (n - 1) 63) - 1))) ∧
    (bn.is_negative = true →
      bignum_fits_in_bits bn n false = some (decide (bn.x_uint = 0))) ∧
    (bn.is_negative = false →
      bignum_fits_in_bits bn n false = some (decide (bn.x_uint < 2 ^ n))) := by
  refine ⟨fun hn => ?_, fun hneg => ?_, fun hpos => ?_⟩
  · unfold bignum_fits_in_bits
    rw [if_pos rfl, if_neg (by omega)]
    by_cases hlt : n < 64
    · rw [if_pos hlt, if_pos hlt, Nat.min_eq_left (by omega)]
    · rw [if_neg hlt, if_neg hlt, Nat.min_eq_right (by omega)]
  · unfold bignum_fits_in_bits
    simp [hneg]
  · unfold bignum_fits_in_bits
    simp only [Bool.false_eq_true, reduceIte, hpos, Option.some.injEq]
    rw [decide_eq_decide]
    exact u64_log2_le_iff bn.x_uint n

/-- C6 witness: the amended theorem applied at the bignum -8 and n = 4:
-8 fits in 4 signed bits. -/
theorem c6_fits_in_bits_characterization_witness :
    bignum_fits_in_bits (bignum_init_signed (-8)) 4 true = some true := by
  have h := (c6_fits_in_bits_characterization (bignum_init_signed (-8)) 4 (by decide)).1
    (by decide)
  rw [h]
  decide

/-- IEEE equality is symmetric, NaN included. -/
theorem FVal.feq_symm (x y : FVal) : x.feq y = y.feq x := by
  cases x <;> cases y <;> simp [FVal.feq] <;> exact eq_comm

/-- IEEE greater-or-equal is less-or-equal with the operands swapped,
NaN included. -/
theorem FVal.fge_eq_fle_swap (x y : FVal) : x.fge y = y.fle x := by
  cases x <;> cases y <;> rfl

/-- For a linearly ordered carrier, less-or-equal agrees with
not-greater-or-equal-or-equal; used for the finite-finite float case and
(on Nat magnitudes) for the integer cases. -/
theorem decide_le_eq_not_ge_or_eq {α : Type} [LinearOrder α] [DecidableEq α] (a b : α) :
    decide (a ≤ b) = (!decide (b ≤ a) || decide (a = b)) := by
  by_cases h : a ≤ b
  · by_cases h2 : b ≤ a
    · simp [h, h2, le_antisymm h h2]
    · simp [h, h2]
  · have h2 : b ≤ a := le_of_not_le h
    have hne : ¬(a = b) := fun he => h (he ▸ le_refl a)
    simp [h, h2, hne]

/-- On non-NaN operands, IEEE less-or-equal agrees with
not-greater-or-equal-or-equal. -/
theorem FVal.fle_eq_of_not_nan (x y : FVal) (hx : x ≠ .nan) (hy : y ≠ .nan) :
    x.fle y = (!x.fge y || x.feq y) := by
  cases x <;> cases y <;> simp_all [FVal.fle, FVal.fge, FVal.feq]
  rename_i a b
  exact decide_le_eq_not_ge_or_eq a b

/-- C7 counterexample: the identity cmp_lte = (cmp_lt or cmp_eq) fails
for float bignums holding NaN (cmp_lte is false but cmp_lt, being the
negation of cmp_gte, is true), and it also fails for the integer bignums
+0 and -0 (of matching kind), where cmp_lte is false but cmp_eq is true;
the second pair also shows why normalization must be assumed. -/
theorem c7_cmp_lte_counterexample :
    (bignum_cmp_lte { kind := .float, is_negative := false, x_uint := 0, x_float := .nan }
        { kind := .float, is_negative := false, x_uint := 0, x_float := .nan } = false ∧
     (bignum_cmp_lt { kind := .float, is_negative := false, x_uint := 0, x_float := .nan }
        { kind := .float, is_negative := false, x_uint := 0, x_float := .nan } ||
      bignum_cmp_eq { kind := .float, is_negative := false, x_uint := 0, x_float := .nan }
        { kind := .float, is_negative := false, x_uint := 0, x_float := .nan }) = true) ∧
    (bignum_cmp_lte { kind := .int, is_negative := false, x_uint := 0, x_float := .fin 0 }
        { kind := .int, is_negative := true, x_uint := 0, x_float := .fin 0 } = false ∧
     (bignum_cmp_lt { kind := .int, is_negative := false, x_uint := 0, x_float := .fin 0 }
        { kind := .int, is_negative := true, x_uint := 0, x_float := .fin 0 } ||
      bignum_cmp_eq { kind := .int, is_negative := false, x_uint := 0, x_float := .fin 0 }
        { kind := .int, is_negative := true, x_uint := 0, x_float := .fin 0 }) = true) := by
  decide

/-- C7 amended: for bignums of matching kind, cmp_eq is symmetric and
cmp_lt(a,b) = cmp_gt(b,a) unconditionally; cmp_lte = (cmp_lt or cmp_eq)
holds for integer bignums under the normalization invariant the source
assumes, and for float bignums whenever neither operand is NaN. -/
theorem c7_cmp_identities (a b : BigNum) (hk : a.kind = b.kind) :
    bignum_cmp_eq a b = bignum_cmp_eq b a ∧
    bignum_cmp_lt a b = bignum_cmp_gt b a ∧
    (a.kind = .int → Normalized a → Normalized b →
      bignum_cmp_lte a b = (bignum_cmp_lt a b || bignum_cmp_eq a b)) ∧
    (a.kind = .float → a.x_float ≠ .nan → b.x_float ≠ .nan →
      bignum_cmp_lte a b = (bignum_cmp_lt a b || bignum_cmp_eq a b)) := by
  have hbk : b.kind = a.kind := hk.symm
  refine ⟨?_, ?_, fun hint hna hnb => ?_, fun hfl hxa hxb => ?_⟩
  · unfold bignum_cmp_eq
    rw [hbk]
    by_cases hfa : a.kind = .float
    · rw [if_pos hfa, if_pos hfa]
      exact FVal.feq_symm a.x_float b.x_float
    · rw [if_neg hfa, if_neg hfa]
      by_cases h1 : a.x_uint = b.x_uint
      · rw [h1]
        by_cases h2 : a.is_negative = b.is_negative
        · rw [h2]
        · have h2s : ¬(b.is_negative = a.is_negative) := fun h => h2 h.symm
          simp [h2, h2s]
      · have h1s : ¬(b.x_uint = a.x_uint) := fun h => h1 h.symm
        simp [h1, h1s]
  · unfold bignum_cmp_lt bignum_cmp_gt bignum_cmp_gte bignum_cmp_lte
    rw [hbk]
    by_cases hfa : a.kind = .float
    · rw [if_pos hfa, if_pos hfa, FVal.fge_eq_fle_swap]
    · rw [if_neg hfa, if_neg hfa]
      rcases hsa : a.is_negative <;> rcases hsb : b.is_negative <;> simp
  · unfold bignum_cmp_lte bignum_cmp_lt bignum_cmp_gte bignum_cmp_eq
    rw [hint]
    simp only [reduceCtorEq, reduceIte]
    have hb0 : b.is_negative = true → b.x_uint ≠ 0 := fun hs h => by
      rw [hnb h] at hs
      exact absurd hs (by simp)
    rcases hsa : a.is_negative <;> rcases hsb : b.is_negative <;> simp_all
    · exact decide_le_eq_not_ge_or_eq a.x_uint b.x_uint
    · rw [decide_le_eq_not_ge_or_eq b.x_uint a.x_uint]
      by_cases h : a.x_uint = b.x_uint
      · simp [h]
      · have h2 : ¬(b.x_uint = a.x_uint) := fun hh => h hh.symm
        simp [h, h2]
  · unfold bignum_cmp_lte bignum_cmp_lt bignum_cmp_gte bignum_cmp_eq
    rw [hfl]
    simp only [reduceIte]
    exact FVal.fle_eq_of_not_nan a.x_float b.x_float hxa hxb

/-- C7 witness: the amended theorem applied at the integer bignums 3
and -7. -/
theorem c7_cmp_identities_witness :
    bignum_cmp_lte (bignum_init_signed 3) (bignum_init_signed (-7)) =
      (bignum_cmp_lt (bignum_init_signed 3) (bignum_init_signed (-7)) ||
       bignum_cmp_eq (bignum_init_signed 3) (bignum_init_signed (-7))) :=
  (c7_cmp_identities (bignum_init_signed 3) (bignum_init_signed (-7)) (by decide)).2.2.1
    (by decide) (by decide) (by decide)

/-- C9: evaluation of bignum_add at the failing input.  dest previously
holds a negative value (-5); adding the normalized operands 2 and -1
takes the differing-signs no-borrow branch, which never assigns
dest->is_negative, so the stale sign survives: the result is -1 with no
overflow reported, although the mathematical sum is 1. -/
theorem c9_add_differing_signs_stale_sign :
    (bignum_add { kind := .int, is_negative := true, x_uint := 5, x_float := .fin 0 }
        (bignum_init_signed 2) (bignum_init_signed (-1))).2 = false ∧
    (bignum_add { kind := .int, is_negative := true, x_uint := 5, x_float := .fin 0 }
        (bignum_init_signed 2) (bignum_init_signed (-1))).1.toInt = -1 ∧
    (bignum_init_signed 2).toInt + (bignum_init_signed (-1)).toInt = 1 := by
  decide

end ZigBignum

/-!
Part 2 embeds the lowering engine fragments of codegen.cpp that the
claims address: the LLVM builder discipline (append-only basic blocks,
an insertion point, fresh SSA registers), gen_expr for constants, calls,
variable references and the short-circuit operators, gen_while_expr,
gen_slice_expr, gen_assign_expr / gen_lvalue / gen_array_ptr, and the
parameter-attribute loop of do_code_gen.  A small-step machine executes
generated functions, so short-circuit and ordering claims are settled
against the run-time behavior of the emitted code, not just its shape.
-/

namespace ZigCodegen

/-- Run-time addresses: an alloca / variable storage / temporary base,
LLVMBuildStructGEP fields, and one- and two-index in-bounds GEPs. -/
inductive Addr where
  | base (id : Nat)
  | sfield (a : Addr) (i : Nat)
  | gep1 (a : Addr) (off : Int)
  | gep2 (a : Addr) (off1 off2 : Int)
deriving DecidableEq

/-- Builder-time values (LLVMValueRef): an instruction result register or
a constant (i1 constant, isize constant, or a statically known address
such as an alloca or a global). -/
inductive LVal where
  | reg (n : Nat)
  | cbool (b : Bool)
  | cint (z : Int)
  | caddr (a : Addr)
deriving DecidableEq

/-- Run-time values. -/
inductive RVal where
  | b (x : Bool)
  | i (z : Int)
  | a (x : Addr)
deriving DecidableEq

/-- Read a run-time value as an i1 (the type system of the source
guarantees the coercions never fire; defaults are arbitrary). -/
def RVal.asBool : RVal → Bool
  | .b x => x
  | _ => false

/-- Read a run-time value as an integer. -/
def RVal.asInt : RVal → Int
  | .i z => z
  | _ => 0

/-- Read a run-time value as an address. -/
def RVal.asAddr : RVal → Addr
  | .a x => x
  | _ => .base 0

/-- The LLIR instruction vocabulary needed by the lowered fragments.
call/icall model calls to invocation-recording functions (bool- and
int-returning); the rest mirror the LLVM builder calls in the source. -/
inductive Inst where
  | call (dest : Nat) (f : Nat)
  | icall (dest : Nat) (f : Nat)
  | condbr (c : LVal) (tb fb : Nat)
  | br (t : Nat)
  | phi (dest : Nat) (inc : List (LVal × Nat))
  | sub (dest : Nat) (x y : LVal)
  | sgep (dest : Nat) (base : LVal) (i : Nat)
  | gep1 (dest : Nat) (base idx : LVal)
  | gep2 (dest : Nat) (base i0 i1 : LVal)
  | load (dest : Nat) (src : LVal)
  | store (v dst : LVal)
deriving DecidableEq

/-- A basic block: its label and its instructions in emission order. -/
structure BBlock where
  label : String
  insts : List Inst
deriving DecidableEq

/-- The builder state: the blocks of the current function in append
order (block ids are list positions, stable because
LLVMAppendBasicBlock only appends), the insertion point
(LLVMPositionBuilderAtEnd), the next fresh SSA register, and the
break/continue target stacks of the CodeGen context; a break target may
be null (gen_while_expr pushes nullptr for a breakless forever loop). -/
structure Gen where
  blocks : List BBlock
  insert : Nat
  nextReg : Nat
  breakStack : List (Option Nat)
  contStack : List Nat
deriving DecidableEq

/-- Append an instruction at the end of block n. -/
def appendInst : List BBlock → Nat → Inst → List BBlock
  | [], _, _ => []
  | blk :: rest, 0, inst => { blk with insts := blk.insts ++ [inst] } :: rest
  | blk :: rest, n + 1, inst => blk :: appendInst rest n inst

/-- Emit an instruction at the end of the insertion block (the LLVMBuild
calls of the source always target the current insertion point). -/
def Gen.emit (g : Gen) (inst : Inst) : Gen :=
  { g with blocks := appendInst g.blocks g.insert inst }

/-- LLVMAppendBasicBlock: append a fresh empty block, returning its id. -/
def Gen.appendBlock (g : Gen) (label : String) : Nat × Gen :=
  (g.blocks.length, { g with blocks := g.blocks ++ [{ label := label, insts := [] }] })

/-- LLVMPositionBuilderAtEnd. -/
def Gen.positionAt (g : Gen) (b : Nat) : Gen := { g with insert := b }

/-- A fresh SSA register for an instruction result. -/
def Gen.fresh (g : Gen) : Nat × Gen := (g.nextReg, { g with nextReg := g.nextReg + 1 })

/-- The expression fragment the claims lower: boolean and integer
constants, calls to invocation-recording functions, references to
aggregate variables (whose LLVM value is their storage address), and the
short-circuit boolean operators. -/
inductive ZExpr where
  | cbool (b : Bool)
  | cint (z : Int)
  | callb (f : Nat)
  | calli (f : Nat)
  | evar (v : Nat)
  | band (a b : ZExpr)
  | bor (a b : ZExpr)
deriving DecidableEq

/-- gen_expr for the modelled fragment.  Constants lower to LLVM
constants with no instruction; calls emit a call instruction returning a
fresh register; a variable reference yields its storage address.  band
transcribes gen_bool_and_expr (codegen.cpp:1082): record the insertion
block after op1 (post1), append BoolAndTrue and BoolAndFalse, emit the
conditional branch, generate op2 inside BoolAndTrue, record the
insertion block after op2 (post2), branch to BoolAndFalse and build the
phi there with incoming blocks post1 and post2.  bor transcribes
gen_bool_or_expr (codegen.cpp:1113) with the roles of the true and false
blocks mirrored. -/
def gen_expr : ZExpr → Gen → LVal × Gen
  | .cbool b, g => (.cbool b, g)
  | .cint z, g => (.cint z, g)
  | .evar v, g => (.caddr (.base v), g)
  | .callb f, g =>
      let (r, g1) := g.fresh
      (.reg r, g1.emit (.call r f))
  | .calli f, g =>
      let (r, g1) := g.fresh
      (.reg r, g1.emit (.icall r f))
  | .band a b, g =>
      let (val1, g1) := gen_expr a g
      let post1 := g1.insert
      let (true_block, g2) := g1.appendBlock "BoolAndTrue"
      let (false_block, g3) := g2.appendBlock "BoolAndFalse"
      let g4 := g3.emit (.condbr val1 true_block false_block)
      let g5 := g4.positionAt true_block
      let (val2, g6) := gen_expr b g5
      let post2 := g6.insert
      let g7 := g6.emit (.br false_block)
      let g8 := g7.positionAt false_block
      let (r, g9) := g8.fresh
      let g10 := g9.emit (.phi r [(val1, post1), (val2, post2)])
      (.reg r, g10)
  | .bor a b, g =>
      let (val1, g1) := gen_expr a g
      let post1 := g1.insert
      let (false_block, g2) := g1.appendBlock "BoolOrFalse"
      let (true_block, g3) := g2.appendBlock "BoolOrTrue"
      let g4 := g3.emit (.condbr val1 true_block false_block)
      let g5 := g4.positionAt false_block
      let (val2, g6) := gen_expr b g5
      let post2 := g6.insert
      let g7 := g6.emit (.br true_block)
      let g8 := g7.positionAt true_block
      let (r, g9) := g8.fresh
      let g10 := g9.emit (.phi r [(val1, post1), (val2, post2)])
      (.reg r, g10)

/-- Results of the recording functions: an oracle fixing what each
bool-returning and int-returning call yields. -/
structure Oracle where
  bcall : Nat → Bool
  icall : Nat → Int

/-- Reference semantics of the fragment: the value and the list of
recorded call invocations in evaluation order, with the source-level
short-circuit rule. -/
def zeval (o : Oracle) : ZExpr → RVal × List Nat
  | .cbool b => (.b b, [])
  | .cint z => (.i z, [])
  | .evar v => (.a (.base v), [])
  | .callb f => (.b (o.bcall f), [f])
  | .calli f => (.i (o.icall f), [f])
  | .band a b =>
      let (va, ta) := zeval o a
      if va.asBool then
        let (vb, tb) := zeval o b
        (vb, ta ++ tb)
      else (va, ta)
  | .bor a b =>
      let (va, ta) := zeval o a
      if va.asBool then (va, ta)
      else
        let (vb, tb) := zeval o b
        (vb, ta ++ tb)

/-- Machine state for executing a generated function: current block and
instruction index, the block from which the current block was entered
(phi resolution), the register environment, the memory (newest store
first), and the trace of executed recorded calls. -/
structure MState where
  cur : Nat
  idx : Nat
  prev : Option Nat
  env : Nat → RVal
  mem : List (Addr × RVal)
  trace : List Nat

/-- Evaluate a builder value in a register environment. -/
def evalV (env : Nat → RVal) : LVal → RVal
  | .reg n => env n
  | .cbool b => .b b
  | .cint z => .i z
  | .caddr a => .a a

/-- Point update of a register environment. -/
def upd (env : Nat → RVal) (r : Nat) (v : RVal) : Nat → RVal :=
  fun x => if x = r then v else env x

/-- Read memory (newest store wins; unwritten cells read an arbitrary
default). -/
def memLookup (mem : List (Addr × RVal)) (a : Addr) : RVal :=
  match mem with
  | [] => .b false
  | (a2, v) :: rest => if a2 = a then v else memLookup rest a

/-- The instruction at a position of the generated function. -/
def getInst (g : Gen) (bId iIdx : Nat) : Option Inst :=
  match g.blocks[bId]? with
  | some blk => blk.insts[iIdx]?
  | none => none

/-- The current length of a block (0 for an absent block). -/
def lenAt (g : Gen) (bId : Nat) : Nat :=
  match g.blocks[bId]? with
  | some blk => blk.insts.length
  | none => 0

/-- Wrap to 64-bit two's complement (LLVMBuildSub on isize). -/
def wrap64 (z : Int) : Int := (z + 2 ^ 63) % 2 ^ 64 - 2 ^ 63

/-- Select the phi incoming value for predecessor block p. -/
def phiLookup (inc : List (LVal × Nat)) (p : Nat) : Option LVal :=
  match inc with
  | [] => none
  | (v, blk) :: rest => if blk = p then some v else phiLookup rest p

/-- The effect of one instruction on the machine state. -/
def execInst (o : Oracle) (s : MState) : Inst → MState
  | .call r f =>
      { s with env := upd s.env r (.b (o.bcall f)), trace := s.trace ++ [f], idx := s.idx + 1 }
  | .icall r f =>
      { s with env := upd s.env r (.i (o.icall f)), trace := s.trace ++ [f], idx := s.idx + 1 }
  | .condbr c tb fb =>
      let target : Nat := if (evalV s.env c).asBool then tb else fb
      { s with prev := some s.cur, cur := target, idx := 0 }
  | .br t =>
      { s with prev := some s.cur, cur := t, idx := 0 }
  | .phi r inc =>
      let v := match s.prev with
        | some p =>
          match phiLookup inc p with
          | some lv => evalV s.env lv
          | none => .b false
        | none => .b false
      { s with env := upd s.env r v, idx := s.idx + 1 }
  | .sub r x y =>
      let v : RVal := .i (wrap64 ((evalV s.env x).asInt - (evalV s.env y).asInt))
      { s with env := upd s.env r v, idx := s.idx + 1 }
  | .sgep r bse i =>
      let v : RVal := .a (.sfield (evalV s.env bse).asAddr i)
      { s with env := upd s.env r v, idx := s.idx + 1 }
  | .gep1 r bse ix =>
      let v : RVal := .a (.gep1 (evalV s.env bse).asAddr (evalV s.env ix).asInt)
      { s with env := upd s.env r v, idx := s.idx + 1 }
  | .gep2 r bse i0 i1 =>
      let v : RVal :=
        .a (.gep2 (evalV s.env bse).asAddr (evalV s.env i0).asInt (evalV s.env i1).asInt)
      { s with env := upd s.env r v, idx := s.idx + 1 }
  | .load r src =>
      let v : RVal := memLookup s.mem (evalV s.env src).asAddr
      { s with env := upd s.env r v, idx := s.idx + 1 }
  | .store v dst =>
      let cell : Addr × RVal := ((evalV s.env dst).asAddr, evalV s.env v)
      { s with mem := cell :: s.mem, idx := s.idx + 1 }

/-- One machine step: execute the instruction at the current position,
or halt (none) when the position has no instruction (fall-through off
the end of the emitted code). -/
def step (g : Gen) (o : Oracle) (s : MState) : Option MState :=
  match getInst g s.cur s.idx with
  | none => none
  | some inst => some (execInst o s inst)

/-- Run n steps (stopping early on halt). -/
def runN (g : Gen) (o : Oracle) : Nat → MState → MState
  | 0, s => s
  | n + 1, s =>
    match step g o s with
    | none => s
    | some s2 => runN g o n s2

/-- Reachability in the step relation. -/
def Steps (g : Gen) (o : Oracle) (s s2 : MState) : Prop :=
  ∃ n, runN g o n s = s2

/-- g2 extends g1: existing block ids keep their labels and have their
instruction lists extended only at the end; new blocks only appear after
the existing ones.  Every builder operation of the source produces an
extension, which makes instruction positions stable. -/
def Ext (g1 g2 : Gen) : Prop :=
  g1.blocks.length ≤ g2.blocks.length ∧
  ∀ bId, bId < g1.blocks.length →
    ∃ blk1 blk2, g1.blocks[bId]? = some blk1 ∧ g2.blocks[bId]? = some blk2 ∧
      blk2.label = blk1.label ∧ ∃ tail, blk2.insts = blk1.insts ++ tail

theorem runN_halted (g : Gen) (o : Oracle) (n : Nat) (s : MState)
    (h : step g o s = none) : runN g o n s = s := by
  cases n with
  | zero => rfl
  | succ k => simp [runN, h]

theorem runN_add (g : Gen) (o : Oracle) (m n : Nat) (s : MState) :
    runN g o (m + n) s = runN g o n (runN g o m s) := by
  induction m generalizing s with
  | zero =>
    rw [Nat.zero_add]
    rfl
  | succ k ih =>
    have he : k + 1 + n = (k + n) + 1 := by omega
    rw [he]
    cases hst : step g o s with
    | none =>
      rw [runN_halted g o ((k + n) + 1) s hst, runN_halted g o (k + 1) s hst,
        runN_halted g o n s hst]
    | some s2 =>
      have h1 : runN g o ((k + n) + 1) s = runN g o (k + n) s2 := by simp [runN, hst]
      have h2 : runN g o (k + 1) s = runN g o k s2 := by simp [runN, hst]
      rw [h1, h2, ih s2]

theorem steps_self (g : Gen) (o : Oracle) (s : MState) : Steps g o s s := ⟨0, by rfl⟩

theorem steps_one (g : Gen) (o : Oracle) (s s2 : MState) (h : step g o s = some s2) :
    Steps g o s s2 := ⟨1, by simp [runN, h]⟩

theorem steps_trans (g : Gen) (o : Oracle) (s s2 s3 : MState)
    (h1 : Steps g o s s2) (h2 : Steps g o s2 s3) : Steps g o s s3 := by
  obtain ⟨n1, hn1⟩ := h1
  obtain ⟨n2, hn2⟩ := h2
  exact ⟨n1 + n2, by rw [runN_add, hn1, hn2]⟩

theorem appendInst_length (bs : List BBlock) (n : Nat) (inst : Inst) :
    (appendInst bs n inst).length = bs.length := by
  induction bs generalizing n with
  | nil => rfl
  | cons blk rest ih =>
    cases n with
    | zero => simp [appendInst]
    | succ k => simpa [appendInst] using ih k

theorem appendInst_get_same (bs : List BBlock) (n : Nat) (inst : Inst) (blk : BBlock)
    (h : bs[n]? = some blk) :
    (appendInst bs n inst)[n]? = some { blk with insts := blk.insts ++ [inst] } := by
  induction bs generalizing n with
  | nil => simp at h
  | cons b2 rest ih =>
    cases n with
    | zero =>
      simp only [List.getElem?_cons_zero, Option.some.injEq] at h
      subst h
      simp [appendInst]
    | succ k =>
      simp only [List.getElem?_cons_succ] at h
      simpa [appendInst] using ih k h

theorem appendInst_get_other (bs : List BBlock) (n m : Nat) (inst : Inst) (h : m ≠ n) :
    (appendInst bs n inst)[m]? = bs[m]? := by
  induction bs generalizing n m with
  | nil => rfl
  | cons b2 rest ih =>
    cases n with
    | zero =>
      cases m with
      | zero => exact absurd rfl h
      | succ k2 => simp [appendInst]
    | succ k =>
      cases m with
      | zero => simp [appendInst]
      | succ k2 =>
        simp only [appendInst, List.getElem?_cons_succ]
        exact ih k k2 (fun he => h (by rw [he]))

theorem emit_insert (g : Gen) (inst : Inst) : (g.emit inst).insert = g.insert := rfl

theorem emit_nextReg (g : Gen) (inst : Inst) : (g.emit inst).nextReg = g.nextReg := rfl

theorem emit_length (g : Gen) (inst : Inst) :
    (g.emit inst).blocks.length = g.blocks.length :=
  appendInst_length g.blocks g.insert inst

theorem emit_get_other (g : Gen) (inst : Inst) (m : Nat) (h : m ≠ g.insert) :
    (g.emit inst).blocks[m]? = g.blocks[m]? :=
  appendInst_get_other g.blocks g.insert m inst h

theorem appendBlock_insert (g : Gen) (l : String) :
    (g.appendBlock l).2.insert = g.insert := rfl

theorem appendBlock_nextReg (g : Gen) (l : String) :
    (g.appendBlock l).2.nextReg = g.nextReg := rfl

theorem appendBlock_id (g : Gen) (l : String) :
    (g.appendBlock l).1 = g.blocks.length := rfl

theorem appendBlock_length (g : Gen) (l : String) :
    (g.appendBlock l).2.blocks.length = g.blocks.length + 1 := by
  simp [Gen.appendBlock]

theorem appendBlock_get_lt (g : Gen) (l : String) (m : Nat) (h : m < g.blocks.length) :
    (g.appendBlock l).2.blocks[m]? = g.blocks[m]? := by
  simp [Gen.appendBlock, List.getElem?_append_left h]

theorem appendBlock_get_new (g : Gen) (l : String) :
    (g.appendBlock l).2.blocks[g.blocks.length]? = some { label := l, insts := [] } := by
  simp [Gen.appendBlock]

theorem lenAt_emit_self (g : Gen) (inst : Inst) (h : g.insert < g.blocks.length) :
    lenAt (g.emit inst) g.insert = lenAt g g.insert + 1 := by
  have hblk : g.blocks[g.insert]? = some (g.blocks[g.insert]) := List.getElem?_eq_getElem h
  have h2 := appendInst_get_same g.blocks g.insert inst _ hblk
  unfold lenAt
  show (match (g.emit inst).blocks[g.insert]? with
    | some blk => blk.insts.length
    | none => 0) = _
  rw [show (g.emit inst).blocks = appendInst g.blocks g.insert inst from rfl, h2, hblk]
  simp

theorem lenAt_emit_other (g : Gen) (inst : Inst) (m : Nat) (h : m ≠ g.insert) :
    lenAt (g.emit inst) m = lenAt g m := by
  unfold lenAt
  rw [show (g.emit inst).blocks = appendInst g.blocks g.insert inst from rfl,
    appendInst_get_other g.blocks g.insert m inst h]

theorem lenAt_appendBlock (g : Gen) (l : String) (m : Nat) :
    lenAt (g.appendBlock l).2 m = lenAt g m := by
  unfold lenAt
  rcases Nat.lt_trichotomy m g.blocks.length with h | h | h
  · rw [appendBlock_get_lt g l m h]
  · subst h
    rw [appendBlock_get_new g l]
    have h2 : g.blocks[g.blocks.length]? = none := by simp
    rw [h2]
    simp
  · have h2 : g.blocks[m]? = none := by
      rw [List.getElem?_eq_none_iff]
      omega
    have h3 : (g.appendBlock l).2.blocks[m]? = none := by
      rw [List.getElem?_eq_none_iff, appendBlock_length]
      omega
    rw [h2, h3]

theorem getInst_emit_self (g : Gen) (inst : Inst) (h : g.insert < g.blocks.length) :
    getInst (g.emit inst) g.insert (lenAt g g.insert) = some inst := by
  have hblk : g.blocks[g.insert]? = some (g.blocks[g.insert]) := List.getElem?_eq_getElem h
  have h2 := appendInst_get_same g.blocks g.insert inst _ hblk
  unfold getInst lenAt
  rw [show (g.emit inst).blocks = appendInst g.blocks g.insert inst from rfl, h2, hblk]
  simp

theorem ext_refl (g : Gen) : Ext g g := by
  refine ⟨Nat.le_refl _, fun bId hb => ?_⟩
  have hblk : g.blocks[bId]? = some (g.blocks[bId]) := List.getElem?_eq_getElem hb
  exact ⟨_, _, hblk, hblk, rfl, [], by simp⟩

theorem ext_trans {g1 g2 g3 : Gen} (h12 : Ext g1 g2) (h23 : Ext g2 g3) : Ext g1 g3 := by
  refine ⟨Nat.le_trans h12.1 h23.1, fun bId hb => ?_⟩
  obtain ⟨blk1, blk2, ha1, ha2, hl1, t1, ht1⟩ := h12.2 bId hb
  have hb2 : bId < g2.blocks.length := by
    by_contra hge
    rw [List.getElem?_eq_none_iff.mpr (by omega)] at ha2
    exact Option.noConfusion ha2
  obtain ⟨blk2b, blk3, hb1, hb2b, hl2, t2, ht2⟩ := h23.2 bId hb2
  rw [ha2] at hb1
  injection hb1 with hb1
  subst hb1
  exact ⟨blk1, blk3, ha1, hb2b, by rw [hl2, hl1], t1 ++ t2, by rw [ht2, ht1, List.append_assoc]⟩

theorem ext_emit (g : Gen) (inst : Inst) : Ext g (g.emit inst) := by
  refine ⟨by rw [emit_length], fun bId hb => ?_⟩
  have hblk : g.blocks[bId]? = some (g.blocks[bId]) := List.getElem?_eq_getElem hb
  by_cases he : bId = g.insert
  · subst he
    exact ⟨g.blocks[g.insert],
      { g.blocks[g.insert] with insts := g.blocks[g.insert].insts ++ [inst] }, hblk,
      appendInst_get_same g.blocks g.insert inst _ hblk, rfl, [inst], rfl⟩
  · refine ⟨_, _, hblk, ?_, rfl, [], by simp⟩
    rw [emit_get_other g inst bId he]
    exact hblk

theorem ext_appendBlock (g : Gen) (l : String) : Ext g (g.appendBlock l).2 := by
  refine ⟨by rw [appendBlock_length]; omega, fun bId hb => ?_⟩
  have hblk : g.blocks[bId]? = some (g.blocks[bId]) := List.getElem?_eq_getElem hb
  refine ⟨_, _, hblk, ?_, rfl, [], by simp⟩
  rw [appendBlock_get_lt g l bId hb]
  exact hblk

theorem ext_positionAt (g : Gen) (b : Nat) : Ext g (g.positionAt b) := by
  refine ⟨Nat.le_refl _, fun bId hb => ?_⟩
  have hblk : g.blocks[bId]? = some (g.blocks[bId]) := List.getElem?_eq_getElem hb
  exact ⟨_, _, hblk, hblk, rfl, [], by simp⟩

theorem ext_fresh (g : Gen) : Ext g (g.fresh).2 := by
  refine ⟨Nat.le_refl _, fun bId hb => ?_⟩
  have hblk : g.blocks[bId]? = some (g.blocks[bId]) := List.getElem?_eq_getElem hb
  exact ⟨_, _, hblk, hblk, rfl, [], by simp⟩

theorem getInst_mono {g1 g2 : Gen} (hext : Ext g1 g2) (b i : Nat) (inst : Inst)
    (h : getInst g1 b i = some inst) : getInst g2 b i = some inst := by
  unfold getInst at h ⊢
  cases hb1 : g1.blocks[b]? with
  | none => rw [hb1] at h; simp at h
  | some blk1 =>
    rw [hb1] at h
    simp only at h
    have hblt : b < g1.blocks.length := by
      by_contra hge
      rw [List.getElem?_eq_none_iff.mpr (by omega)] at hb1
      exact Option.noConfusion hb1
    obtain ⟨blk1b, blk2, ha1, ha2, hl, t, ht⟩ := hext.2 b hblt
    rw [hb1] at ha1
    have hbeq : blk1 = blk1b := by injection ha1
    rw [← hbeq] at ht
    rw [ha2]
    simp only
    rw [ht]
    have hilt : i < blk1.insts.length := by
      by_contra hge
      rw [List.getElem?_eq_none_iff.mpr (by omega)] at h
      exact Option.noConfusion h
    rw [List.getElem?_append_left hilt]
    exact h

theorem positionAt_blocks (g : Gen) (b : Nat) : (g.positionAt b).blocks = g.blocks := rfl

theorem positionAt_insert (g : Gen) (b : Nat) : (g.positionAt b).insert = b := rfl

theorem positionAt_nextReg (g : Gen) (b : Nat) : (g.positionAt b).nextReg = g.nextReg := rfl

theorem fresh_nextReg (g : Gen) : (g.fresh).2.nextReg = g.nextReg + 1 := rfl

theorem fresh_blocks (g : Gen) : (g.fresh).2.blocks = g.blocks := rfl

theorem fresh_insert (g : Gen) : (g.fresh).2.insert = g.insert := rfl

theorem fresh_reg (g : Gen) : (g.fresh).1 = g.nextReg := rfl

theorem lenAt_positionAt (g : Gen) (b m : Nat) : lenAt (g.positionAt b) m = lenAt g m := rfl

theorem lenAt_fresh (g : Gen) (m : Nat) : lenAt (g.fresh).2 m = lenAt g m := rfl

theorem getInst_positionAt (g : Gen) (b m i : Nat) :
    getInst (g.positionAt b) m i = getInst g m i := rfl

theorem getInst_fresh (g : Gen) (m i : Nat) : getInst (g.fresh).2 m i = getInst g m i := rfl

/-- Conclusions of the static analysis of one gen_expr call: the builder
state is extended append-only, registers are allocated upwards and the
returned value respects the bound, the insertion point stays valid and
either stays put or moves to a newly created block, existing blocks other
than the entry insertion block are untouched, and the break/continue
stacks are untouched. -/
structure GenStep (g : Gen) (val : LVal) (g2 : Gen) : Prop where
  ext : Ext g g2
  reg_le : g.nextReg ≤ g2.nextReg
  val_lt : ∀ r, val = .reg r → r < g2.nextReg
  wf : g2.insert < g2.blocks.length
  ins : g2.insert = g.insert ∨ g.blocks.length ≤ g2.insert
  untouched : ∀ bId, bId < g.blocks.length → bId ≠ g.insert →
    g2.blocks[bId]? = g.blocks[bId]?
  breaks : g2.breakStack = g.breakStack
  conts : g2.contStack = g.contStack

/-- Facts about the builder state after the two block appends, the
conditional branch, and the repositioning shared by gen_bool_and_expr
and gen_bool_or_expr (the branch instruction lands at the end of the
block that was current after lowering op1). -/
theorem mid_facts (g1 e5 : Gen) (l1 l2 : String) (inst : Inst)
    (hwf1 : g1.insert < g1.blocks.length)
    (he : e5 = (((g1.appendBlock l1).2.appendBlock l2).2.emit inst).positionAt
      (g1.appendBlock l1).1) :
    e5.insert = g1.blocks.length ∧
    e5.blocks.length = g1.blocks.length + 2 ∧
    e5.nextReg = g1.nextReg ∧
    e5.breakStack = g1.breakStack ∧
    e5.contStack = g1.contStack ∧
    Ext g1 e5 ∧
    (∀ bId, bId ≠ g1.insert → bId < g1.blocks.length →
      e5.blocks[bId]? = g1.blocks[bId]?) ∧
    (∀ m, m ≠ g1.insert → lenAt e5 m = lenAt g1 m) ∧
    getInst e5 g1.insert (lenAt g1 g1.insert) = some inst := by
  have hin3 : ((g1.appendBlock l1).2.appendBlock l2).2.insert = g1.insert := by
    rw [appendBlock_insert, appendBlock_insert]
  have hln3 : ((g1.appendBlock l1).2.appendBlock l2).2.blocks.length =
      g1.blocks.length + 2 := by
    rw [appendBlock_length, appendBlock_length]
  subst he
  refine ⟨?_, ?_, ?_, ?_, ?_, ?_, ?_, ?_, ?_⟩
  · rw [positionAt_insert, appendBlock_id]
  · rw [positionAt_blocks, emit_length, hln3]
  · rw [positionAt_nextReg, emit_nextReg, appendBlock_nextReg, appendBlock_nextReg]
  · rfl
  · rfl
  · exact ext_trans (ext_appendBlock _ _) (ext_trans (ext_appendBlock _ _)
      (ext_trans (ext_emit _ _) (ext_positionAt _ _)))
  · intro bId hne hlt
    rw [positionAt_blocks]
    rw [emit_get_other _ _ bId (by rw [hin3]; exact hne)]
    rw [appendBlock_get_lt _ _ bId (by rw [appendBlock_length]; omega)]
    rw [appendBlock_get_lt _ _ bId hlt]
  · intro m hne
    rw [lenAt_positionAt]
    rw [lenAt_emit_other _ _ m (by rw [hin3]; exact hne)]
    rw [lenAt_appendBlock, lenAt_appendBlock]
  · rw [getInst_positionAt]
    have hlen3 : lenAt ((g1.appendBlock l1).2.appendBlock l2).2 g1.insert =
        lenAt g1 g1.insert := by rw [lenAt_appendBlock, lenAt_appendBlock]
    have := getInst_emit_self ((g1.appendBlock l1).2.appendBlock l2).2 inst
      (by rw [hin3, hln3]; omega)
    rw [hin3, hlen3] at this
    exact this

/-- Facts about the builder state after the unconditional branch to the
join block, the repositioning there, and the phi emission shared by
gen_bool_and_expr and gen_bool_or_expr. -/
theorem tail_facts (g6 t : Gen) (j : Nat) (brInst phiInst : Inst)
    (hwf6 : g6.insert < g6.blocks.length)
    (hj : j < g6.blocks.length) (hne : j ≠ g6.insert)
    (he : t = (((g6.emit brInst).positionAt j).fresh).2.emit phiInst) :
    t.insert = j ∧
    t.nextReg = g6.nextReg + 1 ∧
    t.blocks.length = g6.blocks.length ∧
    t.breakStack = g6.breakStack ∧
    t.contStack = g6.contStack ∧
    Ext g6 t ∧
    (∀ bId, bId ≠ g6.insert → bId ≠ j → t.blocks[bId]? = g6.blocks[bId]?) ∧
    lenAt t j = lenAt g6 j + 1 ∧
    getInst t j (lenAt g6 j) = some phiInst ∧
    getInst t g6.insert (lenAt g6 g6.insert) = some brInst := by
  have hins9 : (((g6.emit brInst).positionAt j).fresh).2.insert = j := by
    rw [fresh_insert, positionAt_insert]
  have hlen9 : ∀ m, lenAt (((g6.emit brInst).positionAt j).fresh).2 m =
      lenAt (g6.emit brInst) m := by
    intro m
    rw [lenAt_fresh, lenAt_positionAt]
  have hl9 : (((g6.emit brInst).positionAt j).fresh).2.blocks.length =
      g6.blocks.length := by
    rw [fresh_blocks, positionAt_blocks, emit_length]
  subst he
  refine ⟨?_, ?_, ?_, ?_, ?_, ?_, ?_, ?_, ?_, ?_⟩
  · rw [emit_insert, hins9]
  · rw [emit_nextReg, fresh_nextReg, positionAt_nextReg, emit_nextReg]
  · rw [emit_length, hl9]
  · rfl
  · rfl
  · exact ext_trans (ext_emit _ _) (ext_trans (ext_positionAt _ _)
      (ext_trans (ext_fresh _) (ext_emit _ _)))
  · intro bId h1 h2
    rw [emit_get_other _ _ bId (by rw [hins9]; exact h2)]
    rw [fresh_blocks, positionAt_blocks]
    rw [emit_get_other _ _ bId h1]
  · have := lenAt_emit_self (((g6.emit brInst).positionAt j).fresh).2 phiInst
      (by rw [hins9, hl9]; exact hj)
    rw [hins9] at this
    rw [this, hlen9, lenAt_emit_other _ _ j hne]
  · have := getInst_emit_self (((g6.emit brInst).positionAt j).fresh).2 phiInst
      (by rw [hins9, hl9]; exact hj)
    rw [hins9, hlen9, lenAt_emit_other _ _ j hne] at this
    exact this
  · have h1 : getInst (g6.emit brInst) g6.insert (lenAt g6 g6.insert) = some brInst :=
      getInst_emit_self g6 brInst hwf6
    have hch : Ext (g6.emit brInst)
        ((((g6.emit brInst).positionAt j).fresh).2.emit phiInst) :=
      ext_trans (ext_positionAt _ _) (ext_trans (ext_fresh _) (ext_emit _ _))
    exact getInst_mono hch _ _ _ h1

theorem gen_expr_static (e : ZExpr) :
    ∀ (g : Gen) (val : LVal) (g2 : Gen), gen_expr e g = (val, g2) →
      g.insert < g.blocks.length → GenStep g val g2 := by
  induction e with
  | cbool b =>
    intro g val g2 hgen hwf
    rw [gen_expr] at hgen
    injection hgen with h1 h2
    subst h1
    subst h2
    exact ⟨ext_refl g, Nat.le_refl _, fun r hr => by simp at hr, hwf, Or.inl rfl,
      fun bId h1 h2 => rfl, rfl, rfl⟩
  | cint z =>
    intro g val g2 hgen hwf
    rw [gen_expr] at hgen
    injection hgen with h1 h2
    subst h1
    subst h2
    exact ⟨ext_refl g, Nat.le_refl _, fun r hr => by simp at hr, hwf, Or.inl rfl,
      fun bId h1 h2 => rfl, rfl, rfl⟩
  | evar v =>
    intro g val g2 hgen hwf
    rw [gen_expr] at hgen
    injection hgen with h1 h2
    subst h1
    subst h2
    exact ⟨ext_refl g, Nat.le_refl _, fun r hr => by simp at hr, hwf, Or.inl rfl,
      fun bId h1 h2 => rfl, rfl, rfl⟩
  | callb f =>
    intro g val g2 hgen hwf
    rw [gen_expr] at hgen
    injection hgen with h1 h2
    subst h1
    subst h2
    refine ⟨ext_trans (ext_fresh g) (ext_emit _ _), ?_, ?_, ?_, Or.inl rfl, ?_, rfl, rfl⟩
    · show g.nextReg ≤ g.nextReg + 1
      omega
    · intro r hr
      injection hr with hr
      subst hr
      show g.nextReg < g.nextReg + 1
      omega
    · show g.insert < _
      rw [emit_length]
      exact hwf
    · intro bId h1 h2
      exact emit_get_other _ _ bId h2
  | calli f =>
    intro g val g2 hgen hwf
    rw [gen_expr] at hgen
    injection hgen with h1 h2
    subst h1
    subst h2
    refine ⟨ext_trans (ext_fresh g) (ext_emit _ _), ?_, ?_, ?_, Or.inl rfl, ?_, rfl, rfl⟩
    · show g.nextReg ≤ g.nextReg + 1
      omega
    · intro r hr
      injection hr with hr
      subst hr
      show g.nextReg < g.nextReg + 1
      omega
    · show g.insert < _
      rw [emit_length]
      exact hwf
    · intro bId h1 h2
      exact emit_get_other _ _ bId h2
  | band a b iha ihb =>
    intro g val g2 hgen hwf
    rw [gen_expr] at hgen
    rcases hA : gen_expr a g with ⟨val1, g1⟩
    rw [hA] at hgen
    simp only at hgen
    rcases hB : gen_expr b ((((g1.appendBlock "BoolAndTrue").2.appendBlock
        "BoolAndFalse").2.emit (.condbr val1 (g1.appendBlock "BoolAndTrue").1
        ((g1.appendBlock "BoolAndTrue").2.appendBlock "BoolAndFalse").1)).positionAt
        (g1.appendBlock "BoolAndTrue").1) with ⟨val2, g6⟩
    rw [hB] at hgen
    simp only at hgen
    injection hgen with h1 h2
    subst h1
    subst h2
    obtain ⟨hext1, hreg1, hval1, hwf1, hins1, hun1, hbs1, hcs1⟩ := iha g val1 g1 hA hwf
    obtain ⟨hm1, hm2, hm3, hm4, hm5, hm6, hm7, hm8, hm9⟩ := mid_facts g1 _
      "BoolAndTrue" "BoolAndFalse" (.condbr val1 (g1.appendBlock "BoolAndTrue").1
        ((g1.appendBlock "BoolAndTrue").2.appendBlock "BoolAndFalse").1) hwf1 rfl
    obtain ⟨hext2, hreg2, hval2, hwf2, hins2, hun2, hbs2, hcs2⟩ := ihb _ val2 g6 hB
      (by rw [hm1, hm2]; omega)
    have hjlt : (((g1.appendBlock "BoolAndTrue").2.appendBlock "BoolAndFalse").1 : Nat) <
        g6.blocks.length := by
      rw [appendBlock_id, appendBlock_length]
      have := hext2.1
      rw [hm2] at this
      omega
    have hjne : (((g1.appendBlock "BoolAndTrue").2.appendBlock "BoolAndFalse").1 : Nat) ≠
        g6.insert := by
      rw [appendBlock_id, appendBlock_length]
      rcases hins2 with h | h
      · rw [h, hm1]; omega
      · rw [hm2] at h; omega
    obtain ⟨ht1, ht2, ht3, ht4, ht5, ht6, ht7, ht8, ht9, ht10⟩ := tail_facts g6 _
      ((g1.appendBlock "BoolAndTrue").2.appendBlock "BoolAndFalse").1
      (.br ((g1.appendBlock "BoolAndTrue").2.appendBlock "BoolAndFalse").1)
      (.phi (((g6.emit (.br ((g1.appendBlock "BoolAndTrue").2.appendBlock
        "BoolAndFalse").1)).positionAt ((g1.appendBlock "BoolAndTrue").2.appendBlock
        "BoolAndFalse").1).fresh).1 [(val1, g1.insert), (val2, g6.insert)])
      hwf2 hjlt hjne rfl
    refine ⟨?_, ?_, ?_, ?_, ?_, ?_, ?_, ?_⟩
    · exact ext_trans hext1 (ext_trans hm6 (ext_trans hext2 ht6))
    · rw [ht2]
      rw [hm3] at hreg2
      omega
    · intro r hr
      injection hr with hr
      subst hr
      rw [ht2]
      have : (((g6.emit (.br ((g1.appendBlock "BoolAndTrue").2.appendBlock
          "BoolAndFalse").1)).positionAt ((g1.appendBlock "BoolAndTrue").2.appendBlock
          "BoolAndFalse").1).fresh).1 = g6.nextReg := by
        rw [fresh_reg, positionAt_nextReg, emit_nextReg]
      omega
    · rw [ht1, ht3, appendBlock_id, appendBlock_length]
      have := hext2.1
      rw [hm2] at this
      omega
    · right
      rw [ht1, appendBlock_id, appendBlock_length]
      have := hext1.1
      omega
    · intro bId hb hne
      have hblt1 : bId < g1.blocks.length := by
        have := hext1.1
        omega
      have hbne1 : bId ≠ g1.insert := by
        rcases hins1 with h | h
        · rw [h]; exact hne
        · omega
      have h5 := hm7 bId hbne1 hblt1
      have h6 : g6.blocks[bId]? = g1.blocks[bId]? := by
        rw [hun2 bId (by rw [hm2]; omega) (by rw [hm1]; omega), h5]
      have hbnej : bId ≠ (((g1.appendBlock "BoolAndTrue").2.appendBlock
          "BoolAndFalse").1 : Nat) := by
        rw [appendBlock_id, appendBlock_length]
        omega
      have hbne6 : bId ≠ g6.insert := by
        rcases hins2 with h | h
        · rw [h, hm1]; omega
        · rw [hm2] at h; omega
      rw [ht7 bId hbne6 hbnej, h6, hun1 bId hb hne]
    · rw [ht4, hbs2, hm4, hbs1]
    · rw [ht5, hcs2, hm5, hcs1]
  | bor a b iha ihb =>
    intro g val g2 hgen hwf
    rw [gen_expr] at hgen
    rcases hA : gen_expr a g with ⟨val1, g1⟩
    rw [hA] at hgen
    simp only at hgen
    rcases hB : gen_expr b ((((g1.appendBlock "BoolOrFalse").2.appendBlock
        "BoolOrTrue").2.emit (.condbr val1 ((g1.appendBlock "BoolOrFalse").2.appendBlock
        "BoolOrTrue").1 (g1.appendBlock "BoolOrFalse").1)).positionAt
        (g1.appendBlock "BoolOrFalse").1) with ⟨val2, g6⟩
    rw [hB] at hgen
    simp only at hgen
    injection hgen with h1 h2
    subst h1
    subst h2
    obtain ⟨hext1, hreg1, hval1, hwf1, hins1, hun1, hbs1, hcs1⟩ := iha g val1 g1 hA hwf
    obtain ⟨hm1, hm2, hm3, hm4, hm5, hm6, hm7, hm8, hm9⟩ := mid_facts g1 _
      "BoolOrFalse" "BoolOrTrue" (.condbr val1 ((g1.appendBlock
        "BoolOrFalse").2.appendBlock "BoolOrTrue").1
        (g1.appendBlock "BoolOrFalse").1) hwf1 rfl
    obtain ⟨hext2, hreg2, hval2, hwf2, hins2, hun2, hbs2, hcs2⟩ := ihb _ val2 g6 hB
      (by rw [hm1, hm2]; omega)
    have hjlt : ((((g1.appendBlock "BoolOrFalse").2.appendBlock "BoolOrTrue").1 : Nat)) <
        g6.blocks.length := by
      rw [appendBlock_id, appendBlock_length]
      have := hext2.1
      rw [hm2] at this
      omega
    have hjne : ((((g1.appendBlock "BoolOrFalse").2.appendBlock "BoolOrTrue").1 : Nat)) ≠
        g6.insert := by
      rw [appendBlock_id, appendBlock_length]
      rcases hins2 with h | h
      · rw [h, hm1]; omega
      · rw [hm2] at h; omega
    obtain ⟨ht1, ht2, ht3, ht4, ht5, ht6, ht7, ht8, ht9, ht10⟩ := tail_facts g6 _
      ((g1.appendBlock "BoolOrFalse").2.appendBlock "BoolOrTrue").1
      (.br ((g1.appendBlock "BoolOrFalse").2.appendBlock "BoolOrTrue").1)
      (.phi (((g6.emit (.br ((g1.appendBlock "BoolOrFalse").2.appendBlock
        "BoolOrTrue").1)).positionAt ((g1.appendBlock "BoolOrFalse").2.appendBlock
        "BoolOrTrue").1).fresh).1 [(val1, g1.insert), (val2, g6.insert)])
      hwf2 hjlt hjne rfl
    refine ⟨?_, ?_, ?_, ?_, ?_, ?_, ?_, ?_⟩
    · exact ext_trans hext1 (ext_trans hm6 (ext_trans hext2 ht6))
    · rw [ht2]
      rw [hm3] at hreg2
      omega
    · intro r hr
      injection hr with hr
      subst hr
      rw [ht2]
      have : (((g6.emit (.br ((g1.appendBlock "BoolOrFalse").2.appendBlock
          "BoolOrTrue").1)).positionAt ((g1.appendBlock "BoolOrFalse").2.appendBlock
          "BoolOrTrue").1).fresh).1 = g6.nextReg := by
        rw [fresh_reg, positionAt_nextReg, emit_nextReg]
      omega
    · rw [ht1, ht3, appendBlock_id, appendBlock_length]
      have := hext2.1
      rw [hm2] at this
      omega
    · right
      rw [ht1, appendBlock_id, appendBlock_length]
      have := hext1.1
      omega
    · intro bId hb hne
      have hblt1 : bId < g1.blocks.length := by
        have := hext1.1
        omega
      have hbne1 : bId ≠ g1.insert := by
        rcases hins1 with h | h
        · rw [h]; exact hne
        · omega
      have h5 := hm7 bId hbne1 hblt1
      have h6 : g6.blocks[bId]? = g1.blocks[bId]? := by
        rw [hun2 bId (by rw [hm2]; omega) (by rw [hm1]; omega), h5]
      have hbnej : bId ≠ ((((g1.appendBlock "BoolOrFalse").2.appendBlock
          "BoolOrTrue").1 : Nat)) := by
        rw [appendBlock_id, appendBlock_length]
        omega
      have hbne6 : bId ≠ g6.insert := by
        rcases hins2 with h | h
        · rw [h, hm1]; omega
        · rw [hm2] at h; omega
      rw [ht7 bId hbne6 hbnej, h6, hun1 bId hb hne]
    · rw [ht4, hbs2, hm4, hbs1]
    · rw [ht5, hcs2, hm5, hcs1]

theorem lenAt_ge (g : Gen) (b : Nat) (h : g.blocks.length ≤ b) : lenAt g b = 0 := by
  unfold lenAt
  rw [List.getElem?_eq_none_iff.mpr h]

theorem lenAt_eq_of_get_eq {ga gb : Gen} (b : Nat)
    (h : gb.blocks[b]? = ga.blocks[b]?) : lenAt gb b = lenAt ga b := by
  unfold lenAt
  rw [h]

theorem step_run (g : Gen) (o : Oracle) (s : MState) (inst : Inst)
    (h : getInst g s.cur s.idx = some inst) :
    Steps g o s (execInst o s inst) :=
  steps_one g o s _ (by unfold step; rw [h])

/-- Dynamic simulation: executing the code generated for an expression,
inside any extension of the builder state it produced, starting at the
position where its first instruction was emitted, reaches the position
after its last instruction; the run produces the reference value and
appends exactly the reference call trace, leaves memory alone, and
preserves every register that existed before. -/
theorem gen_expr_sim (e : ZExpr) :
    ∀ (g : Gen) (o : Oracle) (val : LVal) (g2 : Gen),
      gen_expr e g = (val, g2) → g.insert < g.blocks.length →
      ∀ gF, Ext g2 gF →
      ∀ s : MState, s.cur = g.insert → s.idx = lenAt g g.insert →
      ∃ s2 : MState, Steps gF o s s2 ∧
        s2.cur = g2.insert ∧ s2.idx = lenAt g2 g2.insert ∧
        s2.mem = s.mem ∧ s2.trace = s.trace ++ (zeval o e).2 ∧
        (∀ r, r < g.nextReg → s2.env r = s.env r) ∧
        evalV s2.env val = (zeval o e).1 := by
  induction e with
  | cbool b =>
    intro g o val g2 hgen hwf gF hext s hcur hidx
    rw [gen_expr] at hgen
    injection hgen with h1 h2
    subst h1
    subst h2
    exact ⟨s, steps_self gF o s, hcur, hidx, rfl, by simp [zeval], fun r hr => rfl,
      by simp [zeval, evalV]⟩
  | cint z =>
    intro g o val g2 hgen hwf gF hext s hcur hidx
    rw [gen_expr] at hgen
    injection hgen with h1 h2
    subst h1
    subst h2
    exact ⟨s, steps_self gF o s, hcur, hidx, rfl, by simp [zeval], fun r hr => rfl,
      by simp [zeval, evalV]⟩
  | evar v =>
    intro g o val g2 hgen hwf gF hext s hcur hidx
    rw [gen_expr] at hgen
    injection hgen with h1 h2
    subst h1
    subst h2
    exact ⟨s, steps_self gF o s, hcur, hidx, rfl, by simp [zeval], fun r hr => rfl,
      by simp [zeval, evalV]⟩
  | callb f =>
    intro g o val g2 hgen hwf gF hext s hcur hidx
    rw [gen_expr] at hgen
    injection hgen with h1 h2
    subst h1
    subst h2
    have hgi : getInst gF g.insert (lenAt g g.insert) = some (.call g.nextReg f) := by
      refine getInst_mono hext _ _ _ ?_
      have h1 := getInst_emit_self (g.fresh).2 (.call (g.fresh).1 f)
        (by rw [fresh_insert, fresh_blocks]; exact hwf)
      rw [fresh_insert] at h1
      have h2 : lenAt (g.fresh).2 g.insert = lenAt g g.insert := lenAt_fresh g g.insert
      rw [h2] at h1
      exact h1
    have hstep : step gF o s = some { s with
        env := upd s.env g.nextReg (.b (o.bcall f)),
        trace := s.trace ++ [f], idx := s.idx + 1 } := by
      have hgi2 := hgi
      rw [← hidx, ← hcur] at hgi2
      unfold step
      rw [hgi2]
      rfl
    refine ⟨_, steps_one gF o s _ hstep, ?_, ?_, rfl, ?_, ?_, ?_⟩
    · exact hcur
    · show s.idx + 1 = lenAt ((g.fresh).2.emit (.call (g.fresh).1 f)) _
      have h1 := lenAt_emit_self (g.fresh).2 (.call (g.fresh).1 f)
        (by rw [fresh_insert, fresh_blocks]; exact hwf)
      rw [fresh_insert] at h1
      show s.idx + 1 = lenAt ((g.fresh).2.emit (.call (g.fresh).1 f)) g.insert
      rw [h1, lenAt_fresh, hidx]
    · simp [zeval]
    · intro r hr
      show upd s.env g.nextReg (.b (o.bcall f)) r = s.env r
      unfold upd
      rw [if_neg (by omega)]
    · show upd s.env g.nextReg (.b (o.bcall f)) g.nextReg = (zeval o (.callb f)).1
      unfold upd
      rw [if_pos rfl]
      simp [zeval]
  | calli f =>
    intro g o val g2 hgen hwf gF hext s hcur hidx
    rw [gen_expr] at hgen
    injection hgen with h1 h2
    subst h1
    subst h2
    have hgi : getInst gF g.insert (lenAt g g.insert) = some (.icall g.nextReg f) := by
      refine getInst_mono hext _ _ _ ?_
      have h1 := getInst_emit_self (g.fresh).2 (.icall (g.fresh).1 f)
        (by rw [fresh_insert, fresh_blocks]; exact hwf)
      rw [fresh_insert] at h1
      have h2 : lenAt (g.fresh).2 g.insert = lenAt g g.insert := lenAt_fresh g g.insert
      rw [h2] at h1
      exact h1
    have hstep : step gF o s = some { s with
        env := upd s.env g.nextReg (.i (o.icall f)),
        trace := s.trace ++ [f], idx := s.idx + 1 } := by
      have hgi2 := hgi
      rw [← hidx, ← hcur] at hgi2
      unfold step
      rw [hgi2]
      rfl
    refine ⟨_, steps_one gF o s _ hstep, ?_, ?_, rfl, ?_, ?_, ?_⟩
    · exact hcur
    · show s.idx + 1 = lenAt ((g.fresh).2.emit (.icall (g.fresh).1 f)) _
      have h1 := lenAt_emit_self (g.fresh).2 (.icall (g.fresh).1 f)
        (by rw [fresh_insert, fresh_blocks]; exact hwf)
      rw [fresh_insert] at h1
      show s.idx + 1 = lenAt ((g.fresh).2.emit (.icall (g.fresh).1 f)) g.insert
      rw [h1, lenAt_fresh, hidx]
    · simp [zeval]
    · intro r hr
      show upd s.env g.nextReg (.i (o.icall f)) r = s.env r
      unfold upd
      rw [if_neg (by omega)]
    · show upd s.env g.nextReg (.i (o.icall f)) g.nextReg = (zeval o (.calli f)).1
      unfold upd
      rw [if_pos rfl]
      simp [zeval]
  | band a b iha ihb =>
    intro g o val g2 hgen hwf gF hext s hcur hidx
    rw [gen_expr] at hgen
    rcases hA : gen_expr a g with ⟨val1, g1⟩
    rw [hA] at hgen
    simp only at hgen
    rcases hB : gen_expr b ((((g1.appendBlock "BoolAndTrue").2.appendBlock
        "BoolAndFalse").2.emit (.condbr val1 (g1.appendBlock "BoolAndTrue").1
        ((g1.appendBlock "BoolAndTrue").2.appendBlock "BoolAndFalse").1)).positionAt
        (g1.appendBlock "BoolAndTrue").1) with ⟨val2, g6⟩
    rw [hB] at hgen
    simp only at hgen
    injection hgen with h1 h2
    subst h1
    subst h2
    have sA := gen_expr_static a g val1 g1 hA hwf
    obtain ⟨hm1, hm2, hm3, hm4, hm5, hm6, hm7, hm8, hm9⟩ := mid_facts g1 _
      "BoolAndTrue" "BoolAndFalse" (.condbr val1 (g1.appendBlock "BoolAndTrue").1
        ((g1.appendBlock "BoolAndTrue").2.appendBlock "BoolAndFalse").1) sA.wf rfl
    have sB := gen_expr_static b _ val2 g6 hB (by rw [hm1, hm2]; have := sA.wf; omega)
    have hjlt : (((g1.appendBlock "BoolAndTrue").2.appendBlock "BoolAndFalse").1 : Nat) < g6.blocks.length := by
      rw [appendBlock_id, appendBlock_length]
      have := sB.ext.1
      rw [hm2] at this
      omega
    have hjne : (((g1.appendBlock "BoolAndTrue").2.appendBlock "BoolAndFalse").1 : Nat) ≠ g6.insert := by
      rw [appendBlock_id, appendBlock_length]
      rcases sB.ins with h | h
      · rw [h, hm1]
        have := sA.wf
        omega
      · rw [hm2] at h
        omega
    obtain ⟨ht1, ht2, ht3, ht4, ht5, ht6, ht7, ht8, ht9, ht10⟩ := tail_facts g6 _
      ((g1.appendBlock "BoolAndTrue").2.appendBlock "BoolAndFalse").1 (.br ((g1.appendBlock "BoolAndTrue").2.appendBlock "BoolAndFalse").1) (Inst.phi ((g6.emit (Inst.br ((g1.appendBlock "BoolAndTrue").2.appendBlock "BoolAndFalse").1)).positionAt ((g1.appendBlock "BoolAndTrue").2.appendBlock "BoolAndFalse").1).fresh.1 [(val1, g1.insert), (val2, g6.insert)]) sB.wf hjlt hjne rfl
    have hextE5F := ext_trans sB.ext (ext_trans ht6 hext)
    have hextg1F := ext_trans hm6 hextE5F
    rcases hza : zeval o a with ⟨va, ta⟩
    rcases hzb : zeval o b with ⟨vb, tbt⟩
    have hzband : zeval o (.band a b) =
        if va.asBool then (vb, ta ++ tbt) else (va, ta) := by
      rw [zeval, hza, hzb]
    obtain ⟨s1, hr1, hc1, hi1, hmem1, htr1, henv1, hval1⟩ :=
      iha g o val1 g1 hA hwf gF hextg1F s hcur hidx
    rw [hza] at htr1 hval1
    simp only at htr1 hval1
    have hci : getInst gF s1.cur s1.idx = some (.condbr val1 (g1.appendBlock "BoolAndTrue").1 ((g1.appendBlock "BoolAndTrue").2.appendBlock "BoolAndFalse").1) := by
      rw [hc1, hi1]
      exact getInst_mono hextE5F _ _ _ hm9
    have hfbne1 : (((g1.appendBlock "BoolAndTrue").2.appendBlock "BoolAndFalse").1 : Nat) ≠ g1.insert := by
      rw [appendBlock_id, appendBlock_length]
      have := sA.wf
      omega
    have hfblen6 : lenAt g6 ((g1.appendBlock "BoolAndTrue").2.appendBlock "BoolAndFalse").1 = 0 := by
      have h1 := lenAt_eq_of_get_eq ((g1.appendBlock "BoolAndTrue").2.appendBlock "BoolAndFalse").1 (sB.untouched ((g1.appendBlock "BoolAndTrue").2.appendBlock "BoolAndFalse").1
        (by rw [hm2, appendBlock_id, appendBlock_length]; omega)
        (by rw [hm1, appendBlock_id, appendBlock_length]; have := sA.wf; omega))
      rw [h1, hm8 ((g1.appendBlock "BoolAndTrue").2.appendBlock "BoolAndFalse").1 hfbne1,
        lenAt_ge g1 _ (by rw [appendBlock_id, appendBlock_length]; omega)]
    have hpostne : g1.insert ≠ g6.insert := by
      rcases sB.ins with h | h
      · rw [h, hm1]
        have := sA.wf
        omega
      · rw [hm2] at h
        have := sA.wf
        omega
    have hrphi : (((g6.emit (Inst.br ((g1.appendBlock "BoolAndTrue").2.appendBlock "BoolAndFalse").1)).positionAt ((g1.appendBlock "BoolAndTrue").2.appendBlock "BoolAndFalse").1).fresh.1 : Nat) = g6.nextReg := by
      rw [fresh_reg, positionAt_nextReg, emit_nextReg]
    have hpi : getInst gF ((g1.appendBlock "BoolAndTrue").2.appendBlock "BoolAndFalse").1 0 = some (Inst.phi g6.nextReg [(val1, g1.insert), (val2, g6.insert)]) := by
      have h1 := ht9
      rw [hfblen6, hrphi] at h1
      exact getInst_mono hext _ _ _ h1
    have hidxT : lenAt ((((g6.emit (.br ((g1.appendBlock "BoolAndTrue").2.appendBlock "BoolAndFalse").1)).positionAt ((g1.appendBlock "BoolAndTrue").2.appendBlock "BoolAndFalse").1).fresh).2.emit (Inst.phi ((g6.emit (Inst.br ((g1.appendBlock "BoolAndTrue").2.appendBlock "BoolAndFalse").1)).positionAt ((g1.appendBlock "BoolAndTrue").2.appendBlock "BoolAndFalse").1).fresh.1 [(val1, g1.insert), (val2, g6.insert)]))
        ((((g6.emit (.br ((g1.appendBlock "BoolAndTrue").2.appendBlock "BoolAndFalse").1)).positionAt ((g1.appendBlock "BoolAndTrue").2.appendBlock "BoolAndFalse").1).fresh).2.emit (Inst.phi ((g6.emit (Inst.br ((g1.appendBlock "BoolAndTrue").2.appendBlock "BoolAndFalse").1)).positionAt ((g1.appendBlock "BoolAndTrue").2.appendBlock "BoolAndFalse").1).fresh.1 [(val1, g1.insert), (val2, g6.insert)])).insert = 1 := by
      rw [ht1, ht8, hfblen6]
    by_cases hva : va.asBool = true
    · -- condbr falls into the true block, b runs there, then br + phi
      have hs2 : execInst o s1 (.condbr val1 (g1.appendBlock "BoolAndTrue").1 ((g1.appendBlock "BoolAndTrue").2.appendBlock "BoolAndFalse").1) =
          { s1 with prev := some s1.cur, cur := (g1.appendBlock "BoolAndTrue").1, idx := 0 } := by
        simp only [execInst]
        rw [hval1]
        simp [hva]
      obtain ⟨s3, hr3, hc3, hi3, hmem3, htr3, henv3, hval3⟩ :=
        ihb _ o val2 g6 hB (by rw [hm1, hm2]; have := sA.wf; omega) gF
          (ext_trans ht6 hext)
          { s1 with prev := some s1.cur, cur := (g1.appendBlock "BoolAndTrue").1, idx := 0 }
          (by rw [hm1, appendBlock_id])
          (by rw [hm1, hm8 g1.blocks.length (by have := sA.wf; omega),
                lenAt_ge g1 _ (Nat.le_refl _)])
      rw [hzb] at htr3 hval3
      simp only at htr3 hval3
      have hbi : getInst gF s3.cur s3.idx = some (.br ((g1.appendBlock "BoolAndTrue").2.appendBlock "BoolAndFalse").1) := by
        rw [hc3, hi3]
        exact getInst_mono hext _ _ _ ht10
      have hphiv : phiLookup [(val1, g1.insert), (val2, g6.insert)] s3.cur =
          some val2 := by
        rw [hc3]
        simp [phiLookup, hpostne]
      have hs5 : execInst o { s3 with prev := some s3.cur, cur := ((g1.appendBlock "BoolAndTrue").2.appendBlock "BoolAndFalse").1, idx := 0 }
          (Inst.phi g6.nextReg [(val1, g1.insert), (val2, g6.insert)]) =
          { s3 with
            prev := some s3.cur, cur := ((g1.appendBlock "BoolAndTrue").2.appendBlock "BoolAndFalse").1, idx := 1,
            env := upd s3.env g6.nextReg (evalV s3.env val2) } := by
        simp only [execInst]
        rw [hphiv]
      refine ⟨{ s3 with
            prev := some s3.cur, cur := ((g1.appendBlock "BoolAndTrue").2.appendBlock "BoolAndFalse").1, idx := 1,
            env := upd s3.env g6.nextReg (evalV s3.env val2) },
        ?_, ?_, ?_, ?_, ?_, ?_, ?_⟩
      · refine steps_trans gF o _ _ _ hr1 ?_
        refine steps_trans gF o _ _ _ (step_run gF o s1 _ hci) ?_
        rw [hs2]
        refine steps_trans gF o _ _ _ hr3 ?_
        refine steps_trans gF o _ _ _ (step_run gF o s3 _ hbi) ?_
        have hstep5 := step_run gF o
          { s3 with prev := some s3.cur, cur := ((g1.appendBlock "BoolAndTrue").2.appendBlock "BoolAndFalse").1, idx := 0 } (Inst.phi g6.nextReg [(val1, g1.insert), (val2, g6.insert)]) hpi
        rw [hs5] at hstep5
        exact hstep5
      · exact ht1.symm
      · exact hidxT.symm
      · show s3.mem = s.mem
        rw [hmem3]
        exact hmem1
      · show s3.trace = s.trace ++ (zeval o (.band a b)).2
        rw [hzband, if_pos hva, htr3]
        show s1.trace ++ tbt = _
        rw [htr1, List.append_assoc]
      · intro r hr
        show upd s3.env g6.nextReg (evalV s3.env val2) r = s.env r
        unfold upd
        rw [if_neg (by
          have h1 := sA.reg_le
          have h2 := sB.reg_le
          rw [hm3] at h2
          omega)]
        have h3 := henv3 r (by
          rw [hm3]
          have := sA.reg_le
          omega)
        rw [h3]
        show s1.env r = s.env r
        exact henv1 r hr
      · show upd s3.env g6.nextReg (evalV s3.env val2) ((g6.emit (Inst.br ((g1.appendBlock "BoolAndTrue").2.appendBlock "BoolAndFalse").1)).positionAt ((g1.appendBlock "BoolAndTrue").2.appendBlock "BoolAndFalse").1).fresh.1 =
          (zeval o (.band a b)).1
        rw [hrphi]
        unfold upd
        rw [if_pos rfl, hzband, if_pos hva, hval3]
    · -- condbr skips straight to the join block; the phi picks the op1 value
      have hvaf : va.asBool = false := by
        cases h : va.asBool
        · rfl
        · exact absurd h hva
      have hs2 : execInst o s1 (.condbr val1 (g1.appendBlock "BoolAndTrue").1 ((g1.appendBlock "BoolAndTrue").2.appendBlock "BoolAndFalse").1) =
          { s1 with prev := some s1.cur, cur := ((g1.appendBlock "BoolAndTrue").2.appendBlock "BoolAndFalse").1, idx := 0 } := by
        simp only [execInst]
        rw [hval1]
        simp [hvaf]
      have hphiv : phiLookup [(val1, g1.insert), (val2, g6.insert)] s1.cur =
          some val1 := by
        rw [hc1]
        simp [phiLookup]
      have hs5 : execInst o { s1 with prev := some s1.cur, cur := ((g1.appendBlock "BoolAndTrue").2.appendBlock "BoolAndFalse").1, idx := 0 }
          (Inst.phi g6.nextReg [(val1, g1.insert), (val2, g6.insert)]) =
          { s1 with
            prev := some s1.cur, cur := ((g1.appendBlock "BoolAndTrue").2.appendBlock "BoolAndFalse").1, idx := 1,
            env := upd s1.env g6.nextReg (evalV s1.env val1) } := by
        simp only [execInst]
        rw [hphiv]
      refine ⟨{ s1 with
            prev := some s1.cur, cur := ((g1.appendBlock "BoolAndTrue").2.appendBlock "BoolAndFalse").1, idx := 1,
            env := upd s1.env g6.nextReg (evalV s1.env val1) },
        ?_, ?_, ?_, ?_, ?_, ?_, ?_⟩
      · refine steps_trans gF o _ _ _ hr1 ?_
        refine steps_trans gF o _ _ _ (step_run gF o s1 _ hci) ?_
        rw [hs2]
        have hstep5 := step_run gF o
          { s1 with prev := some s1.cur, cur := ((g1.appendBlock "BoolAndTrue").2.appendBlock "BoolAndFalse").1, idx := 0 } (Inst.phi g6.nextReg [(val1, g1.insert), (val2, g6.insert)]) hpi
        rw [hs5] at hstep5
        exact hstep5
      · exact ht1.symm
      · exact hidxT.symm
      · show s1.mem = s.mem
        exact hmem1
      · show s1.trace = s.trace ++ (zeval o (.band a b)).2
        rw [hzband, if_neg (by rw [hvaf]; exact Bool.false_ne_true)]
        exact htr1
      · intro r hr
        show upd s1.env g6.nextReg (evalV s1.env val1) r = s.env r
        unfold upd
        rw [if_neg (by
          have h1 := sA.reg_le
          have h2 := sB.reg_le
          rw [hm3] at h2
          omega)]
        exact henv1 r hr
      · show upd s1.env g6.nextReg (evalV s1.env val1) ((g6.emit (Inst.br ((g1.appendBlock "BoolAndTrue").2.appendBlock "BoolAndFalse").1)).positionAt ((g1.appendBlock "BoolAndTrue").2.appendBlock "BoolAndFalse").1).fresh.1 =
          (zeval o (.band a b)).1
        rw [hrphi]
        unfold upd
        rw [if_pos rfl, hzband, if_neg (by rw [hvaf]; exact Bool.false_ne_true), hval1]
  | bor a b iha ihb =>
    intro g o val g2 hgen hwf gF hext s hcur hidx
    rw [gen_expr] at hgen
    rcases hA : gen_expr a g with ⟨val1, g1⟩
    rw [hA] at hgen
    simp only at hgen
    rcases hB : gen_expr b ((((g1.appendBlock "BoolOrFalse").2.appendBlock
        "BoolOrTrue").2.emit (.condbr val1 ((g1.appendBlock "BoolOrFalse").2.appendBlock
        "BoolOrTrue").1 (g1.appendBlock "BoolOrFalse").1)).positionAt
        (g1.appendBlock "BoolOrFalse").1) with ⟨val2, g6⟩
    rw [hB] at hgen
    simp only at hgen
    injection hgen with h1 h2
    subst h1
    subst h2
    have sA := gen_expr_static a g val1 g1 hA hwf
    obtain ⟨hm1, hm2, hm3, hm4, hm5, hm6, hm7, hm8, hm9⟩ := mid_facts g1 _
      "BoolOrFalse" "BoolOrTrue" (.condbr val1 ((g1.appendBlock "BoolOrFalse").2.appendBlock
        "BoolOrTrue").1 (g1.appendBlock "BoolOrFalse").1) sA.wf rfl
    have sB := gen_expr_static b _ val2 g6 hB (by rw [hm1, hm2]; have := sA.wf; omega)
    have hjlt : (((g1.appendBlock "BoolOrFalse").2.appendBlock "BoolOrTrue").1 : Nat) < g6.blocks.length := by
      rw [appendBlock_id, appendBlock_length]
      have := sB.ext.1
      rw [hm2] at this
      omega
    have hjne : (((g1.appendBlock "BoolOrFalse").2.appendBlock "BoolOrTrue").1 : Nat) ≠ g6.insert := by
      rw [appendBlock_id, appendBlock_length]
      rcases sB.ins with h | h
      · rw [h, hm1]
        have := sA.wf
        omega
      · rw [hm2] at h
        omega
    obtain ⟨ht1, ht2, ht3, ht4, ht5, ht6, ht7, ht8, ht9, ht10⟩ := tail_facts g6 _
      ((g1.appendBlock "BoolOrFalse").2.appendBlock "BoolOrTrue").1 (.br ((g1.appendBlock "BoolOrFalse").2.appendBlock "BoolOrTrue").1) (Inst.phi ((g6.emit (Inst.br ((g1.appendBlock "BoolOrFalse").2.appendBlock "BoolOrTrue").1)).positionAt ((g1.appendBlock "BoolOrFalse").2.appendBlock "BoolOrTrue").1).fresh.1 [(val1, g1.insert), (val2, g6.insert)]) sB.wf hjlt hjne rfl
    have hextE5F := ext_trans sB.ext (ext_trans ht6 hext)
    have hextg1F := ext_trans hm6 hextE5F
    rcases hza : zeval o a with ⟨va, ta⟩
    rcases hzb : zeval o b with ⟨vb, tbt⟩
    have hzbor : zeval o (.bor a b) =
        if va.asBool then (va, ta) else (vb, ta ++ tbt) := by
      rw [zeval, hza, hzb]
    obtain ⟨s1, hr1, hc1, hi1, hmem1, htr1, henv1, hval1⟩ :=
      iha g o val1 g1 hA hwf gF hextg1F s hcur hidx
    rw [hza] at htr1 hval1
    simp only at htr1 hval1
    have hci : getInst gF s1.cur s1.idx = some (.condbr val1 ((g1.appendBlock "BoolOrFalse").2.appendBlock "BoolOrTrue").1 (g1.appendBlock "BoolOrFalse").1) := by
      rw [hc1, hi1]
      exact getInst_mono hextE5F _ _ _ hm9
    have hfbne1 : (((g1.appendBlock "BoolOrFalse").2.appendBlock "BoolOrTrue").1 : Nat) ≠ g1.insert := by
      rw [appendBlock_id, appendBlock_length]
      have := sA.wf
      omega
    have hfblen6 : lenAt g6 ((g1.appendBlock "BoolOrFalse").2.appendBlock "BoolOrTrue").1 = 0 := by
      have h1 := lenAt_eq_of_get_eq ((g1.appendBlock "BoolOrFalse").2.appendBlock "BoolOrTrue").1 (sB.untouched ((g1.appendBlock "BoolOrFalse").2.appendBlock "BoolOrTrue").1
        (by rw [hm2, appendBlock_id, appendBlock_length]; omega)
        (by rw [hm1, appendBlock_id, appendBlock_length]; have := sA.wf; omega))
      rw [h1, hm8 ((g1.appendBlock "BoolOrFalse").2.appendBlock "BoolOrTrue").1 hfbne1,
        lenAt_ge g1 _ (by rw [appendBlock_id, appendBlock_length]; omega)]
    have hpostne : g1.insert ≠ g6.insert := by
      rcases sB.ins with h | h
      · rw [h, hm1]
        have := sA.wf
        omega
      · rw [hm2] at h
        have := sA.wf
        omega
    have hrphi : (((g6.emit (Inst.br ((g1.appendBlock "BoolOrFalse").2.appendBlock "BoolOrTrue").1)).positionAt ((g1.appendBlock "BoolOrFalse").2.appendBlock "BoolOrTrue").1).fresh.1 : Nat) = g6.nextReg := by
      rw [fresh_reg, positionAt_nextReg, emit_nextReg]
    have hpi : getInst gF ((g1.appendBlock "BoolOrFalse").2.appendBlock "BoolOrTrue").1 0 = some (Inst.phi g6.nextReg [(val1, g1.insert), (val2, g6.insert)]) := by
      have h1 := ht9
      rw [hfblen6, hrphi] at h1
      exact getInst_mono hext _ _ _ h1
    have hidxT : lenAt ((((g6.emit (.br ((g1.appendBlock "BoolOrFalse").2.appendBlock "BoolOrTrue").1)).positionAt ((g1.appendBlock "BoolOrFalse").2.appendBlock "BoolOrTrue").1).fresh).2.emit (Inst.phi ((g6.emit (Inst.br ((g1.appendBlock "BoolOrFalse").2.appendBlock "BoolOrTrue").1)).positionAt ((g1.appendBlock "BoolOrFalse").2.appendBlock "BoolOrTrue").1).fresh.1 [(val1, g1.insert), (val2, g6.insert)]))
        ((((g6.emit (.br ((g1.appendBlock "BoolOrFalse").2.appendBlock "BoolOrTrue").1)).positionAt ((g1.appendBlock "BoolOrFalse").2.appendBlock "BoolOrTrue").1).fresh).2.emit (Inst.phi ((g6.emit (Inst.br ((g1.appendBlock "BoolOrFalse").2.appendBlock "BoolOrTrue").1)).positionAt ((g1.appendBlock "BoolOrFalse").2.appendBlock "BoolOrTrue").1).fresh.1 [(val1, g1.insert), (val2, g6.insert)])).insert = 1 := by
      rw [ht1, ht8, hfblen6]
    by_cases hva : va.asBool = true
    · -- condbr jumps straight to the join block; the phi picks the op1 value
      have hs2 : execInst o s1 (.condbr val1 ((g1.appendBlock "BoolOrFalse").2.appendBlock "BoolOrTrue").1 (g1.appendBlock "BoolOrFalse").1) =
          { s1 with prev := some s1.cur, cur := ((g1.appendBlock "BoolOrFalse").2.appendBlock "BoolOrTrue").1, idx := 0 } := by
        simp only [execInst]
        rw [hval1]
        simp [hva]
      have hphiv : phiLookup [(val1, g1.insert), (val2, g6.insert)] s1.cur =
          some val1 := by
        rw [hc1]
        simp [phiLookup]
      have hs5 : execInst o { s1 with prev := some s1.cur, cur := ((g1.appendBlock "BoolOrFalse").2.appendBlock "BoolOrTrue").1, idx := 0 }
          (Inst.phi g6.nextReg [(val1, g1.insert), (val2, g6.insert)]) =
          { s1 with
            prev := some s1.cur, cur := ((g1.appendBlock "BoolOrFalse").2.appendBlock "BoolOrTrue").1, idx := 1,
            env := upd s1.env g6.nextReg (evalV s1.env val1) } := by
        simp only [execInst]
        rw [hphiv]
      refine ⟨{ s1 with
            prev := some s1.cur, cur := ((g1.appendBlock "BoolOrFalse").2.appendBlock "BoolOrTrue").1, idx := 1,
            env := upd s1.env g6.nextReg (evalV s1.env val1) },
        ?_, ?_, ?_, ?_, ?_, ?_, ?_⟩
      · refine steps_trans gF o _ _ _ hr1 ?_
        refine steps_trans gF o _ _ _ (step_run gF o s1 _ hci) ?_
        rw [hs2]
        have hstep5 := step_run gF o
          { s1 with prev := some s1.cur, cur := ((g1.appendBlock "BoolOrFalse").2.appendBlock "BoolOrTrue").1, idx := 0 } (Inst.phi g6.nextReg [(val1, g1.insert), (val2, g6.insert)]) hpi
        rw [hs5] at hstep5
        exact hstep5
      · exact ht1.symm
      · exact hidxT.symm
      · show s1.mem = s.mem
        exact hmem1
      · show s1.trace = s.trace ++ (zeval o (.bor a b)).2
        rw [hzbor, if_pos hva]
        exact htr1
      · intro r hr
        show upd s1.env g6.nextReg (evalV s1.env val1) r = s.env r
        unfold upd
        rw [if_neg (by
          have h1 := sA.reg_le
          have h2 := sB.reg_le
          rw [hm3] at h2
          omega)]
        exact henv1 r hr
      · show upd s1.env g6.nextReg (evalV s1.env val1) ((g6.emit (Inst.br ((g1.appendBlock "BoolOrFalse").2.appendBlock "BoolOrTrue").1)).positionAt ((g1.appendBlock "BoolOrFalse").2.appendBlock "BoolOrTrue").1).fresh.1 =
          (zeval o (.bor a b)).1
        rw [hrphi]
        unfold upd
        rw [if_pos rfl, hzbor, if_pos hva, hval1]
    · -- condbr falls into the false block, b runs there, then br + phi
      have hvaf : va.asBool = false := by
        cases h : va.asBool
        · rfl
        · exact absurd h hva
      have hs2 : execInst o s1 (.condbr val1 ((g1.appendBlock "BoolOrFalse").2.appendBlock "BoolOrTrue").1 (g1.appendBlock "BoolOrFalse").1) =
          { s1 with prev := some s1.cur, cur := (g1.appendBlock "BoolOrFalse").1, idx := 0 } := by
        simp only [execInst]
        rw [hval1]
        simp [hvaf]
      obtain ⟨s3, hr3, hc3, hi3, hmem3, htr3, henv3, hval3⟩ :=
        ihb _ o val2 g6 hB (by rw [hm1, hm2]; have := sA.wf; omega) gF
          (ext_trans ht6 hext)
          { s1 with prev := some s1.cur, cur := (g1.appendBlock "BoolOrFalse").1, idx := 0 }
          (by rw [hm1, appendBlock_id])
          (by rw [hm1, hm8 g1.blocks.length (by have := sA.wf; omega),
                lenAt_ge g1 _ (Nat.le_refl _)])
      rw [hzb] at htr3 hval3
      simp only at htr3 hval3
      have hbi : getInst gF s3.cur s3.idx = some (.br ((g1.appendBlock "BoolOrFalse").2.appendBlock "BoolOrTrue").1) := by
        rw [hc3, hi3]
        exact getInst_mono hext _ _ _ ht10
      have hphiv : phiLookup [(val1, g1.insert), (val2, g6.insert)] s3.cur =
          some val2 := by
        rw [hc3]
        simp [phiLookup, hpostne]
      have hs5 : execInst o { s3 with prev := some s3.cur, cur := ((g1.appendBlock "BoolOrFalse").2.appendBlock "BoolOrTrue").1, idx := 0 }
          (Inst.phi g6.nextReg [(val1, g1.insert), (val2, g6.insert)]) =
          { s3 with
            prev := some s3.cur, cur := ((g1.appendBlock "BoolOrFalse").2.appendBlock "BoolOrTrue").1, idx := 1,
            env := upd s3.env g6.nextReg (evalV s3.env val2) } := by
        simp only [execInst]
        rw [hphiv]
      refine ⟨{ s3 with
            prev := some s3.cur, cur := ((g1.appendBlock "BoolOrFalse").2.appendBlock "BoolOrTrue").1, idx := 1,
            env := upd s3.env g6.nextReg (evalV s3.env val2) },
        ?_, ?_, ?_, ?_, ?_, ?_, ?_⟩
      · refine steps_trans gF o _ _ _ hr1 ?_
        refine steps_trans gF o _ _ _ (step_run gF o s1 _ hci) ?_
        rw [hs2]
        refine steps_trans gF o _ _ _ hr3 ?_
        refine steps_trans gF o _ _ _ (step_run gF o s3 _ hbi) ?_
        have hstep5 := step_run gF o
          { s3 with prev := some s3.cur, cur := ((g1.appendBlock "BoolOrFalse").2.appendBlock "BoolOrTrue").1, idx := 0 } (Inst.phi g6.nextReg [(val1, g1.insert), (val2, g6.insert)]) hpi
        rw [hs5] at hstep5
        exact hstep5
      · exact ht1.symm
      · exact hidxT.symm
      · show s3.mem = s.mem
        rw [hmem3]
        exact hmem1
      · show s3.trace = s.trace ++ (zeval o (.bor a b)).2
        rw [hzbor, if_neg (by rw [hvaf]; exact Bool.false_ne_true), htr3]
        show s1.trace ++ tbt = _
        rw [htr1, List.append_assoc]
      · intro r hr
        show upd s3.env g6.nextReg (evalV s3.env val2) r = s.env r
        unfold upd
        rw [if_neg (by
          have h1 := sA.reg_le
          have h2 := sB.reg_le
          rw [hm3] at h2
          omega)]
        have h3 := henv3 r (by
          rw [hm3]
          have := sA.reg_le
          omega)
        rw [h3]
        show s1.env r = s.env r
        exact henv1 r hr
      · show upd s3.env g6.nextReg (evalV s3.env val2) ((g6.emit (Inst.br ((g1.appendBlock "BoolOrFalse").2.appendBlock "BoolOrTrue").1)).positionAt ((g1.appendBlock "BoolOrFalse").2.appendBlock "BoolOrTrue").1).fresh.1 =
          (zeval o (.bor a b)).1
        rw [hrphi]
        unfold upd
        rw [if_pos rfl, hzbor, if_neg (by rw [hvaf]; exact Bool.false_ne_true), hval3]
/-- The initial builder state of a function body: one empty entry block,
the builder positioned there. -/
def initGen : Gen :=
  { blocks := [{ label := "entry", insts := [] }], insert := 0, nextReg := 0,
    breakStack := [], contStack := [] }

/-- The machine state at the top of the entry block. -/
def initState (env0 : Nat → RVal) (mem0 : List (Addr × RVal)) : MState :=
  { cur := 0, idx := 0, prev := none, env := env0, mem := mem0, trace := [] }

/-- No instruction exists at the end of a block: execution halts there. -/
theorem getInst_at_lenAt (g : Gen) (b : Nat) : getInst g b (lenAt g b) = none := by
  unfold getInst lenAt
  cases h : g.blocks[b]? with
  | none => simp
  | some blk => simp

theorem zeval_band_trace (o : Oracle) (a b : ZExpr) :
    (zeval o (.band a b)).2 = (zeval o a).2 ++
      (if (zeval o a).1.asBool then (zeval o b).2 else []) := by
  rcases h : zeval o a with ⟨va, ta⟩
  rcases h2 : zeval o b with ⟨vb, tb2⟩
  rw [zeval, h, h2]
  cases hv : va.asBool <;> simp [hv]

theorem zeval_bor_trace (o : Oracle) (a b : ZExpr) :
    (zeval o (.bor a b)).2 = (zeval o a).2 ++
      (if (zeval o a).1.asBool then [] else (zeval o b).2) := by
  rcases h : zeval o a with ⟨va, ta⟩
  rcases h2 : zeval o b with ⟨vb, tb2⟩
  rw [zeval, h, h2]
  cases hv : va.asBool <;> simp [hv]

/-- C2: in the code emitted by gen_bool_and_expr for a and b, the
instructions lowered for b execute only on the path where a evaluated to
true, and in the code emitted by gen_bool_or_expr for a or b they
execute only on the path where a evaluated to false: a complete run of
the generated code records exactly the calls of a followed by the calls
of b if and only if a took the continuing branch, and the phi produces
the source-level short-circuit value.  In particular lowering
false and E never executes E, and lowering true or E never executes E. -/
theorem c2_short_circuit_lowering (a b : ZExpr) (o : Oracle) (env0 : Nat → RVal) :
    (∀ val gfin, gen_expr (.band a b) initGen = (val, gfin) →
      ∃ s2 : MState, Steps gfin o (initState env0 []) s2 ∧ step gfin o s2 = none ∧
        s2.trace = (zeval o a).2 ++
          (if (zeval o a).1.asBool then (zeval o b).2 else []) ∧
        evalV s2.env val = (zeval o (.band a b)).1) ∧
    (∀ val gfin, gen_expr (.bor a b) initGen = (val, gfin) →
      ∃ s2 : MState, Steps gfin o (initState env0 []) s2 ∧ step gfin o s2 = none ∧
        s2.trace = (zeval o a).2 ++
          (if (zeval o a).1.asBool then [] else (zeval o b).2) ∧
        evalV s2.env val = (zeval o (.bor a b)).1) := by
  constructor
  · intro val gfin hgen
    obtain ⟨s2, hrun, hcur2, hidx2, hmem2, htr2, henv2, hval2⟩ :=
      gen_expr_sim (.band a b) initGen o val gfin hgen (by decide) gfin
        (ext_refl gfin) (initState env0 []) rfl rfl
    refine ⟨s2, hrun, ?_, ?_, hval2⟩
    · unfold step
      rw [show getInst gfin s2.cur s2.idx = none from by
        rw [hcur2, hidx2]; exact getInst_at_lenAt gfin gfin.insert]
    · rw [htr2, ← zeval_band_trace]
      show (zeval o (.band a b)).2 = _
      rfl
  · intro val gfin hgen
    obtain ⟨s2, hrun, hcur2, hidx2, hmem2, htr2, henv2, hval2⟩ :=
      gen_expr_sim (.bor a b) initGen o val gfin hgen (by decide) gfin
        (ext_refl gfin) (initState env0 []) rfl rfl
    refine ⟨s2, hrun, ?_, ?_, hval2⟩
    · unfold step
      rw [show getInst gfin s2.cur s2.idx = none from by
        rw [hcur2, hidx2]; exact getInst_at_lenAt gfin gfin.insert]
    · rw [htr2, ← zeval_bor_trace]
      show (zeval o (.bor a b)).2 = _
      rfl

/-- C2 witness: for false and (call 7), a complete run of the emitted
code records no call at all; the theorem is applied at the concrete
expression with a concrete oracle. -/
theorem c2_short_circuit_lowering_witness :
    ∃ s2 : MState, Steps (gen_expr (.band (.cbool false) (.callb 7)) initGen).2
        { bcall := fun x => true, icall := fun x => 0 }
        (initState (fun x => .b false) []) s2 ∧
      step (gen_expr (.band (.cbool false) (.callb 7)) initGen).2
        { bcall := fun x => true, icall := fun x => 0 } s2 = none ∧
      s2.trace = [] := by
  obtain ⟨s2, h1, h2, h3, h4⟩ :=
    (c2_short_circuit_lowering (.cbool false) (.callb 7)
      { bcall := fun x => true, icall := fun x => 0 } (fun x => .b false)).1
      (gen_expr (.band (.cbool false) (.callb 7)) initGen).1
      (gen_expr (.band (.cbool false) (.callb 7)) initGen).2 rfl
  exact ⟨s2, h1, h2, by rw [h3]; rfl⟩

/-! ### Block labels -/

/-- The labels of the function's basic blocks in append order. -/
def labels (g : Gen) : List String := g.blocks.map BBlock.label

theorem appendInst_labels (bs : List BBlock) (n : Nat) (inst : Inst) :
    (appendInst bs n inst).map BBlock.label = bs.map BBlock.label := by
  induction bs generalizing n with
  | nil => rfl
  | cons blk rest ih =>
    cases n with
    | zero => simp [appendInst]
    | succ k => simpa [appendInst] using ih k

theorem labels_emit (g : Gen) (inst : Inst) : labels (g.emit inst) = labels g :=
  appendInst_labels g.blocks g.insert inst

theorem labels_appendBlock (g : Gen) (l : String) :
    labels (g.appendBlock l).2 = labels g ++ [l] := by
  simp [labels, Gen.appendBlock]

theorem labels_positionAt (g : Gen) (b : Nat) : labels (g.positionAt b) = labels g := rfl

theorem labels_fresh (g : Gen) : labels (g.fresh).2 = labels g := rfl

/-- The labels of the blocks gen_expr appends: each short-circuit
operator contributes its two blocks between the blocks of its operands. -/
def extraLabels : ZExpr → List String
  | .band a b => (extraLabels a ++ ["BoolAndTrue", "BoolAndFalse"]) ++ extraLabels b
  | .bor a b => (extraLabels a ++ ["BoolOrFalse", "BoolOrTrue"]) ++ extraLabels b
  | _ => []

theorem gen_expr_labels (e : ZExpr) :
    ∀ (g : Gen) (val : LVal) (g2 : Gen), gen_expr e g = (val, g2) →
      labels g2 = labels g ++ extraLabels e := by
  induction e with
  | cbool b =>
    intro g val g2 hgen
    rw [gen_expr] at hgen
    injection hgen with h1 h2
    subst h2
    simp [extraLabels]
  | cint z =>
    intro g val g2 hgen
    rw [gen_expr] at hgen
    injection hgen with h1 h2
    subst h2
    simp [extraLabels]
  | evar v =>
    intro g val g2 hgen
    rw [gen_expr] at hgen
    injection hgen with h1 h2
    subst h2
    simp [extraLabels]
  | callb f =>
    intro g val g2 hgen
    rw [gen_expr] at hgen
    injection hgen with h1 h2
    subst h2
    show labels ((g.fresh).2.emit (.call (g.fresh).1 f)) = labels g ++ extraLabels (.callb f)
    rw [labels_emit, labels_fresh]
    simp [extraLabels]
  | calli f =>
    intro g val g2 hgen
    rw [gen_expr] at hgen
    injection hgen with h1 h2
    subst h2
    show labels ((g.fresh).2.emit (.icall (g.fresh).1 f)) = labels g ++ extraLabels (.calli f)
    rw [labels_emit, labels_fresh]
    simp [extraLabels]
  | band a b iha ihb =>
    intro g val g2 hgen
    rw [gen_expr] at hgen
    rcases hA : gen_expr a g with ⟨val1, g1⟩
    rw [hA] at hgen
    simp only at hgen
    rcases hB : gen_expr b ((((g1.appendBlock "BoolAndTrue").2.appendBlock
        "BoolAndFalse").2.emit (.condbr val1 (g1.appendBlock "BoolAndTrue").1
        ((g1.appendBlock "BoolAndTrue").2.appendBlock "BoolAndFalse").1)).positionAt
        (g1.appendBlock "BoolAndTrue").1) with ⟨val2, g6⟩
    rw [hB] at hgen
    simp only at hgen
    injection hgen with h1 h2
    subst h2
    have ha := iha g val1 g1 hA
    have hb := ihb _ val2 g6 hB
    rw [labels_emit, labels_fresh, labels_positionAt, labels_emit, hb,
        labels_positionAt, labels_emit, labels_appendBlock, labels_appendBlock, ha]
    simp [extraLabels]
  | bor a b iha ihb =>
    intro g val g2 hgen
    rw [gen_expr] at hgen
    rcases hA : gen_expr a g with ⟨val1, g1⟩
    rw [hA] at hgen
    simp only at hgen
    rcases hB : gen_expr b ((((g1.appendBlock "BoolOrFalse").2.appendBlock
        "BoolOrTrue").2.emit (.condbr val1 ((g1.appendBlock "BoolOrFalse").2.appendBlock
        "BoolOrTrue").1 (g1.appendBlock "BoolOrFalse").1)).positionAt
        (g1.appendBlock "BoolOrFalse").1) with ⟨val2, g6⟩
    rw [hB] at hgen
    simp only at hgen
    injection hgen with h1 h2
    subst h2
    have ha := iha g val1 g1 hA
    have hb := ihb _ val2 g6 hB
    rw [labels_emit, labels_fresh, labels_positionAt, labels_emit, hb,
        labels_positionAt, labels_emit, labels_appendBlock, labels_appendBlock, ha]
    simp [extraLabels]

/-! ### Straight-line emission and execution -/

/-- Emit a sequence of instructions at the insertion point. -/
def emitSeq : Gen → List Inst → Gen
  | g, [] => g
  | g, i :: rest => emitSeq (g.emit i) rest

/-- Execute a list of instructions in sequence. -/
def execSeq (o : Oracle) : MState → List Inst → MState
  | s, [] => s
  | s, i :: rest => execSeq o (execInst o s i) rest

/-- Instructions that fall through to the following position. -/
def Inst.straight : Inst → Bool
  | .condbr _ _ _ => false
  | .br _ => false
  | _ => true

theorem emitSeq_insert (L : List Inst) : ∀ g : Gen, (emitSeq g L).insert = g.insert := by
  induction L with
  | nil => intro g; rfl
  | cons i rest ih =>
    intro g
    show (emitSeq (g.emit i) rest).insert = g.insert
    rw [ih (g.emit i), emit_insert]

theorem emitSeq_nextReg (L : List Inst) : ∀ g : Gen, (emitSeq g L).nextReg = g.nextReg := by
  induction L with
  | nil => intro g; rfl
  | cons i rest ih =>
    intro g
    show (emitSeq (g.emit i) rest).nextReg = g.nextReg
    rw [ih (g.emit i), emit_nextReg]

theorem emitSeq_length (L : List Inst) :
    ∀ g : Gen, (emitSeq g L).blocks.length = g.blocks.length := by
  induction L with
  | nil => intro g; rfl
  | cons i rest ih =>
    intro g
    show (emitSeq (g.emit i) rest).blocks.length = g.blocks.length
    rw [ih (g.emit i), emit_length]

theorem emitSeq_ext (L : List Inst) : ∀ g : Gen, Ext g (emitSeq g L) := by
  induction L with
  | nil => intro g; exact ext_refl g
  | cons i rest ih =>
    intro g
    exact ext_trans (ext_emit g i) (ih (g.emit i))

theorem emitSeq_get_other (L : List Inst) :
    ∀ (g : Gen) (m : Nat), m ≠ g.insert → (emitSeq g L).blocks[m]? = g.blocks[m]? := by
  induction L with
  | nil => intro g m hm; rfl
  | cons i rest ih =>
    intro g m hm
    show (emitSeq (g.emit i) rest).blocks[m]? = g.blocks[m]?
    rw [ih (g.emit i) m (by rw [emit_insert]; exact hm), emit_get_other g i m hm]

theorem emitSeq_lenAt_self (L : List Inst) :
    ∀ g : Gen, g.insert < g.blocks.length →
      lenAt (emitSeq g L) g.insert = lenAt g g.insert + L.length := by
  induction L with
  | nil => intro g hwf; rfl
  | cons i rest ih =>
    intro g hwf
    show lenAt (emitSeq (g.emit i) rest) g.insert = lenAt g g.insert + (rest.length + 1)
    have h1 := ih (g.emit i) (by rw [emit_insert, emit_length]; exact hwf)
    rw [emit_insert] at h1
    rw [h1, lenAt_emit_self g i hwf]
    omega

theorem emitSeq_getInst (L : List Inst) :
    ∀ g : Gen, g.insert < g.blocks.length →
      ∀ k inst, L[k]? = some inst →
        getInst (emitSeq g L) g.insert (lenAt g g.insert + k) = some inst := by
  induction L with
  | nil => intro g hwf k inst hk; simp at hk
  | cons i rest ih =>
    intro g hwf k inst hk
    cases k with
    | zero =>
      simp only [List.getElem?_cons_zero, Option.some.injEq] at hk
      subst hk
      have h1 : getInst (g.emit i) g.insert (lenAt g g.insert) = some i :=
        getInst_emit_self g i hwf
      exact getInst_mono (emitSeq_ext rest (g.emit i)) _ _ _ h1
    | succ k2 =>
      simp only [List.getElem?_cons_succ] at hk
      have h1 := ih (g.emit i) (by rw [emit_insert, emit_length]; exact hwf) k2 inst hk
      rw [emit_insert, lenAt_emit_self g i hwf] at h1
      rw [show lenAt g g.insert + (k2 + 1) = lenAt g g.insert + 1 + k2 from by omega]
      exact h1

theorem getInst_blocks_eq {ga gb : Gen} (h : ga.blocks = gb.blocks) (b i : Nat) :
    getInst ga b i = getInst gb b i := by
  unfold getInst
  rw [h]

theorem lenAt_blocks_eq {ga gb : Gen} (h : ga.blocks = gb.blocks) (b : Nat) :
    lenAt ga b = lenAt gb b := by
  unfold lenAt
  rw [h]

theorem ext_blocks_eq {ga gb gc : Gen} (h : Ext ga gb) (he : gb.blocks = gc.blocks) :
    Ext ga gc := by
  unfold Ext at h ⊢
  rw [← he]
  exact h

theorem execInst_straight (o : Oracle) (s : MState) (inst : Inst)
    (h : inst.straight = true) :
    (execInst o s inst).cur = s.cur ∧ (execInst o s inst).idx = s.idx + 1 := by
  cases inst <;> first
    | exact ⟨rfl, rfl⟩
    | simp [Inst.straight] at h

theorem evalV_upd_lt (env : Nat → RVal) (r : Nat) (v : RVal) (val : LVal)
    (h : ∀ m, val = .reg m → m < r) : evalV (upd env r v) val = evalV env val := by
  cases val with
  | reg m =>
    show upd env r v m = env m
    unfold upd
    rw [if_neg (by have := h m rfl; omega)]
  | cbool b => rfl
  | cint z => rfl
  | caddr a => rfl

/-- Executing consecutively placed straight-line instructions reaches
the position after them, with the state given by execSeq. -/
theorem runSeq (gF : Gen) (o : Oracle) (L : List Inst) :
    ∀ s : MState, (∀ inst ∈ L, inst.straight = true) →
    (∀ k inst, L[k]? = some inst → getInst gF s.cur (s.idx + k) = some inst) →
    Steps gF o s (execSeq o s L) ∧ (execSeq o s L).cur = s.cur ∧
    (execSeq o s L).idx = s.idx + L.length := by
  induction L with
  | nil =>
    intro s hstr hget
    exact ⟨steps_self gF o s, rfl, rfl⟩
  | cons i rest ih =>
    intro s hstr hget
    have h0 : getInst gF s.cur s.idx = some i := by
      have := hget 0 i (by simp)
      simpa using this
    have hs1 := step_run gF o s i h0
    have hcur1 : (execInst o s i).cur = s.cur :=
      (execInst_straight o s i (hstr i (List.mem_cons_self i rest))).1
    have hidx1 : (execInst o s i).idx = s.idx + 1 :=
      (execInst_straight o s i (hstr i (List.mem_cons_self i rest))).2
    have hget1 : ∀ k inst, rest[k]? = some inst →
        getInst gF (execInst o s i).cur ((execInst o s i).idx + k) = some inst := by
      intro k inst hk
      rw [hcur1, hidx1]
      have h2 := hget (k + 1) inst (by simpa using hk)
      rw [show s.idx + 1 + k = s.idx + (k + 1) from by omega]
      exact h2
    obtain ⟨ha, hb, hc⟩ := ih (execInst o s i)
      (fun inst hin => hstr inst (List.mem_cons_of_mem i hin)) hget1
    refine ⟨steps_trans gF o _ _ _ hs1 ha, ?_, ?_⟩
    · show (execSeq o (execInst o s i) rest).cur = s.cur
      rw [hb, hcur1]
    · show (execSeq o (execInst o s i) rest).idx = s.idx + (i :: rest).length
      rw [hc, hidx1]
      simp only [List.length_cons]
      omega

theorem upd_same (env : Nat → RVal) (k : Nat) (v : RVal) : upd env k v k = v := by
  unfold upd
  rw [if_pos rfl]

theorem upd_other (env : Nat → RVal) (k : Nat) (v : RVal) (m : Nat) (h : m ≠ k) :
    upd env k v m = env m := by
  unfold upd
  rw [if_neg h]

theorem evalV_congr (env1 env2 : Nat → RVal) (val : LVal)
    (h : ∀ m, val = .reg m → env1 m = env2 m) : evalV env1 val = evalV env2 val := by
  cases val with
  | reg m => exact h m rfl
  | cbool b => rfl
  | cint z => rfl
  | caddr a => rfl

theorem evalV_caddr (env : Nat → RVal) (a : Addr) : evalV env (.caddr a) = .a a := rfl

theorem evalV_reg (env : Nat → RVal) (n : Nat) : evalV env (.reg n) = env n := rfl

theorem evalV_cint (env : Nat → RVal) (z : Int) : evalV env (.cint z) = .i z := rfl

theorem asAddr_a (x : Addr) : (RVal.a x).asAddr = x := rfl

/-! ### Parameter attributes (do_code_gen, codegen.cpp:2142) -/

/-- The parameter-declaration facts do_code_gen consults when setting
attributes: whether the declaration carries the noalias keyword, whether
the resolved parameter type is a pointer, and whether that pointer type
is const. -/
structure ParamDecl where
  is_noalias : Bool
  type_is_pointer : Bool
  pointer_is_const : Bool
deriving DecidableEq

inductive ParamAttr where
  | noalias
  | readonly
deriving DecidableEq

/-- The LLVMAddAttribute calls of the parameter-attribute loop of
do_code_gen (codegen.cpp:2152): an if / else-if chain, so at most one
attribute is added, and both tests require the pointer type. -/
def param_attrs (p : ParamDecl) : List ParamAttr :=
  if p.type_is_pointer && p.is_noalias then [.noalias]
  else if p.type_is_pointer && p.pointer_is_const then [.readonly]
  else []

/-! ### While lowering (gen_while_expr, codegen.cpp:1674) -/

/-- The inputs of gen_while_expr: the condition and body expressions,
the two analysis flags stored on the AST node, and whether the body's
type resolved to unreachable (which suppresses the loop-back branch). -/
structure WhileNode where
  condition : ZExpr
  body : ZExpr
  condition_always_true : Bool
  contains_break : Bool
  body_unreachable : Bool
deriving DecidableEq

/-- gen_while_expr transcribed: the branch is on condition_always_true
alone.  In the forever-loop path a WhileBody block is appended, a
WhileEnd block only if contains_break (the break target pushed is
nullptr = none otherwise), the condition is never lowered, and the
builder ends in WhileEnd only when it exists; in the normal path the
three blocks WhileCond/WhileBody/WhileEnd are appended, the condition is
lowered in WhileCond followed by a conditional branch, and the builder
ends in WhileEnd.  The loop-back branch is omitted when the body's type
is unreachable.  The function returns nullptr, modelled as the constant
0. -/
def gen_while_expr (node : WhileNode) (g : Gen) : LVal × Gen :=
  if node.condition_always_true = true then
    let p1 := g.appendBlock "WhileBody"
    let body_block := p1.1
    let g1 := p1.2
    let ebg : Option Nat × Gen :=
      if node.contains_break = true then
        (some (g1.appendBlock "WhileEnd").1, (g1.appendBlock "WhileEnd").2)
      else (none, g1)
    let end_block := ebg.1
    let g2 := ebg.2
    let g3 := g2.emit (.br body_block)
    let g4 := g3.positionAt body_block
    let g5 := { g4 with breakStack := end_block :: g4.breakStack,
                        contStack := body_block :: g4.contStack }
    let pB := gen_expr node.body g5
    let g6 := pB.2
    let g7 := { g6 with breakStack := g6.breakStack.tail, contStack := g6.contStack.tail }
    let g8 := if node.body_unreachable = true then g7 else g7.emit (.br body_block)
    let g9 := match end_block with
      | some e => g8.positionAt e
      | none => g8
    (.cint 0, g9)
  else
    let p1 := g.appendBlock "WhileCond"
    let cond_block := p1.1
    let g1 := p1.2
    let p2 := g1.appendBlock "WhileBody"
    let body_block := p2.1
    let g2 := p2.2
    let p3 := g2.appendBlock "WhileEnd"
    let end_block := p3.1
    let g3 := p3.2
    let g4 := g3.emit (.br cond_block)
    let g5 := g4.positionAt cond_block
    let pC := gen_expr node.condition g5
    let cond_val := pC.1
    let g6 := pC.2
    let g7 := g6.emit (.condbr cond_val body_block end_block)
    let g8 := g7.positionAt body_block
    let g9 := { g8 with breakStack := some end_block :: g8.breakStack,
                        contStack := cond_block :: g8.contStack }
    let pB := gen_expr node.body g9
    let g10 := pB.2
    let g11 := { g10 with breakStack := g10.breakStack.tail,
                          contStack := g10.contStack.tail }
    let g12 := if node.body_unreachable = true then g11 else g11.emit (.br cond_block)
    (.cint 0, g12.positionAt end_block)

/-! ### Slice lowering (gen_slice_expr, codegen.cpp:594) -/

/-- The base type of a slice or array-access expression: fixed-size
array (TypeTableEntryIdArray, with its constant length), raw pointer
(TypeTableEntryIdPointer), or unknown-size array struct
(TypeTableEntryIdStruct), i.e. a slice. -/
inductive BaseKind where
  | array (len : Nat)
  | pointer
  | uarray
deriving DecidableEq

/-- The inputs of gen_slice_expr: the base expression and its type, the
start and optional end bounds, and the storage of the pre-resolved slice
temporary (resolved_struct_val_expr.ptr). -/
structure SliceNode where
  baseKind : BaseKind
  arrayRef : ZExpr
  start : ZExpr
  endOpt : Option ZExpr
  tmp : Addr
deriving DecidableEq

/-- gen_slice_expr transcribed.  The base pointer is lowered first
(gen_array_base_ptr, which for the modelled node shapes is gen_expr),
then the start bound, then the end bound — an omitted end bound becomes
the array's constant length for an array base, and a struct-GEP + load
of the base's len field for a slice base; a pointer base reads the end
node unconditionally, so an omitted end bound there (which the front
end never produces) is no lowering at all (none).  Each branch then
stores the start pointer into field 0 of the temporary and stores
sub(end, start) into field 1, in source instruction order. -/
def gen_slice_expr (node : SliceNode) (g : Gen) : Option (LVal × Gen) :=
  let pA := gen_expr node.arrayRef g
  let array_ptr := pA.1
  let g1 := pA.2
  match node.baseKind with
  | .array len =>
      let pS := gen_expr node.start g1
      let start_val := pS.1
      let g2 := pS.2
      let pE : LVal × Gen :=
        match node.endOpt with
        | some e => gen_expr e g2
        | none => (LVal.cint (Int.ofNat len), g2)
      let end_val := pE.1
      let g3 := pE.2
      let g5 := (g3.fresh).2.emit (.sgep (g3.fresh).1 (.caddr node.tmp) 0)
      let g7 := (g5.fresh).2.emit (.gep2 (g5.fresh).1 array_ptr (.cint 0) start_val)
      let g8 := g7.emit (.store (.reg (g5.fresh).1) (.reg (g3.fresh).1))
      let g10 := (g8.fresh).2.emit (.sgep (g8.fresh).1 (.caddr node.tmp) 1)
      let g12 := (g10.fresh).2.emit (.sub (g10.fresh).1 end_val start_val)
      let g13 := g12.emit (.store (.reg (g10.fresh).1) (.reg (g8.fresh).1))
      some (.caddr node.tmp, g13)
  | .pointer =>
      match node.endOpt with
      | none => none
      | some e =>
        let pS := gen_expr node.start g1
        let start_val := pS.1
        let g2 := pS.2
        let pE := gen_expr e g2
        let end_val := pE.1
        let g3 := pE.2
        let g5 := (g3.fresh).2.emit (.sgep (g3.fresh).1 (.caddr node.tmp) 0)
        let g7 := (g5.fresh).2.emit (.gep1 (g5.fresh).1 array_ptr start_val)
        let g8 := g7.emit (.store (.reg (g5.fresh).1) (.reg (g3.fresh).1))
        let g10 := (g8.fresh).2.emit (.sgep (g8.fresh).1 (.caddr node.tmp) 1)
        let g12 := (g10.fresh).2.emit (.sub (g10.fresh).1 end_val start_val)
        let g13 := g12.emit (.store (.reg (g10.fresh).1) (.reg (g8.fresh).1))
        some (.caddr node.tmp, g13)
  | .uarray =>
      let pS := gen_expr node.start g1
      let start_val := pS.1
      let g2 := pS.2
      let pE : LVal × Gen :=
        match node.endOpt with
        | some e => gen_expr e g2
        | none =>
          let g2b := (g2.fresh).2.emit (.sgep (g2.fresh).1 array_ptr 1)
          let g2d := (g2b.fresh).2.emit (.load (g2b.fresh).1 (.reg (g2.fresh).1))
          (LVal.reg (g2b.fresh).1, g2d)
      let end_val := pE.1
      let g3 := pE.2
      let g5 := (g3.fresh).2.emit (.sgep (g3.fresh).1 array_ptr 0)
      let g7 := (g5.fresh).2.emit (.load (g5.fresh).1 (.reg (g3.fresh).1))
      let g9 := (g7.fresh).2.emit (.sgep (g7.fresh).1 (.caddr node.tmp) 0)
      let g11 := (g9.fresh).2.emit (.gep1 (g9.fresh).1 (.reg (g5.fresh).1) start_val)
      let g12 := g11.emit (.store (.reg (g9.fresh).1) (.reg (g7.fresh).1))
      let g14 := (g12.fresh).2.emit (.sgep (g12.fresh).1 (.caddr node.tmp) 1)
      let g16 := (g14.fresh).2.emit (.sub (g14.fresh).1 end_val start_val)
      let g17 := g16.emit (.store (.reg (g14.fresh).1) (.reg (g12.fresh).1))
      some (.caddr node.tmp, g17)

/-- The source-level start bound of a slice expression. -/
def sliceStartValue (o : Oracle) (node : SliceNode) : Int := (zeval o node.start).1.asInt

/-- The source-level end bound of a slice expression: the end expression
when present, the array's constant length for an array base without an
end bound, and the len field loaded from the base slice in the initial
memory for a slice base without an end bound. -/
def sliceEndValue (o : Oracle) (mem0 : List (Addr × RVal)) (node : SliceNode) : Int :=
  match node.endOpt with
  | some e => (zeval o e).1.asInt
  | none =>
    match node.baseKind with
    | .array len => Int.ofNat len
    | .pointer => 0
    | .uarray => (memLookup mem0 (.sfield (zeval o node.arrayRef).1.asAddr 1)).asInt

/-! ### Assignment lowering (gen_assign_expr / gen_lvalue, codegen.cpp:742, 1190) -/

/-- A field-access node as gen_field_ptr (codegen.cpp:553) consumes it:
the resolved gen_index of the selected field together with the struct
expression it selects from, which is a symbol (whose storage is loaded
first exactly when the variable is a by-reference variable of pointer
type, codegen.cpp:564), a nested field access over a struct-typed base
(the l-value path of gen_field_access_expr, codegen.cpp:722-728, which
is gen_field_ptr again; field_is_ptr records whether that inner field
has pointer type, in which case the double pointer is dereferenced once,
codegen.cpp:573), or any other expression, lowered with gen_expr. -/
inductive FieldNode where
  | fsymbol (v : Nat) (var_is_ptr : Bool) (idx : Nat)
  | fnested (inner : FieldNode) (field_is_ptr : Bool) (idx : Nat)
  | fexpr (e : ZExpr) (idx : Nat)
deriving DecidableEq

/-- gen_field_ptr (codegen.cpp:553): compute the struct pointer from the
struct expression (with the loads described at FieldNode), then emit the
struct GEP at the field's gen_index. -/
def gen_field_ptr : FieldNode → Gen → LVal × Gen
  | .fsymbol v var_is_ptr idx, g =>
      let ps : LVal × Gen :=
        if var_is_ptr = true then
          (.reg (g.fresh).1, (g.fresh).2.emit (.load (g.fresh).1 (.caddr (.base v))))
        else (.caddr (.base v), g)
      let g1 := ps.2
      (.reg (g1.fresh).1, (g1.fresh).2.emit (.sgep (g1.fresh).1 ps.1 idx))
  | .fnested inner field_is_ptr idx, g =>
      let pin := gen_field_ptr inner g
      let ps : LVal × Gen :=
        if field_is_ptr = true then
          (.reg ((pin.2).fresh).1, ((pin.2).fresh).2.emit (.load ((pin.2).fresh).1 pin.1))
        else pin
      let g1 := ps.2
      (.reg (g1.fresh).1, (g1.fresh).2.emit (.sgep (g1.fresh).1 ps.1 idx))
  | .fexpr e idx, g =>
      let pe := gen_expr e g
      (.reg ((pe.2).fresh).1, ((pe.2).fresh).2.emit (.sgep ((pe.2).fresh).1 pe.1 idx))

/-- The assignment targets gen_lvalue handles: a (non-const) variable,
an array subscript over the three base kinds, a field access, and a
pointer dereference.  (The zero-size-type early return of
gen_array_elem_ptr does not arise for the modelled element types.) -/
inductive LhsNode where
  | symbol (v : Nat)
  | arrayAccess (kind : BaseKind) (arrayRef subscript : ZExpr)
  | fieldAccess (f : FieldNode)
  | deref (e : ZExpr)
deriving DecidableEq

/-- gen_array_elem_ptr (codegen.cpp:503): a two-index in-bounds GEP for
an array base, a one-index GEP for a pointer base, and for an
unknown-size-array base a struct GEP + load of the data pointer followed
by a one-index GEP. -/
def gen_array_elem_ptr (kind : BaseKind) (array_ptr subscript_value : LVal) (g : Gen) :
    LVal × Gen :=
  match kind with
  | .array _ =>
      (.reg (g.fresh).1, (g.fresh).2.emit (.gep2 (g.fresh).1 array_ptr (.cint 0) subscript_value))
  | .pointer =>
      (.reg (g.fresh).1, (g.fresh).2.emit (.gep1 (g.fresh).1 array_ptr subscript_value))
  | .uarray =>
      let g2 := (g.fresh).2.emit (.sgep (g.fresh).1 array_ptr 0)
      let g4 := (g2.fresh).2.emit (.load (g2.fresh).1 (.reg (g.fresh).1))
      (.reg (g4.fresh).1, (g4.fresh).2.emit (.gep1 (g4.fresh).1 (.reg (g2.fresh).1) subscript_value))

/-- gen_array_ptr (codegen.cpp:540): base pointer, then subscript, then
the element pointer. -/
def gen_array_ptr (kind : BaseKind) (arrayRef subscript : ZExpr) (g : Gen) : LVal × Gen :=
  let pA := gen_expr arrayRef g
  let pS := gen_expr subscript pA.2
  gen_array_elem_ptr kind pA.1 pS.1 pS.2

/-- gen_lvalue (codegen.cpp:742): a symbol target is its storage address
with no code; an array-access target lowers through gen_array_ptr; a
field-access target lowers through gen_field_ptr; a dereference target
lowers the pointer expression. -/
def gen_lvalue : LhsNode → Gen → LVal × Gen
  | .symbol v, g => (.caddr (.base v), g)
  | .arrayAccess kind aref sub, g => gen_array_ptr kind aref sub g
  | .fieldAccess f, g => gen_field_ptr f g
  | .deref e, g => gen_expr e g

/-- gen_assign_expr (codegen.cpp:1190) for a plain assignment to a
scalar target: the target l-value is lowered first, then the right-hand
side, then the store (gen_assign_raw with BinOpTypeAssign and a
non-aggregate type).  The function's return value for the store path is
the store instruction, never used as a value; modelled as constant 0. -/
def gen_assign_expr (lhs : LhsNode) (rhs : ZExpr) (g : Gen) : LVal × Gen :=
  let pT := gen_lvalue lhs g
  let pV := gen_expr rhs pT.2
  (.cint 0, pV.2.emit (.store pV.1 pT.1))

/-- The calls the struct expression of a field-access target records:
none for a symbol base, the inner chain's for a nested field access, the
struct expression's for any other base. -/
def fieldTrace (o : Oracle) : FieldNode → List Nat
  | .fsymbol _ _ _ => []
  | .fnested inner _ _ => fieldTrace o inner
  | .fexpr e _ => (zeval o e).2

/-- The calls recorded while lowering-and-running an assignment target:
none for a symbol, the base's then the subscript's for an array access,
the struct expression chain's for a field access, the pointer
expression's for a dereference. -/
def lvalTrace (o : Oracle) : LhsNode → List Nat
  | .symbol _ => []
  | .arrayAccess _ aref sub => (zeval o aref).2 ++ (zeval o sub).2
  | .fieldAccess f => fieldTrace o f
  | .deref e => (zeval o e).2

/-! ### Claim C8 -/

/-- The claim's reading of the parameter-attribute rules: noalias
attached iff declared noalias, readonly attached iff const pointer, each
independently of the other. -/
def c8_claim (p : ParamDecl) : Prop :=
  ((ParamAttr.noalias ∈ param_attrs p) ↔ p.is_noalias = true) ∧
  ((ParamAttr.readonly ∈ param_attrs p) ↔
    (p.type_is_pointer = true ∧ p.pointer_is_const = true))

instance (p : ParamDecl) : Decidable (c8_claim p) := by
  unfold c8_claim
  infer_instance

/-- C8 counterexample: a const pointer parameter that is also declared
noalias receives only the noalias attribute — the else-if chain of
do_code_gen suppresses readonly. -/
theorem c8_claim_counterexample :
    ¬ c8_claim { is_noalias := true, type_is_pointer := true, pointer_is_const := true } := by
  decide

/-- C8: for every function parameter, the noalias attribute is attached
iff the parameter has pointer type and is declared noalias, and the
readonly attribute is attached iff the parameter is a const pointer that
is not declared noalias: the two conditions are an if / else-if chain,
not independent, and both require the pointer type. -/
theorem c8_param_attr_characterization (p : ParamDecl) :
    ((ParamAttr.noalias ∈ param_attrs p) ↔
      (p.type_is_pointer = true ∧ p.is_noalias = true)) ∧
    ((ParamAttr.readonly ∈ param_attrs p) ↔
      (p.type_is_pointer = true ∧ p.pointer_is_const = true ∧ p.is_noalias = false)) := by
  rcases p with ⟨a, b, c⟩
  cases a <;> cases b <;> cases c <;> decide

/-! ### Claim C4 -/

theorem labels_setStacks (g : Gen) (bs : List (Option Nat)) (cs : List Nat) :
    labels { g with breakStack := bs, contStack := cs } = labels g := rfl

/-- labels of the second component, with the generation equation built
in. -/
theorem gen_expr_labels2 (e : ZExpr) (g : Gen) :
    labels (gen_expr e g).2 = labels g ++ extraLabels e :=
  gen_expr_labels e g (gen_expr e g).1 (gen_expr e g).2 rfl

/-- After lowering a loop body in a builder positioned at block bb, the
emitted loop-back branch to bb sits in a block at or after bb in any
extension of the resulting builder. -/
theorem while_loopback (body : ZExpr) (bb : Nat) (g5 t : Gen)
    (hins : g5.insert = bb) (hwf : g5.insert < g5.blocks.length)
    (hext : Ext (({ (gen_expr body g5).2 with
        breakStack := (gen_expr body g5).2.breakStack.tail,
        contStack := (gen_expr body g5).2.contStack.tail } : Gen).emit (.br bb)) t) :
    ∃ bId iIdx, bb ≤ bId ∧ getInst t bId iIdx = some (.br bb) := by
  obtain ⟨hext6, hreg6, hval6, hwf6, hins6, hun6, hbs6, hcs6⟩ :=
    gen_expr_static body g5 (gen_expr body g5).1 (gen_expr body g5).2 rfl hwf
  refine ⟨(gen_expr body g5).2.insert,
    lenAt (gen_expr body g5).2 (gen_expr body g5).2.insert, ?_, ?_⟩
  · rcases hins6 with h | h
    · omega
    · have h2 := hext6.1
      omega
  · have h1 := getInst_emit_self ({ (gen_expr body g5).2 with
        breakStack := (gen_expr body g5).2.breakStack.tail,
        contStack := (gen_expr body g5).2.contStack.tail } : Gen) (.br bb) hwf6
    exact getInst_mono hext _ _ _ h1

/-- The block shape the specification asserts for while lowering: one
body block when the condition is constant true and the body has no
break, the three blocks Cond/Body/End otherwise. -/
def while_claim_labels (node : WhileNode) : List String :=
  if node.condition_always_true = true && node.contains_break = false then ["WhileBody"]
  else ["WhileCond", "WhileBody", "WhileEnd"]

/-- C4 counterexample: a while loop whose condition is constant true and
whose body contains a break takes the forever-loop path — the lowering
appends WhileBody and WhileEnd but no WhileCond block, where the claim
demands the three-block shape. -/
theorem c4_claim_counterexample :
    ¬ labels (gen_while_expr
        { condition := .cbool true, body := .cbool true, condition_always_true := true,
          contains_break := true, body_unreachable := false } initGen).2 =
      labels initGen ++ while_claim_labels
        { condition := .cbool true, body := .cbool true, condition_always_true := true,
          contains_break := true, body_unreachable := false } := by
  decide

/-- C4 (amended): gen_while_expr branches on condition_always_true
alone.  When the condition is constant true it appends WhileBody, plus
WhileEnd exactly when the body contains a break, and never lowers the
condition (the result is independent of the condition expression); when
the body is not of unreachable type an unconditional branch back to the
body block is emitted.  Otherwise it appends the three blocks
WhileCond/WhileBody/WhileEnd and lowers the condition (inside WhileCond,
where the builder is positioned first). -/
theorem c4_while_lowering (node : WhileNode) (g : Gen) :
    (labels (gen_while_expr node g).2 = labels g ++
      (if node.condition_always_true = true then
        ("WhileBody" :: (if node.contains_break = true then ["WhileEnd"] else []))
          ++ extraLabels node.body
       else
        (["WhileCond", "WhileBody", "WhileEnd"] ++ extraLabels node.condition)
          ++ extraLabels node.body)) ∧
    (node.condition_always_true = true →
      ∀ c : ZExpr, gen_while_expr { node with condition := c } g = gen_while_expr node g) ∧
    (node.condition_always_true = true → node.body_unreachable = false →
      ∃ bId iIdx, g.blocks.length ≤ bId ∧
        getInst (gen_while_expr node g).2 bId iIdx = some (.br g.blocks.length)) := by
  refine ⟨?_, ?_, ?_⟩
  · by_cases hat : node.condition_always_true = true
    · rw [gen_while_expr]
      simp only [hat, if_true]
      by_cases hcb : node.contains_break = true
      · simp only [hcb, if_true]
        by_cases hbu : node.body_unreachable = true
        · simp only [hbu, if_true]
          rw [labels_positionAt, labels_setStacks, gen_expr_labels2, labels_setStacks,
            labels_positionAt, labels_emit, labels_appendBlock, labels_appendBlock]
          simp
        · simp only [hbu, Bool.false_eq_true, if_false]
          rw [labels_positionAt, labels_emit, labels_setStacks, gen_expr_labels2,
            labels_setStacks, labels_positionAt, labels_emit, labels_appendBlock,
            labels_appendBlock]
          simp
      · simp only [hcb, Bool.false_eq_true, if_false]
        by_cases hbu : node.body_unreachable = true
        · simp only [hbu, if_true]
          rw [labels_setStacks, gen_expr_labels2, labels_setStacks,
            labels_positionAt, labels_emit, labels_appendBlock]
          simp
        · simp only [hbu, Bool.false_eq_true, if_false]
          rw [labels_emit, labels_setStacks, gen_expr_labels2, labels_setStacks,
            labels_positionAt, labels_emit, labels_appendBlock]
          simp
    · rw [gen_while_expr]
      simp only [hat, Bool.false_eq_true, if_false]
      by_cases hbu : node.body_unreachable = true
      · simp only [hbu, if_true]
        rw [labels_positionAt, labels_setStacks, gen_expr_labels2, labels_setStacks,
          labels_positionAt, labels_emit, gen_expr_labels2, labels_positionAt,
          labels_emit, labels_appendBlock, labels_appendBlock, labels_appendBlock]
        simp
      · simp only [hbu, Bool.false_eq_true, if_false]
        rw [labels_positionAt, labels_emit, labels_setStacks, gen_expr_labels2,
          labels_setStacks, labels_positionAt, labels_emit, gen_expr_labels2,
          labels_positionAt, labels_emit, labels_appendBlock, labels_appendBlock,
          labels_appendBlock]
        simp
  · intro hat c
    simp only [gen_while_expr, hat, if_true]
  · intro hat hbu
    rw [gen_while_expr]
    simp only [hat, if_true, hbu, Bool.false_eq_true, if_false]
    by_cases hcb : node.contains_break = true
    · simp only [hcb, if_true]
      refine while_loopback node.body g.blocks.length _ _ ?_ ?_ (ext_positionAt _ _)
      · rfl
      · show (g.appendBlock "WhileBody").1 <
          (((g.appendBlock "WhileBody").2.appendBlock "WhileEnd").2.emit
            (Inst.br (g.appendBlock "WhileBody").1)).blocks.length
        rw [emit_length, appendBlock_length, appendBlock_length, appendBlock_id]
        omega
    · simp only [hcb, Bool.false_eq_true, if_false]
      refine while_loopback node.body g.blocks.length _ _ ?_ ?_ (ext_refl _)
      · rfl
      · show (g.appendBlock "WhileBody").1 <
          ((g.appendBlock "WhileBody").2.emit
            (Inst.br (g.appendBlock "WhileBody").1)).blocks.length
        rw [emit_length, appendBlock_length, appendBlock_id]
        omega

/-- C4 witness: for a forever loop with a break and a recorded-call
body, the theorem applied at this concrete node yields the two appended
blocks and the loop-back branch. -/
theorem c4_while_lowering_witness :
    labels (gen_while_expr
      { condition := ZExpr.callb 0, body := ZExpr.callb 1, condition_always_true := true,
        contains_break := true, body_unreachable := false }
      initGen).2 = ["entry", "WhileBody", "WhileEnd"] ∧
    (∃ bId iIdx, initGen.blocks.length ≤ bId ∧
      getInst (gen_while_expr
        { condition := ZExpr.callb 0, body := ZExpr.callb 1, condition_always_true := true,
          contains_break := true, body_unreachable := false }
        initGen).2 bId iIdx =
        some (.br initGen.blocks.length)) := by
  obtain ⟨h1, h2, h3⟩ := c4_while_lowering
    { condition := ZExpr.callb 0, body := ZExpr.callb 1, condition_always_true := true,
      contains_break := true, body_unreachable := false } initGen
  refine ⟨?_, h3 rfl rfl⟩
  rw [h1]
  rfl

/-! ### Claim C10 -/

theorem GenStep.comp {g1 g2 g3 : Gen} {v1 v2 : LVal}
    (h1 : GenStep g1 v1 g2) (h2 : GenStep g2 v2 g3) : GenStep g1 v2 g3 := by
  refine ⟨ext_trans h1.ext h2.ext, le_trans h1.reg_le h2.reg_le, h2.val_lt, h2.wf,
    ?_, ?_, ?_, ?_⟩
  · rcases h2.ins with ha | ha
    · rcases h1.ins with hb | hb
      · exact Or.inl (ha.trans hb)
      · right
        rw [ha]
        exact hb
    · right
      have := h1.ext.1
      omega
  · intro bId hlt hne
    have hlt2 : bId < g2.blocks.length := lt_of_lt_of_le hlt h1.ext.1
    have hne2 : bId ≠ g2.insert := by
      rcases h1.ins with hb | hb
      · rw [hb]
        exact hne
      · omega
    rw [h2.untouched bId hlt2 hne2, h1.untouched bId hlt hne]
  · exact h2.breaks.trans h1.breaks
  · exact h2.conts.trans h1.conts

/-- A fresh register plus one emitted instruction is a builder step. -/
theorem GenStep_emit1 (g : Gen) (inst : Inst) (hwf : g.insert < g.blocks.length) :
    GenStep g (.reg (g.fresh).1) ((g.fresh).2.emit inst) := by
  refine ⟨ext_trans (ext_fresh g) (ext_emit _ _), ?_, ?_, ?_, ?_, ?_, rfl, rfl⟩
  · rw [emit_nextReg, fresh_nextReg]
    omega
  · intro r hr
    injection hr with hr
    subst hr
    rw [emit_nextReg, fresh_nextReg, fresh_reg]
    omega
  · rw [emit_insert, fresh_insert, emit_length]
    show g.insert < (g.fresh).2.blocks.length
    rw [fresh_blocks]
    exact hwf
  · left
    rw [emit_insert, fresh_insert]
  · intro bId hlt hne
    rw [emit_get_other _ _ bId (by rw [fresh_insert]; exact hne)]
    rfl

/-- Builder facts for gen_field_ptr: it extends the builder like a
single expression lowering and returns the GEP's register. -/
theorem gen_field_ptr_static (f : FieldNode) :
    ∀ g : Gen, g.insert < g.blocks.length →
      GenStep g (gen_field_ptr f g).1 (gen_field_ptr f g).2 := by
  induction f with
  | fsymbol v vip idx =>
    intro g hwf
    by_cases h : vip = true
    · simp only [gen_field_ptr]
      rw [if_pos h]
      exact (GenStep_emit1 _ _ hwf).comp (GenStep_emit1 _ _ (GenStep_emit1 _ _ hwf).wf)
    · simp only [gen_field_ptr]
      rw [if_neg h]
      exact GenStep_emit1 _ _ hwf
  | fnested inner fip idx ih =>
    intro g hwf
    by_cases h : fip = true
    · simp only [gen_field_ptr]
      rw [if_pos h]
      exact (ih g hwf).comp ((GenStep_emit1 _ _ (ih g hwf).wf).comp
        (GenStep_emit1 _ _ (GenStep_emit1 _ _ (ih g hwf).wf).wf))
    · simp only [gen_field_ptr]
      rw [if_neg h]
      exact (ih g hwf).comp (GenStep_emit1 _ _ (ih g hwf).wf)
  | fexpr e idx =>
    intro g hwf
    simp only [gen_field_ptr]
    exact (gen_expr_static e g (gen_expr e g).1 (gen_expr e g).2 rfl hwf).comp
      (GenStep_emit1 _ _ (gen_expr_static e g (gen_expr e g).1 (gen_expr e g).2 rfl hwf).wf)

/-- Executing a single fresh-register instruction emitted at the current
position: one step to the position after it. -/
theorem emit1_sim (g : Gen) (o : Oracle) (inst : Inst) (hst : inst.straight = true)
    (hwf : g.insert < g.blocks.length) (gF : Gen)
    (hext : Ext ((g.fresh).2.emit inst) gF)
    (s : MState) (hcur : s.cur = g.insert) (hidx : s.idx = lenAt g g.insert) :
    Steps gF o s (execInst o s inst) ∧
    (execInst o s inst).cur = ((g.fresh).2.emit inst).insert ∧
    (execInst o s inst).idx =
      lenAt ((g.fresh).2.emit inst) ((g.fresh).2.emit inst).insert := by
  have hgi : getInst gF g.insert (lenAt g g.insert) = some inst := by
    refine getInst_mono hext _ _ _ ?_
    have h1 := getInst_emit_self (g.fresh).2 inst
      (by rw [fresh_insert, fresh_blocks]; exact hwf)
    rw [fresh_insert, lenAt_fresh] at h1
    exact h1
  refine ⟨step_run gF o s inst (by rw [hcur, hidx]; exact hgi), ?_, ?_⟩
  · rw [(execInst_straight o s inst hst).1, emit_insert, fresh_insert, hcur]
  · rw [(execInst_straight o s inst hst).2, emit_insert, fresh_insert]
    have h2 := lenAt_emit_self (g.fresh).2 inst
      (by rw [fresh_insert, fresh_blocks]; exact hwf)
    rw [fresh_insert, lenAt_fresh] at h2
    rw [h2, hidx]

/-- Dynamic simulation of gen_field_ptr: it runs to the position after
its code, records exactly the struct expression's calls, and touches
neither memory nor the registers that existed before. -/
theorem gen_field_ptr_sim (f : FieldNode) :
    ∀ (g : Gen) (o : Oracle), g.insert < g.blocks.length →
    ∀ gF, Ext (gen_field_ptr f g).2 gF →
    ∀ s : MState, s.cur = g.insert → s.idx = lenAt g g.insert →
    ∃ s2 : MState, Steps gF o s s2 ∧
      s2.cur = (gen_field_ptr f g).2.insert ∧
      s2.idx = lenAt (gen_field_ptr f g).2 (gen_field_ptr f g).2.insert ∧
      s2.mem = s.mem ∧ s2.trace = s.trace ++ fieldTrace o f ∧
      (∀ r, r < g.nextReg → s2.env r = s.env r) := by
  induction f with
  | fsymbol v vip idx =>
    intro g o hwf gF hext s hcur hidx
    by_cases h : vip = true
    · have hextF : Ext ((((g.fresh).2.emit
          (.load (g.fresh).1 (.caddr (.base v)))).fresh).2.emit
          (.sgep (((g.fresh).2.emit (.load (g.fresh).1 (.caddr (.base v)))).fresh).1
            (.reg (g.fresh).1) idx)) gF := by
        have h2 := hext
        simp only [gen_field_ptr] at h2
        rw [if_pos h] at h2
        exact h2
      have hextB1 : Ext ((g.fresh).2.emit (.load (g.fresh).1 (.caddr (.base v)))) gF :=
        ext_trans (ext_trans (ext_fresh _) (ext_emit _ _)) hextF
      obtain ⟨d1, d2, d3⟩ := emit1_sim g o (.load (g.fresh).1 (.caddr (.base v))) rfl hwf
        gF hextB1 s hcur hidx
      obtain ⟨e1, e2, e3⟩ := emit1_sim ((g.fresh).2.emit
          (.load (g.fresh).1 (.caddr (.base v)))) o
        (.sgep (((g.fresh).2.emit (.load (g.fresh).1 (.caddr (.base v)))).fresh).1
          (.reg (g.fresh).1) idx) rfl (GenStep_emit1 g _ hwf).wf gF hextF _ d2 d3
      refine ⟨_, steps_trans gF o _ _ _ d1 e1, ?_, ?_, rfl, ?_, ?_⟩
      · show _ = (gen_field_ptr (.fsymbol v vip idx) g).2.insert
        simp only [gen_field_ptr]
        rw [if_pos h]
        exact e2
      · show _ = lenAt (gen_field_ptr (.fsymbol v vip idx) g).2
          (gen_field_ptr (.fsymbol v vip idx) g).2.insert
        simp only [gen_field_ptr]
        rw [if_pos h]
        exact e3
      · simp [fieldTrace, execInst]
      · intro r hr
        show upd (upd s.env (g.fresh).1 _)
          (((g.fresh).2.emit (.load (g.fresh).1 (.caddr (.base v)))).fresh).1 _ r = s.env r
        rw [upd_other _ _ _ r (by
          rw [show (((g.fresh).2.emit (.load (g.fresh).1 (.caddr (.base v)))).fresh).1 =
            g.nextReg + 1 from rfl]
          omega)]
        rw [upd_other _ _ _ r (by rw [fresh_reg]; omega)]
    · have hextF : Ext ((g.fresh).2.emit (.sgep (g.fresh).1 (.caddr (.base v)) idx)) gF := by
        have h2 := hext
        simp only [gen_field_ptr] at h2
        rw [if_neg h] at h2
        exact h2
      obtain ⟨d1, d2, d3⟩ := emit1_sim g o (.sgep (g.fresh).1 (.caddr (.base v)) idx) rfl
        hwf gF hextF s hcur hidx
      refine ⟨_, d1, ?_, ?_, rfl, ?_, ?_⟩
      · show _ = (gen_field_ptr (.fsymbol v vip idx) g).2.insert
        simp only [gen_field_ptr]
        rw [if_neg h]
        exact d2
      · show _ = lenAt (gen_field_ptr (.fsymbol v vip idx) g).2
          (gen_field_ptr (.fsymbol v vip idx) g).2.insert
        simp only [gen_field_ptr]
        rw [if_neg h]
        exact d3
      · simp [fieldTrace, execInst]
      · intro r hr
        show upd s.env (g.fresh).1 _ r = s.env r
        rw [upd_other _ _ _ r (by rw [fresh_reg]; omega)]
  | fnested inner fip idx ih =>
    intro g o hwf gF hext s hcur hidx
    have stI := gen_field_ptr_static inner g hwf
    by_cases h : fip = true
    · have hextF : Ext (((((gen_field_ptr inner g).2.fresh).2.emit
          (.load ((gen_field_ptr inner g).2.fresh).1 (gen_field_ptr inner g).1)).fresh).2.emit
          (.sgep ((((gen_field_ptr inner g).2.fresh).2.emit
            (.load ((gen_field_ptr inner g).2.fresh).1 (gen_field_ptr inner g).1)).fresh).1
            (.reg ((gen_field_ptr inner g).2.fresh).1) idx)) gF := by
        have h2 := hext
        simp only [gen_field_ptr] at h2
        rw [if_pos h] at h2
        exact h2
      have hextB1 : Ext (((gen_field_ptr inner g).2.fresh).2.emit
          (.load ((gen_field_ptr inner g).2.fresh).1 (gen_field_ptr inner g).1)) gF :=
        ext_trans (ext_trans (ext_fresh _) (ext_emit _ _)) hextF
      have hextP : Ext (gen_field_ptr inner g).2 gF :=
        ext_trans (ext_trans (ext_fresh _) (ext_emit _ _)) hextB1
      obtain ⟨s1, a1, a2, a3, a4, a5, a6⟩ := ih g o hwf gF hextP s hcur hidx
      obtain ⟨d1, d2, d3⟩ := emit1_sim (gen_field_ptr inner g).2 o
        (.load ((gen_field_ptr inner g).2.fresh).1 (gen_field_ptr inner g).1) rfl
        stI.wf gF hextB1 s1 a2 a3
      obtain ⟨e1, e2, e3⟩ := emit1_sim (((gen_field_ptr inner g).2.fresh).2.emit
          (.load ((gen_field_ptr inner g).2.fresh).1 (gen_field_ptr inner g).1)) o
        (.sgep ((((gen_field_ptr inner g).2.fresh).2.emit
          (.load ((gen_field_ptr inner g).2.fresh).1 (gen_field_ptr inner g).1)).fresh).1
          (.reg ((gen_field_ptr inner g).2.fresh).1) idx) rfl
        (GenStep_emit1 (gen_field_ptr inner g).2 _ stI.wf).wf gF hextF _ d2 d3
      refine ⟨_, steps_trans gF o _ _ _ a1 (steps_trans gF o _ _ _ d1 e1), ?_, ?_, ?_,
        ?_, ?_⟩
      · show _ = (gen_field_ptr (.fnested inner fip idx) g).2.insert
        simp only [gen_field_ptr]
        rw [if_pos h]
        exact e2
      · show _ = lenAt (gen_field_ptr (.fnested inner fip idx) g).2
          (gen_field_ptr (.fnested inner fip idx) g).2.insert
        simp only [gen_field_ptr]
        rw [if_pos h]
        exact e3
      · show s1.mem = s.mem
        exact a4
      · show s1.trace = s.trace ++ fieldTrace o (.fnested inner fip idx)
        rw [a5]
        rfl
      · intro r hr
        show upd (upd s1.env ((gen_field_ptr inner g).2.fresh).1 _)
          ((((gen_field_ptr inner g).2.fresh).2.emit
            (.load ((gen_field_ptr inner g).2.fresh).1 (gen_field_ptr inner g).1)).fresh).1
          _ r = s.env r
        have hle := stI.reg_le
        rw [upd_other _ _ _ r (by
          rw [show ((((gen_field_ptr inner g).2.fresh).2.emit
            (.load ((gen_field_ptr inner g).2.fresh).1 (gen_field_ptr inner g).1)).fresh).1 =
            (gen_field_ptr inner g).2.nextReg + 1 from rfl]
          omega)]
        rw [upd_other _ _ _ r (by rw [fresh_reg]; omega)]
        exact a6 r hr
    · have hextF : Ext (((gen_field_ptr inner g).2.fresh).2.emit
          (.sgep ((gen_field_ptr inner g).2.fresh).1 (gen_field_ptr inner g).1 idx)) gF := by
        have h2 := hext
        simp only [gen_field_ptr] at h2
        rw [if_neg h] at h2
        exact h2
      have hextP : Ext (gen_field_ptr inner g).2 gF :=
        ext_trans (ext_trans (ext_fresh _) (ext_emit _ _)) hextF
      obtain ⟨s1, a1, a2, a3, a4, a5, a6⟩ := ih g o hwf gF hextP s hcur hidx
      obtain ⟨d1, d2, d3⟩ := emit1_sim (gen_field_ptr inner g).2 o
        (.sgep ((gen_field_ptr inner g).2.fresh).1 (gen_field_ptr inner g).1 idx) rfl
        stI.wf gF hextF s1 a2 a3
      refine ⟨_, steps_trans gF o _ _ _ a1 d1, ?_, ?_, ?_, ?_, ?_⟩
      · show _ = (gen_field_ptr (.fnested inner fip idx) g).2.insert
        simp only [gen_field_ptr]
        rw [if_neg h]
        exact d2
      · show _ = lenAt (gen_field_ptr (.fnested inner fip idx) g).2
          (gen_field_ptr (.fnested inner fip idx) g).2.insert
        simp only [gen_field_ptr]
        rw [if_neg h]
        exact d3
      · show s1.mem = s.mem
        exact a4
      · show s1.trace = s.trace ++ fieldTrace o (.fnested inner fip idx)
        rw [a5]
        rfl
      · intro r hr
        show upd s1.env ((gen_field_ptr inner g).2.fresh).1 _ r = s.env r
        have hle := stI.reg_le
        rw [upd_other _ _ _ r (by rw [fresh_reg]; omega)]
        exact a6 r hr
  | fexpr e idx =>
    intro g o hwf gF hext s hcur hidx
    have stE := gen_expr_static e g (gen_expr e g).1 (gen_expr e g).2 rfl hwf
    have hextF : Ext (((gen_expr e g).2.fresh).2.emit
        (.sgep ((gen_expr e g).2.fresh).1 (gen_expr e g).1 idx)) gF := hext
    have hextP : Ext (gen_expr e g).2 gF :=
      ext_trans (ext_trans (ext_fresh _) (ext_emit _ _)) hextF
    obtain ⟨s1, a1, a2, a3, a4, a5, a6, a7⟩ := gen_expr_sim e g o (gen_expr e g).1
      (gen_expr e g).2 rfl hwf gF hextP s hcur hidx
    obtain ⟨d1, d2, d3⟩ := emit1_sim (gen_expr e g).2 o
      (.sgep ((gen_expr e g).2.fresh).1 (gen_expr e g).1 idx) rfl stE.wf gF hextF s1 a2 a3
    refine ⟨_, steps_trans gF o _ _ _ a1 d1, d2, d3, ?_, ?_, ?_⟩
    · show s1.mem = s.mem
      exact a4
    · show s1.trace = s.trace ++ fieldTrace o (.fexpr e idx)
      rw [a5]
      rfl
    · intro r hr
      show upd s1.env ((gen_expr e g).2.fresh).1 _ r = s.env r
      have hle := stE.reg_le
      rw [upd_other _ _ _ r (by rw [fresh_reg]; omega)]
      exact a6 r hr

/-- Static facts about gen_lvalue: it extends the builder like a single
expression lowering. -/
theorem gen_lvalue_static (lhs : LhsNode) (g : Gen) (hwf : g.insert < g.blocks.length) :
    GenStep g (gen_lvalue lhs g).1 (gen_lvalue lhs g).2 := by
  cases lhs with
  | symbol v =>
    exact ⟨ext_refl g, Nat.le_refl _, fun r hr => by simp [gen_lvalue] at hr, hwf,
      Or.inl rfl, fun bId h1 h2 => rfl, rfl, rfl⟩
  | deref e =>
    exact gen_expr_static e g (gen_expr e g).1 (gen_expr e g).2 rfl hwf
  | fieldAccess f =>
    exact gen_field_ptr_static f g hwf
  | arrayAccess kind aref sub =>
    have st1 := gen_expr_static aref g (gen_expr aref g).1 (gen_expr aref g).2 rfl hwf
    have st2 := gen_expr_static sub (gen_expr aref g).2 (gen_expr sub (gen_expr aref g).2).1
      (gen_expr sub (gen_expr aref g).2).2 rfl st1.wf
    cases kind with
    | array len =>
      exact (st1.comp st2).comp (GenStep_emit1 _ _ st2.wf)
    | pointer =>
      exact (st1.comp st2).comp (GenStep_emit1 _ _ st2.wf)
    | uarray =>
      exact (st1.comp st2).comp (((GenStep_emit1 _ _ st2.wf).comp
        (GenStep_emit1 _ _ (GenStep_emit1 _ _ st2.wf).wf)).comp
        (GenStep_emit1 _ _ ((GenStep_emit1 _ _ st2.wf).comp
          (GenStep_emit1 _ _ (GenStep_emit1 _ _ st2.wf).wf)).wf))

/-- Dynamic simulation of gen_lvalue: executing its code from the
position where it started reaches the position after it, appending
exactly the l-value's call trace, touching neither memory nor the
registers that existed before. -/
theorem gen_lvalue_sim (lhs : LhsNode) (g : Gen) (o : Oracle)
    (hwf : g.insert < g.blocks.length) (gF : Gen) (hext : Ext (gen_lvalue lhs g).2 gF)
    (s : MState) (hcur : s.cur = g.insert) (hidx : s.idx = lenAt g g.insert) :
    ∃ s2 : MState, Steps gF o s s2 ∧
      s2.cur = (gen_lvalue lhs g).2.insert ∧
      s2.idx = lenAt (gen_lvalue lhs g).2 (gen_lvalue lhs g).2.insert ∧
      s2.mem = s.mem ∧ s2.trace = s.trace ++ lvalTrace o lhs ∧
      (∀ r, r < g.nextReg → s2.env r = s.env r) := by
  cases lhs with
  | symbol v =>
    exact ⟨s, steps_self gF o s, hcur, hidx, rfl, by simp [lvalTrace], fun r hr => rfl⟩
  | deref e =>
    obtain ⟨s2, h1, h2, h3, h4, h5, h6, h7⟩ := gen_expr_sim e g o (gen_expr e g).1
      (gen_expr e g).2 rfl hwf gF hext s hcur hidx
    exact ⟨s2, h1, h2, h3, h4, h5, h6⟩
  | fieldAccess f =>
    obtain ⟨s2, h1, h2, h3, h4, h5, h6⟩ := gen_field_ptr_sim f g o hwf gF hext s hcur hidx
    exact ⟨s2, h1, h2, h3, h4, h5, h6⟩
  | arrayAccess kind aref sub =>
    have st1 := gen_expr_static aref g (gen_expr aref g).1 (gen_expr aref g).2 rfl hwf
    have st2 := gen_expr_static sub (gen_expr aref g).2 (gen_expr sub (gen_expr aref g).2).1
      (gen_expr sub (gen_expr aref g).2).2 rfl st1.wf
    set aval := (gen_expr aref g).1 with hav
    set sval := (gen_expr sub (gen_expr aref g).2).1 with hsv
    set B0 := (gen_expr sub (gen_expr aref g).2).2 with hB0
    have wf0 : B0.insert < B0.blocks.length := st2.wf
    cases kind with
    | array len =>
      have hextF : Ext ((B0.fresh).2.emit (.gep2 (B0.fresh).1 aval (.cint 0) sval)) gF := hext
      have hextB0 : Ext B0 gF :=
        ext_trans (ext_trans (ext_fresh B0) (ext_emit _ _)) hextF
      have hext1 : Ext (gen_expr aref g).2 gF := ext_trans st2.ext hextB0
      obtain ⟨s1, a1, a2, a3, a4, a5, a6, a7⟩ := gen_expr_sim aref g o
        (gen_expr aref g).1 (gen_expr aref g).2 rfl hwf gF hext1 s hcur hidx
      obtain ⟨sE, b1, b2, b3, b4, b5, b6, b7⟩ := gen_expr_sim sub (gen_expr aref g).2 o
        (gen_expr sub (gen_expr aref g).2).1 (gen_expr sub (gen_expr aref g).2).2 rfl
        st1.wf gF hextB0 s1 a2 a3
      have hgi : getInst gF B0.insert (lenAt B0 B0.insert) =
          some (.gep2 (B0.fresh).1 aval (.cint 0) sval) := by
        refine getInst_mono hextF _ _ _ ?_
        have h1 := getInst_emit_self (B0.fresh).2 (.gep2 (B0.fresh).1 aval (.cint 0) sval)
          (by rw [fresh_insert, fresh_blocks]; exact wf0)
        rw [fresh_insert, lenAt_fresh] at h1
        exact h1
      have hstep := step_run gF o sE (.gep2 (B0.fresh).1 aval (.cint 0) sval)
        (by rw [b2, b3]; exact hgi)
      refine ⟨_, steps_trans gF o _ _ _ a1 (steps_trans gF o _ _ _ b1 hstep), ?_, ?_, ?_,
        ?_, ?_⟩
      · show sE.cur = ((B0.fresh).2.emit (.gep2 (B0.fresh).1 aval (.cint 0) sval)).insert
        rw [emit_insert, fresh_insert]
        exact b2
      · show sE.idx + 1 = lenAt ((B0.fresh).2.emit (.gep2 (B0.fresh).1 aval (.cint 0) sval))
          ((B0.fresh).2.emit (.gep2 (B0.fresh).1 aval (.cint 0) sval)).insert
        rw [emit_insert, fresh_insert]
        have h2 := lenAt_emit_self (B0.fresh).2 (.gep2 (B0.fresh).1 aval (.cint 0) sval)
          (by rw [fresh_insert, fresh_blocks]; exact wf0)
        rw [fresh_insert, lenAt_fresh] at h2
        rw [h2, b3]
      · show sE.mem = s.mem
        rw [b4, a4]
      · show sE.trace = s.trace ++ lvalTrace o (.arrayAccess (.array len) aref sub)
        rw [b5, a5]
        simp [lvalTrace]
      · intro r hr
        show upd sE.env (B0.fresh).1 _ r = s.env r
        unfold upd
        rw [if_neg (by
          rw [fresh_reg]
          have h3 := st1.reg_le
          have h4 := st2.reg_le
          omega)]
        rw [b6 r (lt_of_lt_of_le hr st1.reg_le), a6 r hr]
    | pointer =>
      have hextF : Ext ((B0.fresh).2.emit (.gep1 (B0.fresh).1 aval sval)) gF := hext
      have hextB0 : Ext B0 gF :=
        ext_trans (ext_trans (ext_fresh B0) (ext_emit _ _)) hextF
      have hext1 : Ext (gen_expr aref g).2 gF := ext_trans st2.ext hextB0
      obtain ⟨s1, a1, a2, a3, a4, a5, a6, a7⟩ := gen_expr_sim aref g o
        (gen_expr aref g).1 (gen_expr aref g).2 rfl hwf gF hext1 s hcur hidx
      obtain ⟨sE, b1, b2, b3, b4, b5, b6, b7⟩ := gen_expr_sim sub (gen_expr aref g).2 o
        (gen_expr sub (gen_expr aref g).2).1 (gen_expr sub (gen_expr aref g).2).2 rfl
        st1.wf gF hextB0 s1 a2 a3
      have hgi : getInst gF B0.insert (lenAt B0 B0.insert) =
          some (.gep1 (B0.fresh).1 aval sval) := by
        refine getInst_mono hextF _ _ _ ?_
        have h1 := getInst_emit_self (B0.fresh).2 (.gep1 (B0.fresh).1 aval sval)
          (by rw [fresh_insert, fresh_blocks]; exact wf0)
        rw [fresh_insert, lenAt_fresh] at h1
        exact h1
      have hstep := step_run gF o sE (.gep1 (B0.fresh).1 aval sval)
        (by rw [b2, b3]; exact hgi)
      refine ⟨_, steps_trans gF o _ _ _ a1 (steps_trans gF o _ _ _ b1 hstep), ?_, ?_, ?_,
        ?_, ?_⟩
      · show sE.cur = ((B0.fresh).2.emit (.gep1 (B0.fresh).1 aval sval)).insert
        rw [emit_insert, fresh_insert]
        exact b2
      · show sE.idx + 1 = lenAt ((B0.fresh).2.emit (.gep1 (B0.fresh).1 aval sval))
          ((B0.fresh).2.emit (.gep1 (B0.fresh).1 aval sval)).insert
        rw [emit_insert, fresh_insert]
        have h2 := lenAt_emit_self (B0.fresh).2 (.gep1 (B0.fresh).1 aval sval)
          (by rw [fresh_insert, fresh_blocks]; exact wf0)
        rw [fresh_insert, lenAt_fresh] at h2
        rw [h2, b3]
      · show sE.mem = s.mem
        rw [b4, a4]
      · show sE.trace = s.trace ++ lvalTrace o (.arrayAccess .pointer aref sub)
        rw [b5, a5]
        simp [lvalTrace]
      · intro r hr
        show upd sE.env (B0.fresh).1 _ r = s.env r
        unfold upd
        rw [if_neg (by
          rw [fresh_reg]
          have h3 := st1.reg_le
          have h4 := st2.reg_le
          omega)]
        rw [b6 r (lt_of_lt_of_le hr st1.reg_le), a6 r hr]
    | uarray =>
      set B1 := (B0.fresh).2.emit (Inst.sgep (B0.fresh).1 aval 0) with hB1
      set B2 := (B1.fresh).2.emit (Inst.load (B1.fresh).1 (.reg (B0.fresh).1)) with hB2
      have hextF : Ext ((B2.fresh).2.emit (.gep1 (B2.fresh).1 (.reg (B1.fresh).1) sval))
          gF := hext
      have hextB2 : Ext B2 gF :=
        ext_trans (ext_trans (ext_fresh B2) (ext_emit _ _)) hextF
      have hextB1 : Ext B1 gF :=
        ext_trans (ext_trans (ext_fresh B1) (ext_emit _ _)) hextB2
      have hextB0 : Ext B0 gF :=
        ext_trans (ext_trans (ext_fresh B0) (ext_emit _ _)) hextB1
      have hext1 : Ext (gen_expr aref g).2 gF := ext_trans st2.ext hextB0
      obtain ⟨s1, a1, a2, a3, a4, a5, a6, a7⟩ := gen_expr_sim aref g o
        (gen_expr aref g).1 (gen_expr aref g).2 rfl hwf gF hext1 s hcur hidx
      obtain ⟨sE, b1, b2, b3, b4, b5, b6, b7⟩ := gen_expr_sim sub (gen_expr aref g).2 o
        (gen_expr sub (gen_expr aref g).2).1 (gen_expr sub (gen_expr aref g).2).2 rfl
        st1.wf gF hextB0 s1 a2 a3
      have wf1 : B1.insert < B1.blocks.length := by
        rw [hB1, emit_insert, fresh_insert, emit_length]
        show B0.insert < (B0.fresh).2.blocks.length
        rw [fresh_blocks]
        exact wf0
      have wf2 : B2.insert < B2.blocks.length := by
        rw [hB2, emit_insert, fresh_insert, emit_length]
        show B1.insert < (B1.fresh).2.blocks.length
        rw [fresh_blocks]
        exact wf1
      have hl1 : lenAt B1 B0.insert = lenAt B0 B0.insert + 1 := by
        have h2 := lenAt_emit_self (B0.fresh).2 (Inst.sgep (B0.fresh).1 aval 0)
          (by rw [fresh_insert, fresh_blocks]; exact wf0)
        rw [fresh_insert, lenAt_fresh] at h2
        exact h2
      have hins1 : B1.insert = B0.insert := by
        rw [hB1, emit_insert, fresh_insert]
      have hins2 : B2.insert = B0.insert := by
        rw [hB2, emit_insert, fresh_insert, hins1]
      have hl2 : lenAt B2 B0.insert = lenAt B0 B0.insert + 2 := by
        have h2 := lenAt_emit_self (B1.fresh).2 (Inst.load (B1.fresh).1 (.reg (B0.fresh).1))
          (by rw [fresh_insert, fresh_blocks]; exact wf1)
        rw [fresh_insert, lenAt_fresh, hins1] at h2
        rw [h2, hl1]
      have hgi1 : getInst gF B0.insert (lenAt B0 B0.insert) =
          some (Inst.sgep (B0.fresh).1 aval 0) := by
        refine getInst_mono hextB1 _ _ _ ?_
        have h1 := getInst_emit_self (B0.fresh).2 (Inst.sgep (B0.fresh).1 aval 0)
          (by rw [fresh_insert, fresh_blocks]; exact wf0)
        rw [fresh_insert, lenAt_fresh] at h1
        exact h1
      have hgi2 : getInst gF B0.insert (lenAt B0 B0.insert + 1) =
          some (Inst.load (B1.fresh).1 (.reg (B0.fresh).1)) := by
        refine getInst_mono hextB2 _ _ _ ?_
        have h1 := getInst_emit_self (B1.fresh).2 (Inst.load (B1.fresh).1 (.reg (B0.fresh).1))
          (by rw [fresh_insert, fresh_blocks]; exact wf1)
        rw [fresh_insert, lenAt_fresh, hins1, hl1] at h1
        exact h1
      have hgi3 : getInst gF B0.insert (lenAt B0 B0.insert + 2) =
          some (Inst.gep1 (B2.fresh).1 (.reg (B1.fresh).1) sval) := by
        refine getInst_mono hextF _ _ _ ?_
        have h1 := getInst_emit_self (B2.fresh).2
          (Inst.gep1 (B2.fresh).1 (.reg (B1.fresh).1) sval)
          (by rw [fresh_insert, fresh_blocks]; exact wf2)
        rw [fresh_insert, lenAt_fresh, hins2, hl2] at h1
        exact h1
      have hstep1 := step_run gF o sE (Inst.sgep (B0.fresh).1 aval 0)
        (by rw [b2, b3]; exact hgi1)
      have hstep2 := step_run gF o (execInst o sE (Inst.sgep (B0.fresh).1 aval 0))
        (Inst.load (B1.fresh).1 (.reg (B0.fresh).1))
        (by
          show getInst gF sE.cur (sE.idx + 1) = _
          rw [b2, b3]
          exact hgi2)
      have hstep3 := step_run gF o (execInst o (execInst o sE (Inst.sgep (B0.fresh).1 aval 0))
          (Inst.load (B1.fresh).1 (.reg (B0.fresh).1)))
        (Inst.gep1 (B2.fresh).1 (.reg (B1.fresh).1) sval)
        (by
          show getInst gF sE.cur (sE.idx + 1 + 1) = _
          rw [b2, b3, show lenAt B0 B0.insert + 1 + 1 = lenAt B0 B0.insert + 2 from rfl]
          exact hgi3)
      refine ⟨_, steps_trans gF o _ _ _ a1 (steps_trans gF o _ _ _ b1
        (steps_trans gF o _ _ _ hstep1 (steps_trans gF o _ _ _ hstep2 hstep3))), ?_, ?_,
        ?_, ?_, ?_⟩
      · show sE.cur = ((B2.fresh).2.emit
          (.gep1 (B2.fresh).1 (.reg (B1.fresh).1) sval)).insert
        rw [emit_insert, fresh_insert, hins2]
        exact b2
      · show sE.idx + 1 + 1 + 1 = lenAt ((B2.fresh).2.emit
            (.gep1 (B2.fresh).1 (.reg (B1.fresh).1) sval))
          ((B2.fresh).2.emit (.gep1 (B2.fresh).1 (.reg (B1.fresh).1) sval)).insert
        rw [emit_insert, fresh_insert, hins2]
        have h2 := lenAt_emit_self (B2.fresh).2
          (.gep1 (B2.fresh).1 (.reg (B1.fresh).1) sval)
          (by rw [fresh_insert, fresh_blocks]; exact wf2)
        rw [fresh_insert, lenAt_fresh, hins2, hl2] at h2
        rw [h2, b3]
      · show sE.mem = s.mem
        rw [b4, a4]
      · show sE.trace = s.trace ++ lvalTrace o (.arrayAccess .uarray aref sub)
        rw [b5, a5]
        simp [lvalTrace]
      · intro r hr
        show upd (upd (upd sE.env (B0.fresh).1 _) (B1.fresh).1 _) (B2.fresh).1 _ r = s.env r
        have h3 := st1.reg_le
        have h4 := st2.reg_le
        have k1 : (B0.fresh).1 = B0.nextReg := fresh_reg B0
        have k2 : (B1.fresh).1 = B0.nextReg + 1 := by
          rw [fresh_reg, hB1, emit_nextReg, fresh_nextReg]
        have k3 : (B2.fresh).1 = B0.nextReg + 2 := by
          rw [fresh_reg, hB2, emit_nextReg, fresh_nextReg, hB1, emit_nextReg, fresh_nextReg]
        unfold upd
        rw [if_neg (by omega), if_neg (by omega), if_neg (by omega)]
        rw [b6 r (lt_of_lt_of_le hr st1.reg_le), a6 r hr]

/-- C10: for every assignment expression, the target l-value (address
computation, including any array-subscript and field-access
sub-expressions) is lowered before the right-hand side, so in a complete
run of the emitted code the recorded side effects of the left-hand side
all occur before those of the right-hand side: the trace is exactly the
l-value's calls followed by the right-hand side's calls. -/
theorem c10_assign_lvalue_before_rhs (lhs : LhsNode) (rhs : ZExpr) (o : Oracle)
    (env0 : Nat → RVal) (mem0 : List (Addr × RVal)) :
    ∀ val gfin, gen_assign_expr lhs rhs initGen = (val, gfin) →
      ∃ s2 : MState, Steps gfin o (initState env0 mem0) s2 ∧ step gfin o s2 = none ∧
        s2.trace = lvalTrace o lhs ++ (zeval o rhs).2 := by
  intro val gfin hgen
  rw [gen_assign_expr] at hgen
  injection hgen with h1 h2
  subst h2
  have hwf0 : initGen.insert < initGen.blocks.length := by decide
  have stL := gen_lvalue_static lhs initGen hwf0
  set G1 := (gen_lvalue lhs initGen).2 with hG1
  have stR := gen_expr_static rhs G1 (gen_expr rhs G1).1 (gen_expr rhs G1).2 rfl stL.wf
  set G2 := (gen_expr rhs G1).2 with hG2
  set stInst := Inst.store (gen_expr rhs G1).1 (gen_lvalue lhs initGen).1 with hstI
  have hextR : Ext G2 (G2.emit stInst) := ext_emit G2 stInst
  have hextL : Ext G1 (G2.emit stInst) := ext_trans stR.ext hextR
  obtain ⟨s1, a1, a2, a3, a4, a5, a6⟩ := gen_lvalue_sim lhs initGen o hwf0
    (G2.emit stInst) hextL (initState env0 mem0) rfl rfl
  obtain ⟨sE, b1, b2, b3, b4, b5, b6, b7⟩ := gen_expr_sim rhs G1 o
    (gen_expr rhs G1).1 G2 rfl stL.wf (G2.emit stInst) hextR s1 a2 a3
  have hgi : getInst (G2.emit stInst) G2.insert (lenAt G2 G2.insert) = some stInst :=
    getInst_emit_self G2 stInst stR.wf
  have hstepS := step_run (G2.emit stInst) o sE stInst (by rw [b2, b3]; exact hgi)
  refine ⟨_, steps_trans _ o _ _ _ a1 (steps_trans _ o _ _ _ b1 hstepS), ?_, ?_⟩
  · have hc : (execInst o sE stInst).cur = (G2.emit stInst).insert := by
      show sE.cur = (G2.emit stInst).insert
      rw [emit_insert]
      exact b2
    have hi : (execInst o sE stInst).idx =
        lenAt (G2.emit stInst) (G2.emit stInst).insert := by
      show sE.idx + 1 = _
      rw [emit_insert, lenAt_emit_self G2 stInst stR.wf, b3]
    unfold step
    rw [show getInst (G2.emit stInst) (execInst o sE stInst).cur (execInst o sE stInst).idx
        = none from by rw [hc, hi]; exact getInst_at_lenAt _ _]
  · show sE.trace = lvalTrace o lhs ++ (zeval o rhs).2
    rw [b5, a5]
    show (initState env0 mem0).trace ++ lvalTrace o lhs ++ (zeval o rhs).2 = _
    simp [initState]

/-- C10 witness: assigning call 6 to an array cell subscripted by call 5
records call 5 strictly before call 6. -/
theorem c10_assign_lvalue_before_rhs_witness :
    ∃ s2 : MState, Steps (gen_assign_expr (.arrayAccess (.array 3) (.evar 0) (.calli 5))
        (.calli 6) initGen).2
      { bcall := fun x => true, icall := fun x => 0 }
      (initState (fun x => .b false) []) s2 ∧
      step (gen_assign_expr (.arrayAccess (.array 3) (.evar 0) (.calli 5))
          (.calli 6) initGen).2
        { bcall := fun x => true, icall := fun x => 0 } s2 = none ∧
      s2.trace = [5, 6] := by
  obtain ⟨s2, h1, h2, h3⟩ := c10_assign_lvalue_before_rhs
    (.arrayAccess (.array 3) (.evar 0) (.calli 5)) (.calli 6)
    { bcall := fun x => true, icall := fun x => 0 } (fun x => .b false) []
    (gen_assign_expr (.arrayAccess (.array 3) (.evar 0) (.calli 5)) (.calli 6) initGen).1
    (gen_assign_expr (.arrayAccess (.array 3) (.evar 0) (.calli 5)) (.calli 6) initGen).2 rfl
  exact ⟨s2, h1, h2, by rw [h3]; rfl⟩

/-! ### Claim C3 -/

/-- Executing the six-instruction tail shared by the array and pointer
branches of gen_slice_expr stores the wrapped difference end − start
into the temporary's len field, which the newest store wins. -/
theorem slice_tail_mem (o : Oracle) (sE : MState) (tmp : Addr) (sv evl ptrv mid : LVal)
    (nR : Nat)
    (hsv : ∀ m, sv = .reg m → m < nR) (hev : ∀ m, evl = .reg m → m < nR) :
    memLookup (execSeq o sE [Inst.sgep nR (.caddr tmp) 0,
      Inst.gep2 (nR + 1) ptrv mid sv,
      Inst.store (.reg (nR + 1)) (.reg nR),
      Inst.sgep (nR + 2) (.caddr tmp) 1,
      Inst.sub (nR + 3) evl sv,
      Inst.store (.reg (nR + 3)) (.reg (nR + 2))]).mem (Addr.sfield tmp 1) =
    RVal.i (wrap64 ((evalV sE.env evl).asInt - (evalV sE.env sv).asInt)) := by
  simp only [execSeq, execInst, evalV_caddr, evalV_reg, evalV_cint, asAddr_a]
  rw [evalV_upd_lt _ nR _ sv hsv]
  rw [evalV_upd_lt _ (nR + 2) _ sv (fun m hm => by have := hsv m hm; omega)]
  rw [evalV_upd_lt _ (nR + 1) _ sv (fun m hm => by have := hsv m hm; omega)]
  rw [evalV_upd_lt _ nR _ sv hsv]
  rw [evalV_upd_lt _ (nR + 2) _ evl (fun m hm => by have := hev m hm; omega)]
  rw [evalV_upd_lt _ (nR + 1) _ evl (fun m hm => by have := hev m hm; omega)]
  rw [evalV_upd_lt _ nR _ evl hev]
  rw [upd_other _ (nR + 3) _ (nR + 2) (by omega)]
  rw [upd_same]
  rw [upd_same]
  simp [memLookup, asAddr_a]

/-- The pointer-base variant: the slice start is a one-index GEP. -/
theorem slice_tail_mem_ptr (o : Oracle) (sE : MState) (tmp : Addr) (sv evl ptrv : LVal)
    (nR : Nat)
    (hsv : ∀ m, sv = .reg m → m < nR) (hev : ∀ m, evl = .reg m → m < nR) :
    memLookup (execSeq o sE [Inst.sgep nR (.caddr tmp) 0,
      Inst.gep1 (nR + 1) ptrv sv,
      Inst.store (.reg (nR + 1)) (.reg nR),
      Inst.sgep (nR + 2) (.caddr tmp) 1,
      Inst.sub (nR + 3) evl sv,
      Inst.store (.reg (nR + 3)) (.reg (nR + 2))]).mem (Addr.sfield tmp 1) =
    RVal.i (wrap64 ((evalV sE.env evl).asInt - (evalV sE.env sv).asInt)) := by
  simp only [execSeq, execInst, evalV_caddr, evalV_reg, evalV_cint, asAddr_a]
  rw [evalV_upd_lt _ nR _ sv hsv]
  rw [evalV_upd_lt _ (nR + 2) _ sv (fun m hm => by have := hsv m hm; omega)]
  rw [evalV_upd_lt _ (nR + 1) _ sv (fun m hm => by have := hsv m hm; omega)]
  rw [evalV_upd_lt _ nR _ sv hsv]
  rw [evalV_upd_lt _ (nR + 2) _ evl (fun m hm => by have := hev m hm; omega)]
  rw [evalV_upd_lt _ (nR + 1) _ evl (fun m hm => by have := hev m hm; omega)]
  rw [evalV_upd_lt _ nR _ evl hev]
  rw [upd_other _ (nR + 3) _ (nR + 2) (by omega)]
  rw [upd_same]
  rw [upd_same]
  simp [memLookup, asAddr_a]

/-- The slice-base variant with an explicit end bound: the base's data
pointer is loaded first, then the two fields of the temporary are
stored. -/
theorem slice_tail_mem_uarray (o : Oracle) (sE : MState) (tmp : Addr) (sv evl ptrv : LVal)
    (nR : Nat)
    (hsv : ∀ m, sv = .reg m → m < nR) (hev : ∀ m, evl = .reg m → m < nR) :
    memLookup (execSeq o sE [Inst.sgep nR ptrv 0,
      Inst.load (nR + 1) (.reg nR),
      Inst.sgep (nR + 2) (.caddr tmp) 0,
      Inst.gep1 (nR + 3) (.reg (nR + 1)) sv,
      Inst.store (.reg (nR + 3)) (.reg (nR + 2)),
      Inst.sgep (nR + 4) (.caddr tmp) 1,
      Inst.sub (nR + 5) evl sv,
      Inst.store (.reg (nR + 5)) (.reg (nR + 4))]).mem (Addr.sfield tmp 1) =
    RVal.i (wrap64 ((evalV sE.env evl).asInt - (evalV sE.env sv).asInt)) := by
  simp only [execSeq, execInst, evalV_caddr, evalV_reg, evalV_cint, asAddr_a]
  rw [evalV_upd_lt _ (nR + 2) _ sv (fun m hm => by have := hsv m hm; omega)]
  rw [evalV_upd_lt _ (nR + 1) _ sv (fun m hm => by have := hsv m hm; omega)]
  rw [evalV_upd_lt _ nR _ sv hsv]
  rw [evalV_upd_lt _ (nR + 4) _ sv (fun m hm => by have := hsv m hm; omega)]
  rw [evalV_upd_lt _ (nR + 3) _ sv (fun m hm => by have := hsv m hm; omega)]
  rw [evalV_upd_lt _ (nR + 2) _ sv (fun m hm => by have := hsv m hm; omega)]
  rw [evalV_upd_lt _ (nR + 1) _ sv (fun m hm => by have := hsv m hm; omega)]
  rw [evalV_upd_lt _ nR _ sv hsv]
  rw [evalV_upd_lt _ (nR + 4) _ evl (fun m hm => by have := hev m hm; omega)]
  rw [evalV_upd_lt _ (nR + 3) _ evl (fun m hm => by have := hev m hm; omega)]
  rw [evalV_upd_lt _ (nR + 2) _ evl (fun m hm => by have := hev m hm; omega)]
  rw [evalV_upd_lt _ (nR + 1) _ evl (fun m hm => by have := hev m hm; omega)]
  rw [evalV_upd_lt _ nR _ evl hev]
  rw [upd_other _ (nR + 5) _ (nR + 4) (by omega)]
  rw [upd_same]
  rw [upd_same]
  simp [memLookup, asAddr_a]

/-- The slice-base variant with the end bound omitted: the base's len
field is loaded from the initial memory and becomes the subtrahend's
minuend. -/
theorem slice_tail_mem_uarray_noend (o : Oracle) (sE : MState) (tmp : Addr)
    (sv ptrv : LVal) (nR : Nat) (hsv : ∀ m, sv = .reg m → m < nR) :
    memLookup (execSeq o sE [Inst.sgep nR ptrv 1,
      Inst.load (nR + 1) (.reg nR),
      Inst.sgep (nR + 2) ptrv 0,
      Inst.load (nR + 3) (.reg (nR + 2)),
      Inst.sgep (nR + 4) (.caddr tmp) 0,
      Inst.gep1 (nR + 5) (.reg (nR + 3)) sv,
      Inst.store (.reg (nR + 5)) (.reg (nR + 4)),
      Inst.sgep (nR + 6) (.caddr tmp) 1,
      Inst.sub (nR + 7) (.reg (nR + 1)) sv,
      Inst.store (.reg (nR + 7)) (.reg (nR + 6))]).mem (Addr.sfield tmp 1) =
    RVal.i (wrap64
      ((memLookup sE.mem (Addr.sfield (evalV sE.env ptrv).asAddr 1)).asInt -
        (evalV sE.env sv).asInt)) := by
  simp only [execSeq, execInst, evalV_caddr, evalV_reg, evalV_cint, asAddr_a]
  rw [evalV_upd_lt _ (nR + 4) _ sv (fun m hm => by have := hsv m hm; omega)]
  rw [evalV_upd_lt _ (nR + 3) _ sv (fun m hm => by have := hsv m hm; omega)]
  rw [evalV_upd_lt _ (nR + 2) _ sv (fun m hm => by have := hsv m hm; omega)]
  rw [evalV_upd_lt _ (nR + 1) _ sv (fun m hm => by have := hsv m hm; omega)]
  rw [evalV_upd_lt _ nR _ sv hsv]
  rw [evalV_upd_lt _ (nR + 6) _ sv (fun m hm => by have := hsv m hm; omega)]
  rw [evalV_upd_lt _ (nR + 5) _ sv (fun m hm => by have := hsv m hm; omega)]
  rw [evalV_upd_lt _ (nR + 4) _ sv (fun m hm => by have := hsv m hm; omega)]
  rw [evalV_upd_lt _ (nR + 3) _ sv (fun m hm => by have := hsv m hm; omega)]
  rw [evalV_upd_lt _ (nR + 2) _ sv (fun m hm => by have := hsv m hm; omega)]
  rw [evalV_upd_lt _ (nR + 1) _ sv (fun m hm => by have := hsv m hm; omega)]
  rw [evalV_upd_lt _ nR _ sv hsv]
  simp [memLookup, asAddr_a, upd_same, upd_other]

/-- On exact integers, the 64-bit wrap of LLVMBuildSub is the identity
within the isize range. -/
theorem wrap64_eq_self (z : Int) (hlo : -(2:Int) ^ 63 ≤ z) (hhi : z < 2 ^ 63) :
    wrap64 z = z := by
  unfold wrap64
  have e1 : (2:Int) ^ 63 = 9223372036854775808 := by norm_num
  have e2 : (2:Int) ^ 64 = 18446744073709551616 := by norm_num
  rw [e1, e2]
  rw [e1] at hlo
  rw [e1] at hhi
  rw [Int.emod_eq_of_lt (by omega) (by omega)]
  omega

theorem asInt_i (z : Int) : (RVal.i z).asInt = z := rfl

/-- C3: for every slice expression over an array, raw-pointer, or slice
base, running the emitted code stores into the len field of the slice
temporary exactly end − start (as a wrapped 64-bit subtraction, exact
whenever the difference is in isize range), where an omitted end bound
defaults to the array's constant length for an array base and to the
len field loaded from the base slice for a slice base. -/
theorem c3_slice_len_field (node : SliceNode) (g : Gen) (o : Oracle) (val : LVal) (g2 : Gen)
    (hgen : gen_slice_expr node g = some (val, g2))
    (hwf : g.insert < g.blocks.length)
    (s : MState) (hcur : s.cur = g.insert) (hidx : s.idx = lenAt g g.insert)
    (hlo : -(2:Int) ^ 63 ≤ sliceEndValue o s.mem node - sliceStartValue o node)
    (hhi : sliceEndValue o s.mem node - sliceStartValue o node < 2 ^ 63) :
    ∃ s2 : MState, Steps g2 o s s2 ∧
      memLookup s2.mem (Addr.sfield node.tmp 1) =
        .i (sliceEndValue o s.mem node - sliceStartValue o node) ∧
      val = .caddr node.tmp := by
  rcases node with ⟨bk, aref, st, eo, tmp⟩
  simp only [gen_slice_expr] at hgen
  simp only [sliceEndValue, sliceStartValue] at hlo hhi ⊢
  cases bk with
  | array len =>
    cases eo with
    | none =>
      simp only at hgen hlo hhi ⊢
      injection hgen with h
      injection h with hval hg2
      subst hval
      have stA := gen_expr_static aref g (gen_expr aref g).1 (gen_expr aref g).2 rfl hwf
      have stS := gen_expr_static st (gen_expr aref g).2 (gen_expr st (gen_expr aref g).2).1 (gen_expr st (gen_expr aref g).2).2 rfl stA.wf
      have hbl : g2.blocks = (emitSeq (gen_expr st (gen_expr aref g).2).2
        [Inst.sgep (gen_expr st (gen_expr aref g).2).2.nextReg (.caddr tmp) 0,
          Inst.gep2 ((gen_expr st (gen_expr aref g).2).2.nextReg + 1) (gen_expr aref g).1 (LVal.cint 0) (gen_expr st (gen_expr aref g).2).1,
          Inst.store (.reg ((gen_expr st (gen_expr aref g).2).2.nextReg + 1)) (.reg (gen_expr st (gen_expr aref g).2).2.nextReg),
          Inst.sgep ((gen_expr st (gen_expr aref g).2).2.nextReg + 2) (.caddr tmp) 1,
          Inst.sub ((gen_expr st (gen_expr aref g).2).2.nextReg + 3) (LVal.cint (Int.ofNat len)) (gen_expr st (gen_expr aref g).2).1,
          Inst.store (.reg ((gen_expr st (gen_expr aref g).2).2.nextReg + 3)) (.reg ((gen_expr st (gen_expr aref g).2).2.nextReg + 2))]).blocks := by
        rw [← hg2]
        rfl
      have hext2 : Ext (gen_expr st (gen_expr aref g).2).2 g2 := ext_blocks_eq (emitSeq_ext _ (gen_expr st (gen_expr aref g).2).2) hbl.symm
      have hext1 : Ext (gen_expr aref g).2 g2 := ext_trans stS.ext hext2
      obtain ⟨s1, a1, a2, a3, a4, a5, a6, a7⟩ := gen_expr_sim aref g o (gen_expr aref g).1 (gen_expr aref g).2 rfl hwf
        g2 hext1 s hcur hidx
      obtain ⟨sE, b1, b2, b3, b4, b5, b6, b7⟩ := gen_expr_sim st (gen_expr aref g).2 o (gen_expr st (gen_expr aref g).2).1 (gen_expr st (gen_expr aref g).2).2 rfl
        stA.wf g2 hext2 s1 a2 a3
      have hstraight : ∀ inst ∈ [Inst.sgep (gen_expr st (gen_expr aref g).2).2.nextReg (.caddr tmp) 0,
          Inst.gep2 ((gen_expr st (gen_expr aref g).2).2.nextReg + 1) (gen_expr aref g).1 (LVal.cint 0) (gen_expr st (gen_expr aref g).2).1,
          Inst.store (.reg ((gen_expr st (gen_expr aref g).2).2.nextReg + 1)) (.reg (gen_expr st (gen_expr aref g).2).2.nextReg),
          Inst.sgep ((gen_expr st (gen_expr aref g).2).2.nextReg + 2) (.caddr tmp) 1,
          Inst.sub ((gen_expr st (gen_expr aref g).2).2.nextReg + 3) (LVal.cint (Int.ofNat len)) (gen_expr st (gen_expr aref g).2).1,
          Inst.store (.reg ((gen_expr st (gen_expr aref g).2).2.nextReg + 3)) (.reg ((gen_expr st (gen_expr aref g).2).2.nextReg + 2))], inst.straight = true := by
        intro inst h
        simp only [List.mem_cons, List.not_mem_nil, or_false] at h
        rcases h with rfl | rfl | rfl | rfl | rfl | rfl <;> rfl
      have hpos : ∀ k inst, ([Inst.sgep (gen_expr st (gen_expr aref g).2).2.nextReg (.caddr tmp) 0,
          Inst.gep2 ((gen_expr st (gen_expr aref g).2).2.nextReg + 1) (gen_expr aref g).1 (LVal.cint 0) (gen_expr st (gen_expr aref g).2).1,
          Inst.store (.reg ((gen_expr st (gen_expr aref g).2).2.nextReg + 1)) (.reg (gen_expr st (gen_expr aref g).2).2.nextReg),
          Inst.sgep ((gen_expr st (gen_expr aref g).2).2.nextReg + 2) (.caddr tmp) 1,
          Inst.sub ((gen_expr st (gen_expr aref g).2).2.nextReg + 3) (LVal.cint (Int.ofNat len)) (gen_expr st (gen_expr aref g).2).1,
          Inst.store (.reg ((gen_expr st (gen_expr aref g).2).2.nextReg + 3)) (.reg ((gen_expr st (gen_expr aref g).2).2.nextReg + 2))])[k]? = some inst →
          getInst g2 sE.cur (sE.idx + k) = some inst := by
        intro k inst hk
        rw [b2, b3, getInst_blocks_eq hbl]
        exact emitSeq_getInst _ (gen_expr st (gen_expr aref g).2).2 stS.wf k inst hk
      obtain ⟨r1, r2, r3⟩ := runSeq g2 o [Inst.sgep (gen_expr st (gen_expr aref g).2).2.nextReg (.caddr tmp) 0,
          Inst.gep2 ((gen_expr st (gen_expr aref g).2).2.nextReg + 1) (gen_expr aref g).1 (LVal.cint 0) (gen_expr st (gen_expr aref g).2).1,
          Inst.store (.reg ((gen_expr st (gen_expr aref g).2).2.nextReg + 1)) (.reg (gen_expr st (gen_expr aref g).2).2.nextReg),
          Inst.sgep ((gen_expr st (gen_expr aref g).2).2.nextReg + 2) (.caddr tmp) 1,
          Inst.sub ((gen_expr st (gen_expr aref g).2).2.nextReg + 3) (LVal.cint (Int.ofNat len)) (gen_expr st (gen_expr aref g).2).1,
          Inst.store (.reg ((gen_expr st (gen_expr aref g).2).2.nextReg + 3)) (.reg ((gen_expr st (gen_expr aref g).2).2.nextReg + 2))] sE hstraight hpos
      have hmemv := slice_tail_mem o sE tmp (gen_expr st (gen_expr aref g).2).1 (LVal.cint (Int.ofNat len)) (gen_expr aref g).1
        (LVal.cint 0) (gen_expr st (gen_expr aref g).2).2.nextReg stS.val_lt (fun m hm => by simp at hm)
      refine ⟨_, steps_trans g2 o _ _ _ a1 (steps_trans g2 o _ _ _ b1 r1), ?_, rfl⟩
      rw [hmemv, evalV_cint, asInt_i, b7, wrap64_eq_self _ hlo hhi]
    | some e =>
      simp only at hgen hlo hhi ⊢
      injection hgen with h
      injection h with hval hg2
      subst hval
      have stA := gen_expr_static aref g (gen_expr aref g).1 (gen_expr aref g).2 rfl hwf
      have stS := gen_expr_static st (gen_expr aref g).2 (gen_expr st (gen_expr aref g).2).1 (gen_expr st (gen_expr aref g).2).2 rfl stA.wf
      have stE := gen_expr_static e (gen_expr st (gen_expr aref g).2).2 (gen_expr e (gen_expr st (gen_expr aref g).2).2).1 (gen_expr e (gen_expr st (gen_expr aref g).2).2).2 rfl stS.wf
      have hbl : g2.blocks = (emitSeq (gen_expr e (gen_expr st (gen_expr aref g).2).2).2
        [Inst.sgep (gen_expr e (gen_expr st (gen_expr aref g).2).2).2.nextReg (.caddr tmp) 0,
          Inst.gep2 ((gen_expr e (gen_expr st (gen_expr aref g).2).2).2.nextReg + 1) (gen_expr aref g).1 (LVal.cint 0) (gen_expr st (gen_expr aref g).2).1,
          Inst.store (.reg ((gen_expr e (gen_expr st (gen_expr aref g).2).2).2.nextReg + 1)) (.reg (gen_expr e (gen_expr st (gen_expr aref g).2).2).2.nextReg),
          Inst.sgep ((gen_expr e (gen_expr st (gen_expr aref g).2).2).2.nextReg + 2) (.caddr tmp) 1,
          Inst.sub ((gen_expr e (gen_expr st (gen_expr aref g).2).2).2.nextReg + 3) (gen_expr e (gen_expr st (gen_expr aref g).2).2).1 (gen_expr st (gen_expr aref g).2).1,
          Inst.store (.reg ((gen_expr e (gen_expr st (gen_expr aref g).2).2).2.nextReg + 3)) (.reg ((gen_expr e (gen_expr st (gen_expr aref g).2).2).2.nextReg + 2))]).blocks := by
        rw [← hg2]
        rfl
      have hext3 : Ext (gen_expr e (gen_expr st (gen_expr aref g).2).2).2 g2 := ext_blocks_eq (emitSeq_ext _ (gen_expr e (gen_expr st (gen_expr aref g).2).2).2) hbl.symm
      have hext2 : Ext (gen_expr st (gen_expr aref g).2).2 g2 := ext_trans stE.ext hext3
      have hext1 : Ext (gen_expr aref g).2 g2 := ext_trans stS.ext hext2
      obtain ⟨s1, a1, a2, a3, a4, a5, a6, a7⟩ := gen_expr_sim aref g o (gen_expr aref g).1 (gen_expr aref g).2 rfl hwf
        g2 hext1 s hcur hidx
      obtain ⟨sS, b1, b2, b3, b4, b5, b6, b7⟩ := gen_expr_sim st (gen_expr aref g).2 o (gen_expr st (gen_expr aref g).2).1 (gen_expr st (gen_expr aref g).2).2 rfl
        stA.wf g2 hext2 s1 a2 a3
      obtain ⟨sE, c1, c2, c3, c4, c5, c6, c7⟩ := gen_expr_sim e (gen_expr st (gen_expr aref g).2).2 o (gen_expr e (gen_expr st (gen_expr aref g).2).2).1 (gen_expr e (gen_expr st (gen_expr aref g).2).2).2 rfl
        stS.wf g2 hext3 sS b2 b3
      have hstraight : ∀ inst ∈ [Inst.sgep (gen_expr e (gen_expr st (gen_expr aref g).2).2).2.nextReg (.caddr tmp) 0,
          Inst.gep2 ((gen_expr e (gen_expr st (gen_expr aref g).2).2).2.nextReg + 1) (gen_expr aref g).1 (LVal.cint 0) (gen_expr st (gen_expr aref g).2).1,
          Inst.store (.reg ((gen_expr e (gen_expr st (gen_expr aref g).2).2).2.nextReg + 1)) (.reg (gen_expr e (gen_expr st (gen_expr aref g).2).2).2.nextReg),
          Inst.sgep ((gen_expr e (gen_expr st (gen_expr aref g).2).2).2.nextReg + 2) (.caddr tmp) 1,
          Inst.sub ((gen_expr e (gen_expr st (gen_expr aref g).2).2).2.nextReg + 3) (gen_expr e (gen_expr st (gen_expr aref g).2).2).1 (gen_expr st (gen_expr aref g).2).1,
          Inst.store (.reg ((gen_expr e (gen_expr st (gen_expr aref g).2).2).2.nextReg + 3)) (.reg ((gen_expr e (gen_expr st (gen_expr aref g).2).2).2.nextReg + 2))], inst.straight = true := by
        intro inst h
        simp only [List.mem_cons, List.not_mem_nil, or_false] at h
        rcases h with rfl | rfl | rfl | rfl | rfl | rfl <;> rfl
      have hpos : ∀ k inst, ([Inst.sgep (gen_expr e (gen_expr st (gen_expr aref g).2).2).2.nextReg (.caddr tmp) 0,
          Inst.gep2 ((gen_expr e (gen_expr st (gen_expr aref g).2).2).2.nextReg + 1) (gen_expr aref g).1 (LVal.cint 0) (gen_expr st (gen_expr aref g).2).1,
          Inst.store (.reg ((gen_expr e (gen_expr st (gen_expr aref g).2).2).2.nextReg + 1)) (.reg (gen_expr e (gen_expr st (gen_expr aref g).2).2).2.nextReg),
          Inst.sgep ((gen_expr e (gen_expr st (gen_expr aref g).2).2).2.nextReg + 2) (.caddr tmp) 1,
          Inst.sub ((gen_expr e (gen_expr st (gen_expr aref g).2).2).2.nextReg + 3) (gen_expr e (gen_expr st (gen_expr aref g).2).2).1 (gen_expr st (gen_expr aref g).2).1,
          Inst.store (.reg ((gen_expr e (gen_expr st (gen_expr aref g).2).2).2.nextReg + 3)) (.reg ((gen_expr e (gen_expr st (gen_expr aref g).2).2).2.nextReg + 2))])[k]? = some inst →
          getInst g2 sE.cur (sE.idx + k) = some inst := by
        intro k inst hk
        rw [c2, c3, getInst_blocks_eq hbl]
        exact emitSeq_getInst _ (gen_expr e (gen_expr st (gen_expr aref g).2).2).2 stE.wf k inst hk
      obtain ⟨r1, r2, r3⟩ := runSeq g2 o [Inst.sgep (gen_expr e (gen_expr st (gen_expr aref g).2).2).2.nextReg (.caddr tmp) 0,
          Inst.gep2 ((gen_expr e (gen_expr st (gen_expr aref g).2).2).2.nextReg + 1) (gen_expr aref g).1 (LVal.cint 0) (gen_expr st (gen_expr aref g).2).1,
          Inst.store (.reg ((gen_expr e (gen_expr st (gen_expr aref g).2).2).2.nextReg + 1)) (.reg (gen_expr e (gen_expr st (gen_expr aref g).2).2).2.nextReg),
          Inst.sgep ((gen_expr e (gen_expr st (gen_expr aref g).2).2).2.nextReg + 2) (.caddr tmp) 1,
          Inst.sub ((gen_expr e (gen_expr st (gen_expr aref g).2).2).2.nextReg + 3) (gen_expr e (gen_expr st (gen_expr aref g).2).2).1 (gen_expr st (gen_expr aref g).2).1,
          Inst.store (.reg ((gen_expr e (gen_expr st (gen_expr aref g).2).2).2.nextReg + 3)) (.reg ((gen_expr e (gen_expr st (gen_expr aref g).2).2).2.nextReg + 2))] sE hstraight hpos
      have hS1v : evalV sE.env (gen_expr st (gen_expr aref g).2).1 = (zeval o st).1 := by
        rw [evalV_congr sE.env sS.env (gen_expr st (gen_expr aref g).2).1 (fun m hm => c6 m (stS.val_lt m hm))]
        exact b7
      have hmemv := slice_tail_mem o sE tmp (gen_expr st (gen_expr aref g).2).1 (gen_expr e (gen_expr st (gen_expr aref g).2).2).1 (gen_expr aref g).1 (LVal.cint 0) (gen_expr e (gen_expr st (gen_expr aref g).2).2).2.nextReg
        (fun m hm => lt_of_lt_of_le (stS.val_lt m hm) stE.reg_le) stE.val_lt
      refine ⟨_, steps_trans g2 o _ _ _ a1 (steps_trans g2 o _ _ _ b1
        (steps_trans g2 o _ _ _ c1 r1)), ?_, rfl⟩
      rw [hmemv, c7, hS1v, wrap64_eq_self _ hlo hhi]
  | pointer =>
    cases eo with
    | none =>
      simp only at hgen
      exact Option.noConfusion hgen
    | some e =>
      simp only at hgen hlo hhi ⊢
      injection hgen with h
      injection h with hval hg2
      subst hval
      have stA := gen_expr_static aref g (gen_expr aref g).1 (gen_expr aref g).2 rfl hwf
      have stS := gen_expr_static st (gen_expr aref g).2 (gen_expr st (gen_expr aref g).2).1 (gen_expr st (gen_expr aref g).2).2 rfl stA.wf
      have stE := gen_expr_static e (gen_expr st (gen_expr aref g).2).2 (gen_expr e (gen_expr st (gen_expr aref g).2).2).1 (gen_expr e (gen_expr st (gen_expr aref g).2).2).2 rfl stS.wf
      have hbl : g2.blocks = (emitSeq (gen_expr e (gen_expr st (gen_expr aref g).2).2).2
        [Inst.sgep (gen_expr e (gen_expr st (gen_expr aref g).2).2).2.nextReg (.caddr tmp) 0,
          Inst.gep1 ((gen_expr e (gen_expr st (gen_expr aref g).2).2).2.nextReg + 1) (gen_expr aref g).1 (gen_expr st (gen_expr aref g).2).1,
          Inst.store (.reg ((gen_expr e (gen_expr st (gen_expr aref g).2).2).2.nextReg + 1)) (.reg (gen_expr e (gen_expr st (gen_expr aref g).2).2).2.nextReg),
          Inst.sgep ((gen_expr e (gen_expr st (gen_expr aref g).2).2).2.nextReg + 2) (.caddr tmp) 1,
          Inst.sub ((gen_expr e (gen_expr st (gen_expr aref g).2).2).2.nextReg + 3) (gen_expr e (gen_expr st (gen_expr aref g).2).2).1 (gen_expr st (gen_expr aref g).2).1,
          Inst.store (.reg ((gen_expr e (gen_expr st (gen_expr aref g).2).2).2.nextReg + 3)) (.reg ((gen_expr e (gen_expr st (gen_expr aref g).2).2).2.nextReg + 2))]).blocks := by
        rw [← hg2]
        rfl
      have hext3 : Ext (gen_expr e (gen_expr st (gen_expr aref g).2).2).2 g2 := ext_blocks_eq (emitSeq_ext _ (gen_expr e (gen_expr st (gen_expr aref g).2).2).2) hbl.symm
      have hext2 : Ext (gen_expr st (gen_expr aref g).2).2 g2 := ext_trans stE.ext hext3
      have hext1 : Ext (gen_expr aref g).2 g2 := ext_trans stS.ext hext2
      obtain ⟨s1, a1, a2, a3, a4, a5, a6, a7⟩ := gen_expr_sim aref g o (gen_expr aref g).1 (gen_expr aref g).2 rfl hwf
        g2 hext1 s hcur hidx
      obtain ⟨sS, b1, b2, b3, b4, b5, b6, b7⟩ := gen_expr_sim st (gen_expr aref g).2 o (gen_expr st (gen_expr aref g).2).1 (gen_expr st (gen_expr aref g).2).2 rfl
        stA.wf g2 hext2 s1 a2 a3
      obtain ⟨sE, c1, c2, c3, c4, c5, c6, c7⟩ := gen_expr_sim e (gen_expr st (gen_expr aref g).2).2 o (gen_expr e (gen_expr st (gen_expr aref g).2).2).1 (gen_expr e (gen_expr st (gen_expr aref g).2).2).2 rfl
        stS.wf g2 hext3 sS b2 b3
      have hstraight : ∀ inst ∈ [Inst.sgep (gen_expr e (gen_expr st (gen_expr aref g).2).2).2.nextReg (.caddr tmp) 0,
          Inst.gep1 ((gen_expr e (gen_expr st (gen_expr aref g).2).2).2.nextReg + 1) (gen_expr aref g).1 (gen_expr st (gen_expr aref g).2).1,
          Inst.store (.reg ((gen_expr e (gen_expr st (gen_expr aref g).2).2).2.nextReg + 1)) (.reg (gen_expr e (gen_expr st (gen_expr aref g).2).2).2.nextReg),
          Inst.sgep ((gen_expr e (gen_expr st (gen_expr aref g).2).2).2.nextReg + 2) (.caddr tmp) 1,
          Inst.sub ((gen_expr e (gen_expr st (gen_expr aref g).2).2).2.nextReg + 3) (gen_expr e (gen_expr st (gen_expr aref g).2).2).1 (gen_expr st (gen_expr aref g).2).1,
          Inst.store (.reg ((gen_expr e (gen_expr st (gen_expr aref g).2).2).2.nextReg + 3)) (.reg ((gen_expr e (gen_expr st (gen_expr aref g).2).2).2.nextReg + 2))], inst.straight = true := by
        intro inst h
        simp only [List.mem_cons, List.not_mem_nil, or_false] at h
        rcases h with rfl | rfl | rfl | rfl | rfl | rfl <;> rfl
      have hpos : ∀ k inst, ([Inst.sgep (gen_expr e (gen_expr st (gen_expr aref g).2).2).2.nextReg (.caddr tmp) 0,
          Inst.gep1 ((gen_expr e (gen_expr st (gen_expr aref g).2).2).2.nextReg + 1) (gen_expr aref g).1 (gen_expr st (gen_expr aref g).2).1,
          Inst.store (.reg ((gen_expr e (gen_expr st (gen_expr aref g).2).2).2.nextReg + 1)) (.reg (gen_expr e (gen_expr st (gen_expr aref g).2).2).2.nextReg),
          Inst.sgep ((gen_expr e (gen_expr st (gen_expr aref g).2).2).2.nextReg + 2) (.caddr tmp) 1,
          Inst.sub ((gen_expr e (gen_expr st (gen_expr aref g).2).2).2.nextReg + 3) (gen_expr e (gen_expr st (gen_expr aref g).2).2).1 (gen_expr st (gen_expr aref g).2).1,
          Inst.store (.reg ((gen_expr e (gen_expr st (gen_expr aref g).2).2).2.nextReg + 3)) (.reg ((gen_expr e (gen_expr st (gen_expr aref g).2).2).2.nextReg + 2))])[k]? = some inst →
          getInst g2 sE.cur (sE.idx + k) = some inst := by
        intro k inst hk
        rw [c2, c3, getInst_blocks_eq hbl]
        exact emitSeq_getInst _ (gen_expr e (gen_expr st (gen_expr aref g).2).2).2 stE.wf k inst hk
      obtain ⟨r1, r2, r3⟩ := runSeq g2 o [Inst.sgep (gen_expr e (gen_expr st (gen_expr aref g).2).2).2.nextReg (.caddr tmp) 0,
          Inst.gep1 ((gen_expr e (gen_expr st (gen_expr aref g).2).2).2.nextReg + 1) (gen_expr aref g).1 (gen_expr st (gen_expr aref g).2).1,
          Inst.store (.reg ((gen_expr e (gen_expr st (gen_expr aref g).2).2).2.nextReg + 1)) (.reg (gen_expr e (gen_expr st (gen_expr aref g).2).2).2.nextReg),
          Inst.sgep ((gen_expr e (gen_expr st (gen_expr aref g).2).2).2.nextReg + 2) (.caddr tmp) 1,
          Inst.sub ((gen_expr e (gen_expr st (gen_expr aref g).2).2).2.nextReg + 3) (gen_expr e (gen_expr st (gen_expr aref g).2).2).1 (gen_expr st (gen_expr aref g).2).1,
          Inst.store (.reg ((gen_expr e (gen_expr st (gen_expr aref g).2).2).2.nextReg + 3)) (.reg ((gen_expr e (gen_expr st (gen_expr aref g).2).2).2.nextReg + 2))] sE hstraight hpos
      have hS1v : evalV sE.env (gen_expr st (gen_expr aref g).2).1 = (zeval o st).1 := by
        rw [evalV_congr sE.env sS.env (gen_expr st (gen_expr aref g).2).1 (fun m hm => c6 m (stS.val_lt m hm))]
        exact b7
      have hmemv := slice_tail_mem_ptr o sE tmp (gen_expr st (gen_expr aref g).2).1 (gen_expr e (gen_expr st (gen_expr aref g).2).2).1 (gen_expr aref g).1 (gen_expr e (gen_expr st (gen_expr aref g).2).2).2.nextReg
        (fun m hm => lt_of_lt_of_le (stS.val_lt m hm) stE.reg_le) stE.val_lt
      refine ⟨_, steps_trans g2 o _ _ _ a1 (steps_trans g2 o _ _ _ b1
        (steps_trans g2 o _ _ _ c1 r1)), ?_, rfl⟩
      rw [hmemv, c7, hS1v, wrap64_eq_self _ hlo hhi]
  | uarray =>
    cases eo with
    | none =>
      simp only at hgen hlo hhi ⊢
      injection hgen with h
      injection h with hval hg2
      subst hval
      have stA := gen_expr_static aref g (gen_expr aref g).1 (gen_expr aref g).2 rfl hwf
      have stS := gen_expr_static st (gen_expr aref g).2 (gen_expr st (gen_expr aref g).2).1 (gen_expr st (gen_expr aref g).2).2 rfl stA.wf
      have hbl : g2.blocks = (emitSeq (gen_expr st (gen_expr aref g).2).2
        [Inst.sgep (gen_expr st (gen_expr aref g).2).2.nextReg (gen_expr aref g).1 1,
          Inst.load ((gen_expr st (gen_expr aref g).2).2.nextReg + 1) (.reg (gen_expr st (gen_expr aref g).2).2.nextReg),
          Inst.sgep ((gen_expr st (gen_expr aref g).2).2.nextReg + 2) (gen_expr aref g).1 0,
          Inst.load ((gen_expr st (gen_expr aref g).2).2.nextReg + 3) (.reg ((gen_expr st (gen_expr aref g).2).2.nextReg + 2)),
          Inst.sgep ((gen_expr st (gen_expr aref g).2).2.nextReg + 4) (.caddr tmp) 0,
          Inst.gep1 ((gen_expr st (gen_expr aref g).2).2.nextReg + 5) (.reg ((gen_expr st (gen_expr aref g).2).2.nextReg + 3)) (gen_expr st (gen_expr aref g).2).1,
          Inst.store (.reg ((gen_expr st (gen_expr aref g).2).2.nextReg + 5)) (.reg ((gen_expr st (gen_expr aref g).2).2.nextReg + 4)),
          Inst.sgep ((gen_expr st (gen_expr aref g).2).2.nextReg + 6) (.caddr tmp) 1,
          Inst.sub ((gen_expr st (gen_expr aref g).2).2.nextReg + 7) (.reg ((gen_expr st (gen_expr aref g).2).2.nextReg + 1)) (gen_expr st (gen_expr aref g).2).1,
          Inst.store (.reg ((gen_expr st (gen_expr aref g).2).2.nextReg + 7)) (.reg ((gen_expr st (gen_expr aref g).2).2.nextReg + 6))]).blocks := by
        rw [← hg2]
        rfl
      have hext2 : Ext (gen_expr st (gen_expr aref g).2).2 g2 := ext_blocks_eq (emitSeq_ext _ (gen_expr st (gen_expr aref g).2).2) hbl.symm
      have hext1 : Ext (gen_expr aref g).2 g2 := ext_trans stS.ext hext2
      obtain ⟨s1, a1, a2, a3, a4, a5, a6, a7⟩ := gen_expr_sim aref g o (gen_expr aref g).1 (gen_expr aref g).2 rfl hwf
        g2 hext1 s hcur hidx
      obtain ⟨sE, b1, b2, b3, b4, b5, b6, b7⟩ := gen_expr_sim st (gen_expr aref g).2 o (gen_expr st (gen_expr aref g).2).1 (gen_expr st (gen_expr aref g).2).2 rfl
        stA.wf g2 hext2 s1 a2 a3
      have hstraight : ∀ inst ∈ [Inst.sgep (gen_expr st (gen_expr aref g).2).2.nextReg (gen_expr aref g).1 1,
          Inst.load ((gen_expr st (gen_expr aref g).2).2.nextReg + 1) (.reg (gen_expr st (gen_expr aref g).2).2.nextReg),
          Inst.sgep ((gen_expr st (gen_expr aref g).2).2.nextReg + 2) (gen_expr aref g).1 0,
          Inst.load ((gen_expr st (gen_expr aref g).2).2.nextReg + 3) (.reg ((gen_expr st (gen_expr aref g).2).2.nextReg + 2)),
          Inst.sgep ((gen_expr st (gen_expr aref g).2).2.nextReg + 4) (.caddr tmp) 0,
          Inst.gep1 ((gen_expr st (gen_expr aref g).2).2.nextReg + 5) (.reg ((gen_expr st (gen_expr aref g).2).2.nextReg + 3)) (gen_expr st (gen_expr aref g).2).1,
          Inst.store (.reg ((gen_expr st (gen_expr aref g).2).2.nextReg + 5)) (.reg ((gen_expr st (gen_expr aref g).2).2.nextReg + 4)),
          Inst.sgep ((gen_expr st (gen_expr aref g).2).2.nextReg + 6) (.caddr tmp) 1,
          Inst.sub ((gen_expr st (gen_expr aref g).2).2.nextReg + 7) (.reg ((gen_expr st (gen_expr aref g).2).2.nextReg + 1)) (gen_expr st (gen_expr aref g).2).1,
          Inst.store (.reg ((gen_expr st (gen_expr aref g).2).2.nextReg + 7)) (.reg ((gen_expr st (gen_expr aref g).2).2.nextReg + 6))], inst.straight = true := by
        intro inst h
        simp only [List.mem_cons, List.not_mem_nil, or_false] at h
        rcases h with rfl | rfl | rfl | rfl | rfl | rfl | rfl | rfl | rfl | rfl <;> rfl
      have hpos : ∀ k inst, ([Inst.sgep (gen_expr st (gen_expr aref g).2).2.nextReg (gen_expr aref g).1 1,
          Inst.load ((gen_expr st (gen_expr aref g).2).2.nextReg + 1) (.reg (gen_expr st (gen_expr aref g).2).2.nextReg),
          Inst.sgep ((gen_expr st (gen_expr aref g).2).2.nextReg + 2) (gen_expr aref g).1 0,
          Inst.load ((gen_expr st (gen_expr aref g).2).2.nextReg + 3) (.reg ((gen_expr st (gen_expr aref g).2).2.nextReg + 2)),
          Inst.sgep ((gen_expr st (gen_expr aref g).2).2.nextReg + 4) (.caddr tmp) 0,
          Inst.gep1 ((gen_expr st (gen_expr aref g).2).2.nextReg + 5) (.reg ((gen_expr st (gen_expr aref g).2).2.nextReg + 3)) (gen_expr st (gen_expr aref g).2).1,
          Inst.store (.reg ((gen_expr st (gen_expr aref g).2).2.nextReg + 5)) (.reg ((gen_expr st (gen_expr aref g).2).2.nextReg + 4)),
          Inst.sgep ((gen_expr st (gen_expr aref g).2).2.nextReg + 6) (.caddr tmp) 1,
          Inst.sub ((gen_expr st (gen_expr aref g).2).2.nextReg + 7) (.reg ((gen_expr st (gen_expr aref g).2).2.nextReg + 1)) (gen_expr st (gen_expr aref g).2).1,
          Inst.store (.reg ((gen_expr st (gen_expr aref g).2).2.nextReg + 7)) (.reg ((gen_expr st (gen_expr aref g).2).2.nextReg + 6))])[k]? = some inst →
          getInst g2 sE.cur (sE.idx + k) = some inst := by
        intro k inst hk
        rw [b2, b3, getInst_blocks_eq hbl]
        exact emitSeq_getInst _ (gen_expr st (gen_expr aref g).2).2 stS.wf k inst hk
      obtain ⟨r1, r2, r3⟩ := runSeq g2 o [Inst.sgep (gen_expr st (gen_expr aref g).2).2.nextReg (gen_expr aref g).1 1,
          Inst.load ((gen_expr st (gen_expr aref g).2).2.nextReg + 1) (.reg (gen_expr st (gen_expr aref g).2).2.nextReg),
          Inst.sgep ((gen_expr st (gen_expr aref g).2).2.nextReg + 2) (gen_expr aref g).1 0,
          Inst.load ((gen_expr st (gen_expr aref g).2).2.nextReg + 3) (.reg ((gen_expr st (gen_expr aref g).2).2.nextReg + 2)),
          Inst.sgep ((gen_expr st (gen_expr aref g).2).2.nextReg + 4) (.caddr tmp) 0,
          Inst.gep1 ((gen_expr st (gen_expr aref g).2).2.nextReg + 5) (.reg ((gen_expr st (gen_expr aref g).2).2.nextReg + 3)) (gen_expr st (gen_expr aref g).2).1,
          Inst.store (.reg ((gen_expr st (gen_expr aref g).2).2.nextReg + 5)) (.reg ((gen_expr st (gen_expr aref g).2).2.nextReg + 4)),
          Inst.sgep ((gen_expr st (gen_expr aref g).2).2.nextReg + 6) (.caddr tmp) 1,
          Inst.sub ((gen_expr st (gen_expr aref g).2).2.nextReg + 7) (.reg ((gen_expr st (gen_expr aref g).2).2.nextReg + 1)) (gen_expr st (gen_expr aref g).2).1,
          Inst.store (.reg ((gen_expr st (gen_expr aref g).2).2.nextReg + 7)) (.reg ((gen_expr st (gen_expr aref g).2).2.nextReg + 6))] sE hstraight hpos
      have hmemv := slice_tail_mem_uarray_noend o sE tmp (gen_expr st (gen_expr aref g).2).1 (gen_expr aref g).1
        (gen_expr st (gen_expr aref g).2).2.nextReg stS.val_lt
      have hA : evalV sE.env (gen_expr aref g).1 = (zeval o aref).1 := by
        rw [evalV_congr sE.env s1.env (gen_expr aref g).1 (fun m hm => b6 m (stA.val_lt m hm))]
        exact a7
      refine ⟨_, steps_trans g2 o _ _ _ a1 (steps_trans g2 o _ _ _ b1 r1), ?_, rfl⟩
      rw [hmemv, hA, b4, a4, b7, wrap64_eq_self _ hlo hhi]
    | some e =>
      simp only at hgen hlo hhi ⊢
      injection hgen with h
      injection h with hval hg2
      subst hval
      have stA := gen_expr_static aref g (gen_expr aref g).1 (gen_expr aref g).2 rfl hwf
      have stS := gen_expr_static st (gen_expr aref g).2 (gen_expr st (gen_expr aref g).2).1 (gen_expr st (gen_expr aref g).2).2 rfl stA.wf
      have stE := gen_expr_static e (gen_expr st (gen_expr aref g).2).2 (gen_expr e (gen_expr st (gen_expr aref g).2).2).1 (gen_expr e (gen_expr st (gen_expr aref g).2).2).2 rfl stS.wf
      have hbl : g2.blocks = (emitSeq (gen_expr e (gen_expr st (gen_expr aref g).2).2).2
        [Inst.sgep (gen_expr e (gen_expr st (gen_expr aref g).2).2).2.nextReg (gen_expr aref g).1 0,
          Inst.load ((gen_expr e (gen_expr st (gen_expr aref g).2).2).2.nextReg + 1) (.reg (gen_expr e (gen_expr st (gen_expr aref g).2).2).2.nextReg),
          Inst.sgep ((gen_expr e (gen_expr st (gen_expr aref g).2).2).2.nextReg + 2) (.caddr tmp) 0,
          Inst.gep1 ((gen_expr e (gen_expr st (gen_expr aref g).2).2).2.nextReg + 3) (.reg ((gen_expr e (gen_expr st (gen_expr aref g).2).2).2.nextReg + 1)) (gen_expr st (gen_expr aref g).2).1,
          Inst.store (.reg ((gen_expr e (gen_expr st (gen_expr aref g).2).2).2.nextReg + 3)) (.reg ((gen_expr e (gen_expr st (gen_expr aref g).2).2).2.nextReg + 2)),
          Inst.sgep ((gen_expr e (gen_expr st (gen_expr aref g).2).2).2.nextReg + 4) (.caddr tmp) 1,
          Inst.sub ((gen_expr e (gen_expr st (gen_expr aref g).2).2).2.nextReg + 5) (gen_expr e (gen_expr st (gen_expr aref g).2).2).1 (gen_expr st (gen_expr aref g).2).1,
          Inst.store (.reg ((gen_expr e (gen_expr st (gen_expr aref g).2).2).2.nextReg + 5)) (.reg ((gen_expr e (gen_expr st (gen_expr aref g).2).2).2.nextReg + 4))]).blocks := by
        rw [← hg2]
        rfl
      have hext3 : Ext (gen_expr e (gen_expr st (gen_expr aref g).2).2).2 g2 := ext_blocks_eq (emitSeq_ext _ (gen_expr e (gen_expr st (gen_expr aref g).2).2).2) hbl.symm
      have hext2 : Ext (gen_expr st (gen_expr aref g).2).2 g2 := ext_trans stE.ext hext3
      have hext1 : Ext (gen_expr aref g).2 g2 := ext_trans stS.ext hext2
      obtain ⟨s1, a1, a2, a3, a4, a5, a6, a7⟩ := gen_expr_sim aref g o (gen_expr aref g).1 (gen_expr aref g).2 rfl hwf
        g2 hext1 s hcur hidx
      obtain ⟨sS, b1, b2, b3, b4, b5, b6, b7⟩ := gen_expr_sim st (gen_expr aref g).2 o (gen_expr st (gen_expr aref g).2).1 (gen_expr st (gen_expr aref g).2).2 rfl
        stA.wf g2 hext2 s1 a2 a3
      obtain ⟨sE, c1, c2, c3, c4, c5, c6, c7⟩ := gen_expr_sim e (gen_expr st (gen_expr aref g).2).2 o (gen_expr e (gen_expr st (gen_expr aref g).2).2).1 (gen_expr e (gen_expr st (gen_expr aref g).2).2).2 rfl
        stS.wf g2 hext3 sS b2 b3
      have hstraight : ∀ inst ∈ [Inst.sgep (gen_expr e (gen_expr st (gen_expr aref g).2).2).2.nextReg (gen_expr aref g).1 0,
          Inst.load ((gen_expr e (gen_expr st (gen_expr aref g).2).2).2.nextReg + 1) (.reg (gen_expr e (gen_expr st (gen_expr aref g).2).2).2.nextReg),
          Inst.sgep ((gen_expr e (gen_expr st (gen_expr aref g).2).2).2.nextReg + 2) (.caddr tmp) 0,
          Inst.gep1 ((gen_expr e (gen_expr st (gen_expr aref g).2).2).2.nextReg + 3) (.reg ((gen_expr e (gen_expr st (gen_expr aref g).2).2).2.nextReg + 1)) (gen_expr st (gen_expr aref g).2).1,
          Inst.store (.reg ((gen_expr e (gen_expr st (gen_expr aref g).2).2).2.nextReg + 3)) (.reg ((gen_expr e (gen_expr st (gen_expr aref g).2).2).2.nextReg + 2)),
          Inst.sgep ((gen_expr e (gen_expr st (gen_expr aref g).2).2).2.nextReg + 4) (.caddr tmp) 1,
          Inst.sub ((gen_expr e (gen_expr st (gen_expr aref g).2).2).2.nextReg + 5) (gen_expr e (gen_expr st (gen_expr aref g).2).2).1 (gen_expr st (gen_expr aref g).2).1,
          Inst.store (.reg ((gen_expr e (gen_expr st (gen_expr aref g).2).2).2.nextReg + 5)) (.reg ((gen_expr e (gen_expr st (gen_expr aref g).2).2).2.nextReg + 4))], inst.straight = true := by
        intro inst h
        simp only [List.mem_cons, List.not_mem_nil, or_false] at h
        rcases h with rfl | rfl | rfl | rfl | rfl | rfl | rfl | rfl <;> rfl
      have hpos : ∀ k inst, ([Inst.sgep (gen_expr e (gen_expr st (gen_expr aref g).2).2).2.nextReg (gen_expr aref g).1 0,
          Inst.load ((gen_expr e (gen_expr st (gen_expr aref g).2).2).2.nextReg + 1) (.reg (gen_expr e (gen_expr st (gen_expr aref g).2).2).2.nextReg),
          Inst.sgep ((gen_expr e (gen_expr st (gen_expr aref g).2).2).2.nextReg + 2) (.caddr tmp) 0,
          Inst.gep1 ((gen_expr e (gen_expr st (gen_expr aref g).2).2).2.nextReg + 3) (.reg ((gen_expr e (gen_expr st (gen_expr aref g).2).2).2.nextReg + 1)) (gen_expr st (gen_expr aref g).2).1,
          Inst.store (.reg ((gen_expr e (gen_expr st (gen_expr aref g).2).2).2.nextReg + 3)) (.reg ((gen_expr e (gen_expr st (gen_expr aref g).2).2).2.nextReg + 2)),
          Inst.sgep ((gen_expr e (gen_expr st (gen_expr aref g).2).2).2.nextReg + 4) (.caddr tmp) 1,
          Inst.sub ((gen_expr e (gen_expr st (gen_expr aref g).2).2).2.nextReg + 5) (gen_expr e (gen_expr st (gen_expr aref g).2).2).1 (gen_expr st (gen_expr aref g).2).1,
          Inst.store (.reg ((gen_expr e (gen_expr st (gen_expr aref g).2).2).2.nextReg + 5)) (.reg ((gen_expr e (gen_expr st (gen_expr aref g).2).2).2.nextReg + 4))])[k]? = some inst →
          getInst g2 sE.cur (sE.idx + k) = some inst := by
        intro k inst hk
        rw [c2, c3, getInst_blocks_eq hbl]
        exact emitSeq_getInst _ (gen_expr e (gen_expr st (gen_expr aref g).2).2).2 stE.wf k inst hk
      obtain ⟨r1, r2, r3⟩ := runSeq g2 o [Inst.sgep (gen_expr e (gen_expr st (gen_expr aref g).2).2).2.nextReg (gen_expr aref g).1 0,
          Inst.load ((gen_expr e (gen_expr st (gen_expr aref g).2).2).2.nextReg + 1) (.reg (gen_expr e (gen_expr st (gen_expr aref g).2).2).2.nextReg),
          Inst.sgep ((gen_expr e (gen_expr st (gen_expr aref g).2).2).2.nextReg + 2) (.caddr tmp) 0,
          Inst.gep1 ((gen_expr e (gen_expr st (gen_expr aref g).2).2).2.nextReg + 3) (.reg ((gen_expr e (gen_expr st (gen_expr aref g).2).2).2.nextReg + 1)) (gen_expr st (gen_expr aref g).2).1,
          Inst.store (.reg ((gen_expr e (gen_expr st (gen_expr aref g).2).2).2.nextReg + 3)) (.reg ((gen_expr e (gen_expr st (gen_expr aref g).2).2).2.nextReg + 2)),
          Inst.sgep ((gen_expr e (gen_expr st (gen_expr aref g).2).2).2.nextReg + 4) (.caddr tmp) 1,
          Inst.sub ((gen_expr e (gen_expr st (gen_expr aref g).2).2).2.nextReg + 5) (gen_expr e (gen_expr st (gen_expr aref g).2).2).1 (gen_expr st (gen_expr aref g).2).1,
          Inst.store (.reg ((gen_expr e (gen_expr st (gen_expr aref g).2).2).2.nextReg + 5)) (.reg ((gen_expr e (gen_expr st (gen_expr aref g).2).2).2.nextReg + 4))] sE hstraight hpos
      have hS1v : evalV sE.env (gen_expr st (gen_expr aref g).2).1 = (zeval o st).1 := by
        rw [evalV_congr sE.env sS.env (gen_expr st (gen_expr aref g).2).1 (fun m hm => c6 m (stS.val_lt m hm))]
        exact b7
      have hmemv := slice_tail_mem_uarray o sE tmp (gen_expr st (gen_expr aref g).2).1 (gen_expr e (gen_expr st (gen_expr aref g).2).2).1 (gen_expr aref g).1 (gen_expr e (gen_expr st (gen_expr aref g).2).2).2.nextReg
        (fun m hm => lt_of_lt_of_le (stS.val_lt m hm) stE.reg_le) stE.val_lt
      refine ⟨_, steps_trans g2 o _ _ _ a1 (steps_trans g2 o _ _ _ b1
        (steps_trans g2 o _ _ _ c1 r1)), ?_, rfl⟩
      rw [hmemv, c7, hS1v, wrap64_eq_self _ hlo hhi]

/-- C3 witness: slicing a 5-element array from 1 to 4 stores len 3 in
the temporary; the theorem is applied at the concrete node. -/
theorem c3_slice_len_field_witness :
    ∃ s2 : MState,
      Steps ((gen_slice_expr
          { baseKind := .array 5, arrayRef := .evar 0, start := .cint 1, endOpt := some (.cint 4), tmp := .base 9 } initGen).getD (LVal.cint 0, initGen)).2
        { bcall := fun x => true, icall := fun x => 0 }
        (initState (fun x => RVal.b false) []) s2 ∧
      memLookup s2.mem (Addr.sfield (Addr.base 9) 1) = RVal.i 3 := by
  obtain ⟨s2, h1, h2, h3⟩ := c3_slice_len_field
    { baseKind := .array 5, arrayRef := .evar 0, start := .cint 1, endOpt := some (.cint 4), tmp := .base 9 } initGen
    { bcall := fun x => true, icall := fun x => 0 }
    ((gen_slice_expr
      { baseKind := .array 5, arrayRef := .evar 0, start := .cint 1, endOpt := some (.cint 4), tmp := .base 9 } initGen).getD (LVal.cint 0, initGen)).1
    ((gen_slice_expr
      { baseKind := .array 5, arrayRef := .evar 0, start := .cint 1, endOpt := some (.cint 4), tmp := .base 9 } initGen).getD (LVal.cint 0, initGen)).2
    rfl (by decide) (initState (fun x => RVal.b false) []) rfl rfl (by decide) (by decide)
  exact ⟨s2, h1, by rw [h2]; rfl⟩

end ZigCodegen
